import Mathlib

/-!
Shallow embedding of the CDCL SAT-engine core of `sat_api.c` (the
`primitives` library: variables, literals, clauses, two-watched-literal
unit propagation, 1-UIP conflict analysis, clause learning and
chronological undo), together with theorems settling the specification
claims about it.

Conventions of the embedding:
* variables are numbered `1..n`; index `0` is the synthetic contradiction
  variable (`sat_state->contradiction`), whose positive literal is the
  integer literal `0`;
* literals are integers `±v` (`Lit*` objects are identified by their id);
* clauses are identified by their numeric `id`: original clauses have ids
  `1..m` (stored positionally), learned clauses have ids `> m` (stored
  newest-first, as the C `learned_clauses` list);
* the intrusive C lists (`watch_list`, `learned_list`, `appears_in`,
  `subsumed_clauses`) become Lean lists of clause ids, head-insertion
  preserved;
* the C `ARRAY` of `decided_literals` (the trail) and `propagate_literals`
  (the BCP queue) become Lean lists, oldest first; `count--` is `dropLast`;
* fields left uninitialized by the C code (`malloc` garbage: the
  contradiction variable's decision record, `assertion_level` of original
  clauses) are modeled as zeroed;
* loops without a structural bound in C (`sat_unit_resolution`'s queue
  drain, the `dominator` walk) take explicit fuel; the fuel chosen is
  sufficient for every modeled execution, and the theorems that need no
  completed propagation hold for every fuel value.
-/

namespace SatApi

/-- The per-variable decision record of `struct var` (`decision.{level,
value, implied_by, dominator, order}`).  `level = 0` means uninstantiated;
`impliedBy = none` marks a decision variable. -/
structure Decision where
  level : Nat
  value : Bool
  impliedBy : Option Nat
  dominator : Option Nat
  ord : Nat
deriving DecidableEq, Repr, Inhabited

/-- Zero-initialised decision record (`init_Var` sets `level = 0`; the other
fields are malloc garbage in C, modeled as zeroed). -/
def Decision.init : Decision := ⟨0, false, none, none, 0⟩

/-- The index lists hanging off one `struct literal`: `appears_in`,
`watch_list` and `learned_list`, as lists of clause ids (head-insertion
preserved for the two intrusive lists). -/
structure LitData where
  appearsIn : List Nat
  watchList : List Nat
  learnedList : List Nat
deriving DecidableEq, Repr, Inhabited

/-- Empty literal index lists (`init_Lit`). -/
def LitData.init : LitData := ⟨[], [], []⟩

/-- One `struct var`: its decision record and the data of its two owned
literal slots (`lit[pos]`, `lit[neg]`).  The client-only `mark` field is
never read or written by the core and is omitted. -/
structure Var where
  decision : Decision
  posData : LitData
  negData : LitData
deriving DecidableEq, Repr, Inhabited

/-- Fresh variable (`init_Var`). -/
def Var.init : Var := ⟨Decision.init, LitData.init, LitData.init⟩

/-- One `struct clause`: id, assertion level, literal list, the two watched
literal references and the subsumption flag.  The client-only `mark` field
is omitted. -/
structure Clause where
  id : Nat
  assertionLevel : Nat
  lits : List Int
  watchA : Option Int
  watchB : Option Int
  isSubsumed : Bool
deriving DecidableEq, Repr, Inhabited

/-- Default clause returned when a clause id fails to resolve (C follows a
pointer instead; lookups in modeled executions always resolve). -/
def junkClause : Clause := ⟨0, 0, [], none, none, false⟩

/-- `struct sat_state_t`. -/
structure SatState where
  level : Nat
  vars : List Var
  contradiction : Decision
  falseClause : Clause
  origClauses : List Clause
  learned : List Clause
  trail : List Int
  queue : List Int
  subsumedLog : List (Option Nat)
  marks : List Bool
deriving DecidableEq, Repr, Inhabited

/-- The variable of a literal (`lit->var`). -/
def litVar (l : Int) : Nat := l.natAbs

namespace SatState

/-- Decision record of variable `v` (`0` is the contradiction variable). -/
def getDecision (s : SatState) (v : Nat) : Decision :=
  if v = 0 then s.contradiction
  else (s.vars.getD (v - 1) Var.init).decision

/-- Replace the decision record of variable `v`. -/
def setDecision (s : SatState) (v : Nat) (d : Decision) : SatState :=
  if v = 0 then { s with contradiction := d }
  else { s with
         vars := s.vars.set (v - 1)
           { s.vars.getD (v - 1) Var.init with decision := d } }

/-- Index lists of literal `l`.  Literal `0` (the contradiction variable's
positive literal) has empty lists that no modeled operation updates. -/
def getLitData (s : SatState) (l : Int) : LitData :=
  if 0 < l then (s.vars.getD (litVar l - 1) Var.init).posData
  else if l < 0 then (s.vars.getD (litVar l - 1) Var.init).negData
  else LitData.init

/-- Update the index lists of literal `l` (no-op on literal `0`, whose lists
are never touched by the modeled operations). -/
def modifyLitData (s : SatState) (l : Int) (f : LitData → LitData) : SatState :=
  if 0 < l then
    let w := s.vars.getD (litVar l - 1) Var.init
    { s with vars := s.vars.set (litVar l - 1) { w with posData := f w.posData } }
  else if l < 0 then
    let w := s.vars.getD (litVar l - 1) Var.init
    { s with vars := s.vars.set (litVar l - 1) { w with negData := f w.negData } }
  else s

/-- Resolve a clause id: `0` is the synthetic `false_clause`, `1..m` are the
original clauses (positional), larger ids are searched in the learned list. -/
def getClause (s : SatState) (cid : Nat) : Clause :=
  if cid = 0 then s.falseClause
  else if cid ≤ s.origClauses.length then s.origClauses.getD (cid - 1) junkClause
  else ((s.learned.find? fun c => c.id = cid).getD junkClause)

/-- Update the clause with id `cid` in place (C mutates through the
pointer).  The `false_clause` (id `0`) is never modified by the modeled
operations. -/
def modifyClause (s : SatState) (cid : Nat) (f : Clause → Clause) : SatState :=
  if cid = 0 then s
  else if cid ≤ s.origClauses.length then
    { s with origClauses :=
        s.origClauses.set (cid - 1) (f (s.origClauses.getD (cid - 1) junkClause)) }
  else
    { s with learned := s.learned.map fun c => if c.id = cid then f c else c }

end SatState

/-- `set_Var_Decision`: store level, value and implier (orders and
dominators are left untouched). -/
def set_Var_Decision (s : SatState) (v : Nat) (lvl : Nat) (value : Bool)
    (implier : Option Nat) : SatState :=
  s.setDecision v { s.getDecision v with level := lvl, value := value, impliedBy := implier }

/-- `unset_Var_Decision`: only the level is zeroed; value, implier, order
and dominator keep their stale contents. -/
def unset_Var_Decision (s : SatState) (v : Nat) : SatState :=
  s.setDecision v { s.getDecision v with level := 0 }

/-- `sat_instantiated_var`. -/
def sat_instantiated_var (s : SatState) (v : Nat) : Bool :=
  0 < (s.getDecision v).level

/-- `sat_implied_literal`: instantiated and `(id < 0) ^ value`. -/
def sat_implied_literal (s : SatState) (l : Int) : Bool :=
  sat_instantiated_var s (litVar l) && (decide (l < 0) != (s.getDecision (litVar l)).value)

/-- `sat_subsumed_clause`. -/
def sat_subsumed_clause (s : SatState) (cid : Nat) : Bool :=
  (s.getClause cid).isSubsumed

/-- `sat_subsume_clause`: idempotent; on a live clause it raises the flag
and pushes a node onto `subsumed_clauses`. -/
def sat_subsume_clause (cid : Nat) (s : SatState) : SatState :=
  if (s.getClause cid).isSubsumed then s
  else
    let s' := s.modifyClause cid fun c => { c with isSubsumed := true }
    { s' with subsumedLog := some cid :: s'.subsumedLog }

/-- `sat_irrelevant_var`: every original clause mentioning the variable is
subsumed (positive appearances scanned first, as in C). -/
def sat_irrelevant_var (s : SatState) (v : Nat) : Bool :=
  ((s.getLitData (Int.ofNat v)).appearsIn.all fun cid => sat_subsumed_clause s cid) &&
  ((s.getLitData (-(Int.ofNat v))).appearsIn.all fun cid => sat_subsumed_clause s cid)

/-- `sat_var_count`. -/
def sat_var_count (s : SatState) : Nat := s.vars.length

/-- `sat_clause_count`. -/
def sat_clause_count (s : SatState) : Nat := s.origClauses.length

/-- `sat_learned_clause_count`: id of the newest learned clause minus the
original clause count, or 0 when nothing was learned. -/
def sat_learned_clause_count (s : SatState) : Nat :=
  match s.learned.head? with
  | none => 0
  | some c => c.id - s.origClauses.length

/-- `sat_at_assertion_level`. -/
def sat_at_assertion_level (c : Clause) (s : SatState) : Bool :=
  c.assertionLevel = s.level

/-- `sat_contradiction`: record the conflict on the synthetic contradiction
variable and append its positive literal (literal `0`) to the trail;
returns `false` (CONFLICT). -/
def sat_contradiction (implier : Option Nat) (s : SatState) : Bool × SatState :=
  let s₁ := set_Var_Decision s 0 s.level true implier
  (false, { s₁ with trail := s₁.trail ++ [0] })

/-- `set_Lit_Decision`: assign a fresh variable at the current level and
append to the trail; on an already implied literal subsume the implier
(C dereferences a null implier here, which no modeled flow does); on a
falsified literal record the conflict. -/
def set_Lit_Decision (l : Int) (implier : Option Nat) (s : SatState) : Bool × SatState :=
  if ¬ sat_instantiated_var s (litVar l) then
    let s₁ := set_Var_Decision s (litVar l) s.level (decide (0 < l)) implier
    (true, { s₁ with trail := s₁.trail ++ [l] })
  else if ¬ sat_implied_literal s l then
    sat_contradiction implier s
  else
    (true, match implier with
           | some cid => sat_subsume_clause cid s
           | none => s)

/-- Outcome of the replacement-watch scan in `sat_unwatched_literal`. -/
inductive ScanRes where
  | found (m : Int)
  | satisfied
  | nofind
deriving DecidableEq, Repr, Inhabited

/-- The literal scan of `sat_unwatched_literal`: skip falsified literals,
stop with `satisfied` at the first implied literal, skip uninstantiated
current watches, stop with `found` at the first uninstantiated non-watch. -/
def unwatchedScan (s : SatState) (c : Clause) : List Int → ScanRes
  | [] => .nofind
  | l :: rest =>
    if sat_instantiated_var s (litVar l) then
      if sat_implied_literal s l then .satisfied
      else unwatchedScan s c rest
    else if some l = c.watchA ∨ some l = c.watchB then unwatchedScan s c rest
    else .found l

/-- `sat_unwatched_literal`: run the scan; on `satisfied` subsume the clause
and return no replacement. -/
def sat_unwatched_literal (cid : Nat) (s : SatState) : Option Int × SatState :=
  let c := s.getClause cid
  match unwatchedScan s c c.lits with
  | .found m => (some m, s)
  | .satisfied => (none, sat_subsume_clause cid s)
  | .nofind => (none, s)

/-- Result of processing one clause of `(¬l).watch_list` in
`propagate_lit_decision`: the node stays, the node moves to the watch list
of the replacement literal, or propagation aborts on a conflict. -/
inductive WStep where
  | keep (s : SatState)
  | move (m : Int) (s : SatState)
  | stop (s : SatState)

/-- The body of the watch-list loop of `propagate_lit_decision` for a single
watching clause `cid` (with `clit` the falsified watched literal). -/
def watch_clause_step (clit : Int) (cid : Nat) (s : SatState) : WStep :=
  if sat_subsumed_clause s cid then .keep s
  else
    let r := sat_unwatched_literal cid s
    let s₁ := r.2
    if sat_subsumed_clause s₁ cid then .keep s₁
    else
      match r.1 with
      | some m =>
        let c := s₁.getClause cid
        let s₂ :=
          if c.watchA = some clit then
            s₁.modifyClause cid fun c' => { c' with watchA := some m }
          else
            s₁.modifyClause cid fun c' => { c' with watchB := some m }
        .move m s₂
      | none =>
        let c := s₁.getClause cid
        let other := if c.watchA = some clit then c.watchB else c.watchA
        match other with
        | none => .stop (sat_contradiction (some cid) s₁).2
        | some o =>
          if sat_instantiated_var s₁ (litVar o) then
            if sat_implied_literal s₁ o then .keep (sat_subsume_clause cid s₁)
            else .stop (sat_contradiction (some cid) s₁).2
          else
            let r' := set_Lit_Decision o (some cid) s₁
            if r'.1 then .keep { r'.2 with queue := r'.2.queue ++ [o] }
            else .stop r'.2

/-- Overwrite the watch list of literal `l`. -/
def SatState.setWatchList (s : SatState) (l : Int) (wl : List Nat) : SatState :=
  s.modifyLitData l fun d => { d with watchList := wl }

/-- The watch-list loop of `propagate_lit_decision`: process the snapshot of
`clit`'s watch list in order; kept nodes stay (in order), moved nodes are
head-inserted into the replacement literal's watch list, and a conflict
stops the loop with the remaining nodes still in place. -/
def processWL (clit : Int) : List Nat → List Nat → SatState → Bool × SatState
  | [], kept, s => (true, s.setWatchList clit kept.reverse)
  | cid :: rest, kept, s =>
    match watch_clause_step clit cid s with
    | .keep s' => processWL clit rest (cid :: kept) s'
    | .move m s' =>
      let s'' := s'.modifyLitData m fun d => { d with watchList := cid :: d.watchList }
      processWL clit rest kept s''
    | .stop s' => (false, s'.setWatchList clit (kept.reverse ++ cid :: rest))

/-- `propagate_lit_decision`: eagerly subsume every original clause of
`l.appears_in` and every learned clause of `l.learned_list`, then walk the
watch list of the complement literal. -/
def propagate_lit_decision (l : Int) (s : SatState) : Bool × SatState :=
  let s₁ := (s.getLitData l).appearsIn.foldl (fun st cid => sat_subsume_clause cid st) s
  let s₂ := (s.getLitData l).learnedList.foldl (fun st cid => sat_subsume_clause cid st) s₁
  let clit : Int := -l
  processWL clit (s₂.getLitData clit).watchList [] s₂

/-- The queue drain of `sat_unit_resolution` (`i` is the read cursor into
`propagate_literals`; the array end is re-read every iteration, so newly
enqueued literals are drained too).  Fuel decreases every iteration; the
fuel supplied by `sat_unit_resolution` can never run out because every
enqueue instantiates a fresh variable. -/
def urGo : Nat → Nat → SatState → Bool × SatState
  | 0, _, s => (false, s)
  | fuel + 1, i, s =>
    if i < s.queue.length then
      let r := propagate_lit_decision (s.queue.getD i 0) s
      if r.1 then urGo fuel (i + 1) r.2 else (false, r.2)
    else (true, { s with queue := [] })

/-- `sat_unit_resolution`: drain the queue; on success clear it, on conflict
leave the state for `sat_undo_unit_resolution` to reset. -/
def sat_unit_resolution (s : SatState) : Bool × SatState :=
  urGo (s.queue.length + s.vars.length + 1) 0 s

/-- Trail-popping loop of `sat_undo_unit_resolution`, expressed on the
reversed trail: pop entries while the entry's variable sits at the given
level, zeroing the variable's level. -/
def popTrailGo (lvl : Nat) : List Int → SatState → List Int × SatState
  | [], s => ([], s)
  | l :: rest, s =>
    if (s.getDecision (litVar l)).level = lvl then
      popTrailGo lvl rest (unset_Var_Decision s (litVar l))
    else (l :: rest, s)

/-- Subsumption-log popping loop of `sat_undo_unit_resolution`: revive
clauses until (and including) the first sentinel; an exhausted log without
sentinel stops at the end, as the C loop does. -/
def popLogGo : List (Option Nat) → SatState → List (Option Nat) × SatState
  | [], s => ([], s)
  | none :: rest, s => (rest, s)
  | some cid :: rest, s =>
    popLogGo rest (s.modifyClause cid fun c => { c with isSubsumed := false })

/-- `sat_undo_unit_resolution`: pop current-level trail entries, replay the
subsumption log through the current level's sentinel, clear the queue. -/
def sat_undo_unit_resolution (s : SatState) : SatState :=
  let r := popTrailGo s.level s.trail.reverse s
  let s₁ := { r.2 with trail := r.1.reverse }
  let r₂ := popLogGo s₁.subsumedLog s₁
  { r₂.2 with subsumedLog := r₂.1, queue := [] }

/-- The common-dominator walk of `dominator`: advance the variable with the
smaller order to its own dominator until the two meet.  C loops forever
when distinct variables carry equal orders and faults on a null dominator;
neither occurs in modeled flows, and the fueled walk stops there. -/
def dominatorGo (s : SatState) : Nat → Nat → Nat → Nat
  | 0, v1, _ => v1
  | fuel + 1, v1, v2 =>
    if v1 = v2 then v1
    else if (s.getDecision v1).ord < (s.getDecision v2).ord then
      match (s.getDecision v2).dominator with
      | some d => dominatorGo s fuel v1 d
      | none => v1
    else if (s.getDecision v2).ord < (s.getDecision v1).ord then
      match (s.getDecision v1).dominator with
      | some d => dominatorGo s fuel d v2
      | none => v1
    else v1

/-- `dominator(var1, var2)` with the standard fuel. -/
def dominator (s : SatState) (v1 v2 : Nat) : Nat :=
  dominatorGo s (s.trail.length + s.vars.length + 1) v1 v2

/-- Decision-suffix initialisation loop of `sat_compute_UIP`, walking the
reversed trail: implied entries get `order := index, dominator := ∅`; the
first decision entry gets itself as dominator and stops the walk.  Returns
the updated state and the trail entries strictly after the decision, in
trail order.  (C underflows when no decision exists; no modeled flow
reaches that.) -/
def uipInitGo : List Int → Nat → SatState → List Int → SatState × List Int
  | [], _, s, acc => (s, acc)
  | l :: rest, idx, s, acc =>
    let v := litVar l
    if (s.getDecision v).impliedBy ≠ none then
      uipInitGo rest (idx - 1)
        (s.setDecision v { s.getDecision v with ord := idx, dominator := none }) (l :: acc)
    else
      (s.setDecision v { s.getDecision v with ord := idx, dominator := some v }, acc)

/-- Predecessor fold of `sat_compute_UIP` for one implied trail entry `x`:
for each literal of the implying clause at the current level and distinct
from `x`, merge it into `x`'s dominator via the common-dominator walk. -/
def uipPredFold (x : Int) : List Int → SatState → SatState
  | [], s => s
  | p :: ps, s =>
    if (s.getDecision (litVar p)).level ≠ s.level ∨ p = x then uipPredFold x ps s
    else
      let vx := litVar x
      let nd :=
        match (s.getDecision vx).dominator with
        | none => litVar p
        | some d => dominator s (litVar p) d
      uipPredFold x ps (s.setDecision vx { s.getDecision vx with dominator := some nd })

/-- Forward dominator-computation loop of `sat_compute_UIP` over the
current-level entries after the decision.  (C dereferences a null
`implied_by` if such an entry were a decision; no modeled flow has one.) -/
def uipForwardGo : List Int → SatState → SatState
  | [], s => s
  | x :: rest, s =>
    let s' :=
      match (s.getDecision (litVar x)).impliedBy with
      | none => s
      | some cid => uipPredFold x (s.getClause cid).lits s
    uipForwardGo rest s'

/-- `sat_compute_UIP`: run both loops and return the contradiction
variable's dominator. -/
def sat_compute_UIP (s : SatState) : SatState × Option Nat :=
  let r := uipInitGo s.trail.reverse (s.trail.length - 1) s []
  let s₂ := uipForwardGo r.2 r.1
  (s₂, (s₂.getDecision 0).dominator)

/-- Marking fold of `sat_build_asserting_clause`'s backward sweep: mark
every yet-unmarked strictly-lower-level variable of the implying clause,
counting fresh marks. -/
def bacMarkPreds (lvl : Nat) : List Int → SatState → Nat → SatState × Nat
  | [], s, k => (s, k)
  | p :: ps, s, k =>
    let v := litVar p
    if (s.getDecision v).level < lvl ∧ ¬ s.marks.getD v false then
      bacMarkPreds lvl ps { s with marks := s.marks.set v true } (k + 1)
    else bacMarkPreds lvl ps s k

/-- Backward sweep of `sat_build_asserting_clause` over the reversed trail:
stop at the UIP; for every entry dominated by the UIP, mark the
lower-level literals of its implying clause.  (C underflows past the trail
start and faults on null dominators or impliers; no modeled flow does.) -/
def bacBackGo (uip : Nat) (lvl : Nat) : List Int → SatState → Nat → SatState × Nat
  | [], s, k => (s, k)
  | dl :: rest, s, k =>
    let v := litVar dl
    if v = uip then (s, k)
    else
      let dominated :=
        match (s.getDecision v).dominator with
        | some d => decide (dominator s uip d = uip)
        | none => false
      let r :=
        if dominated then
          match (s.getDecision v).impliedBy with
          | some cid => bacMarkPreds lvl (s.getClause cid).lits s k
          | none => (s, k)
        else (s, k)
      bacBackGo uip lvl rest r.1 r.2

/-- Forward sweep of `sat_build_asserting_clause` over the lower-level trail
head: emit the negation of every marked variable (unmarking it) and track
the maximum encountered level as the assertion level. -/
def bacForwardGo (lvl : Nat) : List Int → SatState → List Int → Nat →
    SatState × List Int × Nat
  | [], s, acc, al => (s, acc, al)
  | l :: rest, s, acc, al =>
    let v := litVar l
    if (s.getDecision v).level < lvl then
      if s.marks.getD v false then
        bacForwardGo lvl rest { s with marks := s.marks.set v false }
          (acc ++ [if (s.getDecision v).value then -(Int.ofNat v) else Int.ofNat v])
          (if al < (s.getDecision v).level then (s.getDecision v).level else al)
      else bacForwardGo lvl rest s acc al
    else (s, acc, al)

/-- `sat_build_asserting_clause`: compute the UIP, mark the reason side in a
backward sweep, then build the clause — UIP negation first, then the
negations of the marked lower-level literals in trail order, with the
assertion level the maximum of their levels (floor 1).  The new id is one
past the newest learned id (or the original clause count). -/
def sat_build_asserting_clause (s : SatState) : Clause × SatState :=
  let r := sat_compute_UIP s
  match r.2 with
  | none => (junkClause, r.1)
  | some uip =>
    let s₁ := r.1
    let rb := bacBackGo uip s₁.level s₁.trail.reverse s₁ 1
    let s₂ := rb.1
    let cid :=
      (match s₂.learned.head? with
       | some c => c.id
       | none => s₂.origClauses.length) + 1
    let uipLit : Int :=
      if (s₂.getDecision uip).value then -(Int.ofNat uip) else Int.ofNat uip
    if 1 < rb.2 then
      let rf := bacForwardGo s₂.level s₂.trail s₂ [] 1
      (⟨cid, rf.2.2, uipLit :: rf.2.1, none, none, false⟩, rf.1)
    else
      (⟨cid, 1, [uipLit], none, none, false⟩, s₂)

/-- `sat_decide_literal`: bump the level, push a sentinel onto the
subsumption log, assign the literal, enqueue it and run unit resolution;
on failure return the freshly built asserting clause. -/
def sat_decide_literal (l : Int) (s : SatState) : Option Clause × SatState :=
  let s₁ := { s with level := s.level + 1, subsumedLog := none :: s.subsumedLog }
  let r := set_Lit_Decision l none s₁
  let r₂ :=
    if r.1 then sat_unit_resolution { r.2 with queue := r.2.queue ++ [l] }
    else (false, r.2)
  if r₂.1 then (none, r₂.2)
  else
    let rb := sat_build_asserting_clause r₂.2
    (some rb.1, rb.2)

/-- `sat_undo_decide_literal`. -/
def sat_undo_decide_literal (s : SatState) : SatState :=
  { sat_undo_unit_resolution s with level := s.level - 1 }

/-- The `if(!passed)` tail of `sat_assert_clause`: on success no clause is
returned; on failure a new asserting clause is built when the level is
above the root, and the `false_clause` sentinel is returned at level 1. -/
def assertOutcome (passed : Bool) (s : SatState) : Option Clause × SatState :=
  if passed then (none, s)
  else if 1 < s.level then
    let rb := sat_build_asserting_clause s
    (some rb.1, rb.2)
  else (some s.falseClause, s)

/-- The watch installation of `sat_assert_clause`: `watch_a ← lits[0]` and
`watch_b ← lits[size-1]` (for a one-literal clause both watches are that
literal; C reads out of bounds when the clause is empty, modeled by the
`Option` accessors). -/
def assertWatched (c : Clause) : Clause :=
  { c with watchA := c.lits.head?, watchB := c.lits.getLast? }

/-- `sat_assert_clause`: push the clause onto `learned_clauses` and each
literal's `learned_list`, watch the first and last literals, assign the
first watch with the clause as implier, enqueue it, insert the watch nodes
and run unit resolution.  On failure return a new asserting clause, or the
`false_clause` sentinel at the root level.  (C reads `lits.item[0]` out of
bounds for an empty clause; driver-supplied clauses are never empty.) -/
def sat_assert_clause (c : Clause) (s : SatState) : Option Clause × SatState :=
  let c₁ := assertWatched c
  let s₁ := { s with learned := c₁ :: s.learned }
  let s₂ := c.lits.foldl
    (fun st l => st.modifyLitData l fun d => { d with learnedList := c.id :: d.learnedList }) s₁
  match c.lits.head? with
  | none => (none, s₂)
  | some wa =>
    let r := set_Lit_Decision wa (some c.id) s₂
    let r₂ :=
      if r.1 then
        let s₃ := { r.2 with queue := r.2.queue ++ [wa] }
        let s₄ := s₃.modifyLitData wa fun d => { d with watchList := c.id :: d.watchList }
        let wb := (c.lits.getLast?).getD wa
        let s₅ := s₄.modifyLitData wb fun d => { d with watchList := c.id :: d.watchList }
        sat_unit_resolution s₅
      else (false, r.2)
    assertOutcome r₂.1 r₂.2

/-- `read_clause`: the parsed literal tokens of one clause become its
literal list (the C routine counts `appears_in` capacities and reuses the
trail array as scratch on the way; both are invisible in the list model).
The assertion level is malloc garbage in C, modeled as 0. -/
def read_clause (cid : Nat) (toks : List Int) : Clause :=
  ⟨cid, 0, toks, none, none, false⟩

/-- The per-clause watch setup of `read_sat_cnf`'s reading loop: watch the
first literal (C reads `lits.item[0]` unconditionally — an out-of-bounds
read on a zero-length literal array, modeled as `none`), and the second
when the clause has at least two literals. -/
def installClause (s : SatState) (c : Clause) : Option SatState :=
  match c.lits with
  | [] => none
  | l0 :: rest =>
    let c₁ := { c with watchA := some l0, watchB := rest.head? }
    let s₁ := { s with origClauses := s.origClauses ++ [c₁] }
    let s₂ := s₁.modifyLitData l0 fun d => { d with watchList := c.id :: d.watchList }
    match rest.head? with
    | none => some s₂
    | some l1 =>
      some (s₂.modifyLitData l1 fun d => { d with watchList := c.id :: d.watchList })

/-- The final loop of `read_sat_cnf` for one clause: fill `appears_in` for
multi-literal clauses (and for every clause once a root conflict was seen);
feed each unit clause through `set_Lit_Decision` with itself as implier and
enqueue its literal, undoing the contradiction trail entry on failure. -/
def seedClause (s : SatState) (passed : Bool) (cid : Nat) : SatState × Bool :=
  let c := s.getClause cid
  if 1 < c.lits.length ∨ ¬ passed then
    (c.lits.foldl
      (fun st l => st.modifyLitData l fun d => { d with appearsIn := d.appearsIn ++ [cid] }) s,
     passed)
  else
    match c.watchA with
    | none => (s, passed)
    | some wa =>
      let s₁ := s.modifyLitData wa fun d => { d with appearsIn := d.appearsIn ++ [cid] }
      let r := set_Lit_Decision wa (some cid) s₁
      let s₂ :=
        if r.1 then r.2
        else { r.2.modifyClause cid (fun c' => { c' with isSubsumed := false }) with
               trail := r.2.trail.dropLast }
      ({ s₂ with queue := s₂.queue ++ [wa] }, r.1)

/-- One iteration of the clause-reading loop of `read_sat_cnf` (threaded
through the fold; a prior out-of-bounds abort propagates). -/
def installStep (acc : Option SatState) (toks : List Int) : Option SatState :=
  match acc with
  | none => none
  | some st => installClause st (read_clause (st.origClauses.length + 1) toks)

/-- `read_sat_cnf` on an already tokenised DIMACS body (the text parser is
an external collaborator): allocate the variables, read each clause and set
its watches, then run the unit-seeding loop.  Returns `none` when the C
code would read a literal out of a zero-length clause array. -/
def read_sat_cnf (n : Nat) (cnf : List (List Int)) (s : SatState) : Option SatState :=
  let s₁ := { s with vars := List.replicate n Var.init }
  let installed := cnf.foldl installStep (some s₁)
  match installed with
  | none => none
  | some s₂ =>
    let ids := (List.range s₂.origClauses.length).map (· + 1)
    some (ids.foldl (fun p cid => seedClause p.1 p.2 cid) (s₂, true)).1

/-- `sat_state_new` on a parsed CNF: fresh state at level 1 with zeroed
synthetic objects, then `read_sat_cnf`, then the all-zero marks array of
size `n + 1`.  No unit resolution is run here. -/
def sat_state_new (n : Nat) (cnf : List (List Int)) : Option SatState :=
  let s0 : SatState :=
    { level := 1, vars := [], contradiction := Decision.init,
      falseClause := ⟨0, 0, [], none, none, false⟩,
      origClauses := [], learned := [], trail := [], queue := [],
      subsumedLog := [], marks := [] }
  match read_sat_cnf n cnf s0 with
  | none => none
  | some s => some { s with marks := List.replicate (n + 1) false }

end SatApi

/-! ## Basic lemmas about the primitive state operations -/

namespace SatApi

theorem getD_set_self {α : Type} (l : List α) (i : Nat) (a d : α) (h : i < l.length) :
    (l.set i a).getD i d = a := by
  simp [List.getD, List.getElem?_set_self, h]

theorem getD_set_ne {α : Type} (l : List α) (i j : Nat) (a d : α) (h : i ≠ j) :
    (l.set i a).getD j d = l.getD j d := by
  simp [List.getD, List.getElem?_set_ne, h]

theorem getD_set_proj {α β : Type} (l : List α) (i j : Nat) (a d : α) (f : α → β)
    (hf : f a = f (l.getD i d)) : f ((l.set i a).getD j d) = f (l.getD j d) := by
  by_cases hij : i = j
  · subst hij
    by_cases hlen : i < l.length
    · rw [getD_set_self _ _ _ _ hlen, hf]
    · rw [List.set_eq_of_length_le (Nat.le_of_not_lt hlen)]
  · rw [getD_set_ne _ _ _ _ _ hij]

namespace SatState

@[simp] theorem level_setDecision (s : SatState) (v : Nat) (d : Decision) :
    (s.setDecision v d).level = s.level := by
  unfold setDecision; split <;> rfl

@[simp] theorem trail_setDecision (s : SatState) (v : Nat) (d : Decision) :
    (s.setDecision v d).trail = s.trail := by
  unfold setDecision; split <;> rfl

@[simp] theorem queue_setDecision (s : SatState) (v : Nat) (d : Decision) :
    (s.setDecision v d).queue = s.queue := by
  unfold setDecision; split <;> rfl

@[simp] theorem subsumedLog_setDecision (s : SatState) (v : Nat) (d : Decision) :
    (s.setDecision v d).subsumedLog = s.subsumedLog := by
  unfold setDecision; split <;> rfl

@[simp] theorem marks_setDecision (s : SatState) (v : Nat) (d : Decision) :
    (s.setDecision v d).marks = s.marks := by
  unfold setDecision; split <;> rfl

@[simp] theorem origClauses_setDecision (s : SatState) (v : Nat) (d : Decision) :
    (s.setDecision v d).origClauses = s.origClauses := by
  unfold setDecision; split <;> rfl

@[simp] theorem learned_setDecision (s : SatState) (v : Nat) (d : Decision) :
    (s.setDecision v d).learned = s.learned := by
  unfold setDecision; split <;> rfl

@[simp] theorem falseClause_setDecision (s : SatState) (v : Nat) (d : Decision) :
    (s.setDecision v d).falseClause = s.falseClause := by
  unfold setDecision; split <;> rfl

@[simp] theorem getClause_setDecision (s : SatState) (v : Nat) (d : Decision) (cid : Nat) :
    (s.setDecision v d).getClause cid = s.getClause cid := by
  unfold setDecision; split <;> rfl

@[simp] theorem vars_length_setDecision (s : SatState) (v : Nat) (d : Decision) :
    (s.setDecision v d).vars.length = s.vars.length := by
  unfold setDecision; split <;> simp

theorem getDecision_setDecision_self (s : SatState) (v : Nat) (d : Decision)
    (h : v = 0 ∨ v - 1 < s.vars.length) :
    (s.setDecision v d).getDecision v = d := by
  unfold setDecision getDecision
  by_cases hv : v = 0
  · simp [hv]
  · rw [if_neg hv, if_neg hv]
    rcases h with h | h
    · exact absurd h hv
    · show ((s.vars.set (v - 1) _).getD (v - 1) Var.init).decision = d
      rw [getD_set_self _ _ _ _ h]

theorem getDecision_setDecision_ne (s : SatState) (v w : Nat) (d : Decision)
    (h : w ≠ v) :
    (s.setDecision v d).getDecision w = s.getDecision w := by
  unfold setDecision getDecision
  by_cases hv : v = 0
  · subst hv; rw [if_pos rfl, if_neg h, if_neg h]
  · rw [if_neg hv]
    by_cases hw : w = 0
    · rw [if_pos hw, if_pos hw]
    · rw [if_neg hw, if_neg hw]
      show ((s.vars.set (v - 1) _).getD (w - 1) Var.init).decision = _
      rw [getD_set_ne _ _ _ _ _ (by omega)]

theorem getLitData_setDecision (s : SatState) (v : Nat) (d : Decision) (l : Int) :
    (s.setDecision v d).getLitData l = s.getLitData l := by
  unfold setDecision getLitData
  by_cases hv : v = 0
  · simp [hv]
  · rw [if_neg hv]
    by_cases h0 : 0 < l
    · rw [if_pos h0, if_pos h0]
      exact getD_set_proj _ _ _ _ _ Var.posData rfl
    · rw [if_neg h0, if_neg h0]
      by_cases hn : l < 0
      · rw [if_pos hn, if_pos hn]
        exact getD_set_proj _ _ _ _ _ Var.negData rfl
      · rw [if_neg hn, if_neg hn]

@[simp] theorem level_modifyLitData (s : SatState) (l : Int) (f : LitData → LitData) :
    (s.modifyLitData l f).level = s.level := by
  unfold modifyLitData; split <;> [rfl; (split <;> rfl)]

@[simp] theorem trail_modifyLitData (s : SatState) (l : Int) (f : LitData → LitData) :
    (s.modifyLitData l f).trail = s.trail := by
  unfold modifyLitData; split <;> [rfl; (split <;> rfl)]

@[simp] theorem queue_modifyLitData (s : SatState) (l : Int) (f : LitData → LitData) :
    (s.modifyLitData l f).queue = s.queue := by
  unfold modifyLitData; split <;> [rfl; (split <;> rfl)]

@[simp] theorem subsumedLog_modifyLitData (s : SatState) (l : Int) (f : LitData → LitData) :
    (s.modifyLitData l f).subsumedLog = s.subsumedLog := by
  unfold modifyLitData; split <;> [rfl; (split <;> rfl)]

@[simp] theorem marks_modifyLitData (s : SatState) (l : Int) (f : LitData → LitData) :
    (s.modifyLitData l f).marks = s.marks := by
  unfold modifyLitData; split <;> [rfl; (split <;> rfl)]

@[simp] theorem origClauses_modifyLitData (s : SatState) (l : Int) (f : LitData → LitData) :
    (s.modifyLitData l f).origClauses = s.origClauses := by
  unfold modifyLitData; split <;> [rfl; (split <;> rfl)]

@[simp] theorem learned_modifyLitData (s : SatState) (l : Int) (f : LitData → LitData) :
    (s.modifyLitData l f).learned = s.learned := by
  unfold modifyLitData; split <;> [rfl; (split <;> rfl)]

@[simp] theorem falseClause_modifyLitData (s : SatState) (l : Int) (f : LitData → LitData) :
    (s.modifyLitData l f).falseClause = s.falseClause := by
  unfold modifyLitData; split <;> [rfl; (split <;> rfl)]

@[simp] theorem contradiction_modifyLitData (s : SatState) (l : Int) (f : LitData → LitData) :
    (s.modifyLitData l f).contradiction = s.contradiction := by
  unfold modifyLitData; split <;> [rfl; (split <;> rfl)]

@[simp] theorem getClause_modifyLitData (s : SatState) (l : Int) (f : LitData → LitData)
    (cid : Nat) :
    (s.modifyLitData l f).getClause cid = s.getClause cid := by
  unfold modifyLitData; split <;> [rfl; (split <;> rfl)]

@[simp] theorem vars_length_modifyLitData (s : SatState) (l : Int) (f : LitData → LitData) :
    (s.modifyLitData l f).vars.length = s.vars.length := by
  unfold modifyLitData; split <;> [simp; (split <;> simp)]

theorem getDecision_modifyLitData (s : SatState) (l : Int) (f : LitData → LitData) (v : Nat) :
    (s.modifyLitData l f).getDecision v = s.getDecision v := by
  unfold modifyLitData getDecision
  by_cases h0 : 0 < l
  · rw [if_pos h0]
    by_cases hv : v = 0
    · rw [if_pos hv, if_pos hv]
    · rw [if_neg hv, if_neg hv]
      exact getD_set_proj _ _ _ _ _ Var.decision rfl
  · rw [if_neg h0]
    by_cases hn : l < 0
    · rw [if_pos hn]
      by_cases hv : v = 0
      · rw [if_pos hv, if_pos hv]
      · rw [if_neg hv, if_neg hv]
        exact getD_set_proj _ _ _ _ _ Var.decision rfl
    · rw [if_neg hn]

@[simp] theorem level_modifyClause (s : SatState) (cid : Nat) (f : Clause → Clause) :
    (s.modifyClause cid f).level = s.level := by
  unfold modifyClause; split <;> [rfl; (split <;> rfl)]

@[simp] theorem trail_modifyClause (s : SatState) (cid : Nat) (f : Clause → Clause) :
    (s.modifyClause cid f).trail = s.trail := by
  unfold modifyClause; split <;> [rfl; (split <;> rfl)]

@[simp] theorem queue_modifyClause (s : SatState) (cid : Nat) (f : Clause → Clause) :
    (s.modifyClause cid f).queue = s.queue := by
  unfold modifyClause; split <;> [rfl; (split <;> rfl)]

@[simp] theorem subsumedLog_modifyClause (s : SatState) (cid : Nat) (f : Clause → Clause) :
    (s.modifyClause cid f).subsumedLog = s.subsumedLog := by
  unfold modifyClause; split <;> [rfl; (split <;> rfl)]

@[simp] theorem marks_modifyClause (s : SatState) (cid : Nat) (f : Clause → Clause) :
    (s.modifyClause cid f).marks = s.marks := by
  unfold modifyClause; split <;> [rfl; (split <;> rfl)]

@[simp] theorem vars_modifyClause (s : SatState) (cid : Nat) (f : Clause → Clause) :
    (s.modifyClause cid f).vars = s.vars := by
  unfold modifyClause; split <;> [rfl; (split <;> rfl)]

@[simp] theorem contradiction_modifyClause (s : SatState) (cid : Nat) (f : Clause → Clause) :
    (s.modifyClause cid f).contradiction = s.contradiction := by
  unfold modifyClause; split <;> [rfl; (split <;> rfl)]

@[simp] theorem falseClause_modifyClause (s : SatState) (cid : Nat) (f : Clause → Clause) :
    (s.modifyClause cid f).falseClause = s.falseClause := by
  unfold modifyClause; split <;> [rfl; (split <;> rfl)]

@[simp] theorem getDecision_modifyClause (s : SatState) (cid : Nat) (f : Clause → Clause)
    (v : Nat) :
    (s.modifyClause cid f).getDecision v = s.getDecision v := by
  unfold getDecision
  rw [contradiction_modifyClause, vars_modifyClause]

@[simp] theorem getLitData_modifyClause (s : SatState) (cid : Nat) (f : Clause → Clause)
    (l : Int) :
    (s.modifyClause cid f).getLitData l = s.getLitData l := by
  unfold getLitData
  rw [vars_modifyClause]

@[simp] theorem origClauses_length_modifyClause (s : SatState) (cid : Nat)
    (f : Clause → Clause) :
    (s.modifyClause cid f).origClauses.length = s.origClauses.length := by
  unfold modifyClause; split <;> [rfl; (split <;> simp)]

@[simp] theorem learned_length_modifyClause (s : SatState) (cid : Nat)
    (f : Clause → Clause) :
    (s.modifyClause cid f).learned.length = s.learned.length := by
  unfold modifyClause; split <;> [rfl; (split <;> simp)]

@[simp] theorem vars_length_modifyClause (s : SatState) (cid : Nat) (f : Clause → Clause) :
    (s.modifyClause cid f).vars.length = s.vars.length := by
  rw [vars_modifyClause]

end SatState


/-! ## The propagation frame: fields no propagation step modifies -/

/-- The identity, assertion level and literal list of a clause — the part
no propagation step modifies (watches and the subsumption flag do change). -/
def Clause.core (c : Clause) : Nat × Nat × List Int := (c.id, c.assertionLevel, c.lits)

theorem set_getD_self {α : Type} (l : List α) (i : Nat) (d : α) :
    l.set i (l.getD i d) = l := by
  apply List.ext_getElem?
  intro j
  by_cases hij : i = j
  · subst hij
    by_cases hlen : i < l.length
    · rw [List.getElem?_set_self (by exact hlen)]
      simp [List.getD, List.getElem?_eq_getElem hlen]
    · rw [List.set_eq_of_length_le (Nat.le_of_not_lt hlen)]
  · rw [List.getElem?_set_ne hij]

/-- State fields and clause cores preserved by every step of unit
propagation (assignment, subsumption, watch movement, conflict
recording). -/
structure StepFrame (s s' : SatState) : Prop where
  level : s'.level = s.level
  marks : s'.marks = s.marks
  falseClause : s'.falseClause = s.falseClause
  varsLen : s'.vars.length = s.vars.length
  origCore : s'.origClauses.map Clause.core = s.origClauses.map Clause.core
  learnedCore : s'.learned.map Clause.core = s.learned.map Clause.core

namespace StepFrame

theorem stepRfl (s : SatState) : StepFrame s s := ⟨by rfl, by rfl, by rfl, by rfl, by rfl, by rfl⟩

theorem stepTrans {s₁ s₂ s₃ : SatState} (h : StepFrame s₁ s₂) (h' : StepFrame s₂ s₃) :
    StepFrame s₁ s₃ :=
  ⟨h'.level.trans h.level, h'.marks.trans h.marks, h'.falseClause.trans h.falseClause,
   h'.varsLen.trans h.varsLen, h'.origCore.trans h.origCore,
   h'.learnedCore.trans h.learnedCore⟩

theorem origLen {s s' : SatState} (h : StepFrame s s') :
    s'.origClauses.length = s.origClauses.length := by
  have := congrArg List.length h.origCore
  simpa using this

theorem learnedLen {s s' : SatState} (h : StepFrame s s') :
    s'.learned.length = s.learned.length := by
  have := congrArg List.length h.learnedCore
  simpa using this

end StepFrame

theorem stepFrame_setDecision (s : SatState) (v : Nat) (d : Decision) :
    StepFrame s (s.setDecision v d) := by
  refine ⟨?_, ?_, ?_, ?_, ?_, ?_⟩ <;> simp

theorem stepFrame_modifyLitData (s : SatState) (l : Int) (f : LitData → LitData) :
    StepFrame s (s.modifyLitData l f) := by
  refine ⟨?_, ?_, ?_, ?_, ?_, ?_⟩ <;> simp

theorem stepFrame_modifyClause (s : SatState) (cid : Nat) (f : Clause → Clause)
    (hf : ∀ c, (f c).core = c.core) : StepFrame s (s.modifyClause cid f) := by
  refine ⟨by simp, by simp, by simp, by simp, ?_, ?_⟩
  · unfold SatState.modifyClause
    split
    · rfl
    · split
      · show (s.origClauses.set _ _).map Clause.core = _
        rw [List.map_set, hf]
        show (s.origClauses.map Clause.core).set _
          ((s.origClauses.getD _ junkClause).core) = _
        have hopt : ∀ o : Option Clause,
            ((o.getD junkClause).core : Nat × Nat × List Int) =
              (o.map Clause.core).getD junkClause.core := by
          intro o; cases o <;> rfl
        have hc : (s.origClauses.getD (cid - 1) junkClause).core =
            (s.origClauses.map Clause.core).getD (cid - 1) junkClause.core := by
          simp only [List.getD, List.get?_map]
          exact hopt _
        rw [hc, set_getD_self]
      · rfl
  · unfold SatState.modifyClause
    split
    · rfl
    · split
      · rfl
      · show (s.learned.map _).map Clause.core = _
        rw [List.map_map]
        apply List.map_congr_left
        intro c _
        by_cases hc : c.id = cid <;> simp [Function.comp, hc, hf]

theorem stepFrame_setVar (s : SatState) (v : Nat) (lvl : Nat) (b : Bool)
    (imp : Option Nat) : StepFrame s (set_Var_Decision s v lvl b imp) :=
  stepFrame_setDecision s v _

theorem stepFrame_unsetVar (s : SatState) (v : Nat) :
    StepFrame s (unset_Var_Decision s v) :=
  stepFrame_setDecision s v _

theorem stepFrame_subsume (cid : Nat) (s : SatState) :
    StepFrame s (sat_subsume_clause cid s) := by
  unfold sat_subsume_clause
  dsimp only
  split
  · exact StepFrame.stepRfl s
  · have h := stepFrame_modifyClause s cid (fun c => { c with isSubsumed := true })
      (fun c => by rfl)
    exact ⟨h.level, h.marks, h.falseClause, h.varsLen, h.origCore, h.learnedCore⟩

theorem stepFrame_subsume_foldl (s : SatState) (cids : List Nat) :
    StepFrame s (cids.foldl (fun st cid => sat_subsume_clause cid st) s) := by
  induction cids generalizing s with
  | nil => exact StepFrame.stepRfl s
  | cons c cs ih => exact (stepFrame_subsume c s).stepTrans (ih _)

theorem stepFrame_contradiction (imp : Option Nat) (s : SatState) :
    StepFrame s (sat_contradiction imp s).2 := by
  have h := stepFrame_setVar s 0 s.level true imp
  exact ⟨h.level, h.marks, h.falseClause, h.varsLen, h.origCore, h.learnedCore⟩

theorem stepFrame_setLit (l : Int) (imp : Option Nat) (s : SatState) :
    StepFrame s (set_Lit_Decision l imp s).2 := by
  unfold set_Lit_Decision
  dsimp only
  split
  · have h := stepFrame_setVar s (litVar l) s.level (decide (0 < l)) imp
    exact ⟨h.level, h.marks, h.falseClause, h.varsLen, h.origCore, h.learnedCore⟩
  · split
    · exact stepFrame_contradiction imp s
    · match imp with
      | some cid => exact stepFrame_subsume cid s
      | none => exact StepFrame.stepRfl s

theorem stepFrame_unwatched (cid : Nat) (s : SatState) :
    StepFrame s (sat_unwatched_literal cid s).2 := by
  unfold sat_unwatched_literal
  dsimp only
  split
  · exact StepFrame.stepRfl s
  · exact stepFrame_subsume cid s
  · exact StepFrame.stepRfl s

/-- The state carried by a `WStep`. -/
def WStep.state : WStep → SatState
  | .keep s => s
  | .move _ s => s
  | .stop s => s

theorem stepFrame_watch_step (clit : Int) (cid : Nat) (s : SatState) :
    StepFrame s (watch_clause_step clit cid s).state := by
  unfold watch_clause_step
  dsimp only
  split
  · exact StepFrame.stepRfl s
  · have h₁ := stepFrame_unwatched cid s
    split
    · exact h₁
    · split
      · rename_i m hm
        split
        · refine h₁.stepTrans ?_
          have h := stepFrame_modifyClause (sat_unwatched_literal cid s).2 cid
            (fun c' => { c' with watchA := some m }) (fun c => by rfl)
          exact ⟨h.level, h.marks, h.falseClause, h.varsLen, h.origCore, h.learnedCore⟩
        · refine h₁.stepTrans ?_
          have h := stepFrame_modifyClause (sat_unwatched_literal cid s).2 cid
            (fun c' => { c' with watchB := some m }) (fun c => by rfl)
          exact ⟨h.level, h.marks, h.falseClause, h.varsLen, h.origCore, h.learnedCore⟩
      · split
        · exact h₁.stepTrans (stepFrame_contradiction _ _)
        · rename_i o ho
          split
          · split
            · exact h₁.stepTrans (stepFrame_subsume _ _)
            · exact h₁.stepTrans (stepFrame_contradiction _ _)
          · split
            · refine h₁.stepTrans ?_
              have h := stepFrame_setLit o (some cid) (sat_unwatched_literal cid s).2
              exact ⟨h.level, h.marks, h.falseClause, h.varsLen, h.origCore, h.learnedCore⟩
            · exact h₁.stepTrans (stepFrame_setLit o (some cid) _)

theorem stepFrame_setWatchList (s : SatState) (l : Int) (wl : List Nat) :
    StepFrame s (s.setWatchList l wl) :=
  stepFrame_modifyLitData s l _

theorem stepFrame_processWL (clit : Int) (wl kept : List Nat) (s : SatState) :
    StepFrame s (processWL clit wl kept s).2 := by
  induction wl generalizing kept s with
  | nil => exact stepFrame_setWatchList s clit kept.reverse
  | cons cid rest ih =>
    have hstep := stepFrame_watch_step clit cid s
    rcases hw : watch_clause_step clit cid s with s' | ⟨m, s'⟩ | s' <;>
      rw [hw] at hstep <;> simp only [processWL, hw]
    · exact hstep.stepTrans (ih _ s')
    · exact (hstep.stepTrans (stepFrame_modifyLitData s' m _)).stepTrans (ih _ _)
    · exact hstep.stepTrans (stepFrame_setWatchList s' clit _)

theorem stepFrame_propagate (l : Int) (s : SatState) :
    StepFrame s (propagate_lit_decision l s).2 := by
  unfold propagate_lit_decision
  dsimp only
  exact ((stepFrame_subsume_foldl s _).stepTrans (stepFrame_subsume_foldl _ _)).stepTrans
    (stepFrame_processWL _ _ _ _)

theorem stepFrame_urGo (fuel i : Nat) (s : SatState) :
    StepFrame s (urGo fuel i s).2 := by
  induction fuel generalizing i s with
  | zero => exact StepFrame.stepRfl s
  | succ f ih =>
    unfold urGo
    dsimp only
    split
    · have hp := stepFrame_propagate (s.queue.getD i 0) s
      split
      · exact hp.stepTrans (ih _ _)
      · exact hp
    · exact ⟨by rfl, by rfl, by rfl, by rfl, by rfl, by rfl⟩

theorem stepFrame_unit_resolution (s : SatState) :
    StepFrame s (sat_unit_resolution s).2 :=
  stepFrame_urGo _ 0 s


theorem stepFrame_foldl {α : Type} (g : SatState → α → SatState)
    (hg : ∀ st a, StepFrame st (g st a)) (xs : List α) (s : SatState) :
    StepFrame s (xs.foldl g s) := by
  induction xs generalizing s with
  | nil => exact StepFrame.stepRfl s
  | cons x xs ih => exact (hg s x).stepTrans (ih _)

@[simp] theorem trail_subsume (cid : Nat) (s : SatState) :
    (sat_subsume_clause cid s).trail = s.trail := by
  unfold sat_subsume_clause
  dsimp only
  split
  · rfl
  · simp

@[simp] theorem queue_subsume (cid : Nat) (s : SatState) :
    (sat_subsume_clause cid s).queue = s.queue := by
  unfold sat_subsume_clause
  dsimp only
  split
  · rfl
  · simp

/-! ## Concrete states used by the witnesses and counterexamples

These replay the scenarios of the specification through the embedded
operations (construction, root unit resolution, decide, undo, assert). -/

/-- Construction on `p cnf 1 1 / 1 0` (scenario S1). -/
def stateS1 : SatState := (sat_state_new 1 [[1]]).getD default

/-- Scenario S1 after the first (driver-initiated) unit resolution. -/
def stateS1R : SatState := (sat_unit_resolution stateS1).2

/-- Construction on `p cnf 2 1 / 1 0`: variable 2 occurs in no clause. -/
def stateTwoVars : SatState := (sat_state_new 2 [[1]]).getD default

/-- Construction on `p cnf 3 2 / -1 2 0 / -2 3 0` (scenario S3). -/
def stateS3 : SatState := (sat_state_new 3 [[-1,2],[-2,3]]).getD default

/-- Construction on `p cnf 3 3 / 1 2 0 / -1 2 0 / -2 3 0` (scenario S4). -/
def stateS4 : SatState := (sat_state_new 3 [[1,2],[-1,2],[-2,3]]).getD default

/-- Scenario S5 (`p cnf 4 4 / -1 2 0 / -1 3 0 / -2 -3 4 0 / -4 0`) after the
root unit resolution that instantiates variable 4. -/
def stateS5 : SatState :=
  (sat_unit_resolution ((sat_state_new 4 [[-1,2],[-1,3],[-2,-3,4],[-4]]).getD default)).2

/-- A unit clause a driver would learn on scenario S1's state (its negation
literal is falsified at the root). -/
def cUnit : Clause := ⟨2, 1, [-1], none, none, false⟩

/-! ## C8 — an empty original clause aborts construction inside an
out-of-bounds read, with no UNSAT signal -/

theorem installStep_none (toks : List Int) : installStep none toks = none := rfl

theorem foldl_installStep_none (cnf : List (List Int)) :
    cnf.foldl installStep none = none := by
  induction cnf with
  | nil => rfl
  | cons t ts ih => simpa [installStep] using ih

theorem foldl_installStep_empty_mem (cnf : List (List Int)) (h : [] ∈ cnf)
    (acc : Option SatState) : cnf.foldl installStep acc = none := by
  induction cnf generalizing acc with
  | nil => cases h
  | cons t ts ih =>
    rcases List.mem_cons.mp h with h | h
    · subst h
      show ts.foldl installStep (installStep acc []) = none
      rcases acc with _ | st
      · exact foldl_installStep_none ts
      · have hnone : installStep (some st) [] = none := rfl
        rw [hnone]
        exact foldl_installStep_none ts
    · exact ih h _

/-- C8: the specification promises that an empty original clause makes
construction signal UNSAT immediately and that construction never reads a
literal from a zero-length clause literal array.  The code does the
opposite: `read_sat_cnf` unconditionally reads `lits.item[0]` of every
clause, so on an empty clause it reads past the end of a zero-length
array (modeled by the construction returning `none`), and no UNSAT signal
of any kind exists in `sat_state_new`. -/
theorem C8_empty_clause_reads_out_of_bounds (n : Nat) (cnf : List (List Int))
    (h : [] ∈ cnf) : sat_state_new n cnf = none := by
  unfold sat_state_new read_sat_cnf
  dsimp only
  rw [foldl_installStep_empty_mem cnf h]

theorem C8_empty_clause_reads_out_of_bounds_witness :
    ([] : List Int) ∈ [([] : List Int)] ∧ sat_state_new 1 [[]] = none :=
  ⟨by decide, C8_empty_clause_reads_out_of_bounds 1 [[]] (by decide)⟩

/-! ## C2 — construction does *not* run root unit propagation -/

/-- C2 counterexample: on `p cnf 1 1 / 1 0` the state returned by
`sat_state_new` still has the unit literal waiting in the propagate queue
and clause 1 not subsumed, refuting the claim that construction runs root
unit propagation to closure (the queue would be empty and clause 1
subsumed). -/
theorem C2_counterexample :
    (sat_state_new 1 [[1]]).isSome = true ∧
    stateS1.queue = [1] ∧
    sat_subsumed_clause stateS1 1 = false := by decide

/-- C2 amended: `sat_state_new` only assigns and enqueues the root unit
literals; on `p cnf 1 1 / 1 0` variable 1 is instantiated at level 1 with
value true and the learned count is 0, but the propagate queue holds
literal 1 and clause 1 is not yet subsumed; the first subsequent
`sat_unit_resolution` call establishes the root closure (empty queue,
clause 1 subsumed). -/
theorem C2_root_propagation_deferred :
    ((sat_state_new 1 [[1]]).isSome = true ∧
     (stateS1.getDecision 1).level = 1 ∧
     (stateS1.getDecision 1).value = true ∧
     sat_learned_clause_count stateS1 = 0 ∧
     stateS1.queue = [1] ∧
     sat_subsumed_clause stateS1 1 = false) ∧
    ((sat_unit_resolution stateS1).1 = true ∧
     stateS1R.queue = [] ∧
     sat_subsumed_clause stateS1R 1 = true ∧
     (stateS1R.getDecision 1).level = 1 ∧
     (stateS1R.getDecision 1).value = true ∧
     sat_learned_clause_count stateS1R = 0) := by decide

/-! ## C10 — a variable with no occurrences is always irrelevant -/

/-- C10: when both `appears_in` lists of a variable are empty,
`sat_irrelevant_var` returns true in every state, the quantification over
mentioning clauses being vacuous. -/
theorem C10_no_occurrence_always_irrelevant (s : SatState) (v : Nat)
    (hp : (s.getLitData (Int.ofNat v)).appearsIn = [])
    (hn : (s.getLitData (-(Int.ofNat v))).appearsIn = []) :
    sat_irrelevant_var s v = true := by
  unfold sat_irrelevant_var
  rw [hp, hn]
  rfl

theorem C10_no_occurrence_always_irrelevant_witness :
    (stateTwoVars.getLitData (Int.ofNat 2)).appearsIn = [] ∧
    (stateTwoVars.getLitData (-(Int.ofNat 2))).appearsIn = [] ∧
    sat_irrelevant_var stateTwoVars 2 = true :=
  ⟨by decide, by decide,
   C10_no_occurrence_always_irrelevant stateTwoVars 2 (by decide) (by decide)⟩

/-! ## C5 — `set_Lit_Decision` on an already instantiated literal -/

/-- C5: on an already implied literal the assign routine subsumes the
non-null implier, reports OK (`true`) and leaves the trail unchanged; on a
falsified literal it records the conflict on the synthetic contradiction
variable (implier and current level stored) and appends the
contradiction's positive literal (literal 0) to the trail, reporting
CONFLICT (`false`). -/
theorem C5_assign_on_instantiated (l : Int) (imp : Option Nat) (s : SatState)
    (hinst : sat_instantiated_var s (litVar l) = true) :
    (sat_implied_literal s l = true →
      set_Lit_Decision l imp s =
        (true, match imp with
               | some cid => sat_subsume_clause cid s
               | none => s) ∧
      (set_Lit_Decision l imp s).2.trail = s.trail) ∧
    (sat_implied_literal s l = false →
      (set_Lit_Decision l imp s).1 = false ∧
      (set_Lit_Decision l imp s).2.contradiction.impliedBy = imp ∧
      (set_Lit_Decision l imp s).2.contradiction.level = s.level ∧
      (set_Lit_Decision l imp s).2.trail = s.trail ++ [0]) := by
  constructor
  · intro himp
    unfold set_Lit_Decision
    rw [if_neg (by simp [hinst]), if_neg (by simp [himp])]
    refine ⟨rfl, ?_⟩
    cases imp with
    | none => rfl
    | some cid => exact trail_subsume cid s
  · intro himp
    unfold set_Lit_Decision
    rw [if_neg (by simp [hinst]), if_pos (by simp [himp])]
    exact ⟨rfl, rfl, rfl, rfl⟩

theorem C5_assign_on_instantiated_witness :
    sat_instantiated_var stateS1R (litVar (-1)) = true ∧
    sat_implied_literal stateS1R (-1) = false ∧
    ((set_Lit_Decision (-1) (some 1) stateS1R).1 = false ∧
     (set_Lit_Decision (-1) (some 1) stateS1R).2.contradiction.impliedBy = some 1 ∧
     (set_Lit_Decision (-1) (some 1) stateS1R).2.contradiction.level = stateS1R.level ∧
     (set_Lit_Decision (-1) (some 1) stateS1R).2.trail = stateS1R.trail ++ [0]) :=
  ⟨by decide, by decide,
   (C5_assign_on_instantiated (-1) (some 1) stateS1R (by decide)).2 (by decide)⟩


/-! ## C6 — root-level failure of `sat_assert_clause` yields the sentinel -/

/-- `sat_assert_clause` on a nonempty clause always ends in
`assertOutcome`, on an intermediate state whose level and `false_clause`
are those of the input state. -/
theorem assert_clause_eq_outcome (c : Clause) (s : SatState) (wa : Int)
    (hh : c.lits.head? = some wa) :
    ∃ p st, sat_assert_clause c s = assertOutcome p st ∧
      st.level = s.level ∧ st.falseClause = s.falseClause := by
  unfold sat_assert_clause
  dsimp only
  rw [hh]
  refine ⟨_, _, rfl, ?_, ?_⟩
  · split
    · rw [(stepFrame_unit_resolution _).level]
      simp only [SatState.level_modifyLitData]
      rw [(stepFrame_setLit _ _ _).level]
      rw [(stepFrame_foldl _ (fun st a => stepFrame_modifyLitData st a _) _ _).level]
    · rw [(stepFrame_setLit _ _ _).level]
      rw [(stepFrame_foldl _ (fun st a => stepFrame_modifyLitData st a _) _ _).level]
  · split
    · rw [(stepFrame_unit_resolution _).falseClause]
      simp only [SatState.falseClause_modifyLitData]
      rw [(stepFrame_setLit _ _ _).falseClause]
      rw [(stepFrame_foldl _ (fun st a => stepFrame_modifyLitData st a _) _ _).falseClause]
    · rw [(stepFrame_setLit _ _ _).falseClause]
      rw [(stepFrame_foldl _ (fun st a => stepFrame_modifyLitData st a _) _ _).falseClause]

/-- C6: whenever unit resolution fails inside `sat_assert_clause` (the call
returns a clause), at decision level 1 the returned clause is the
synthetic `false_clause` sentinel — distinguishable by
`assertion_level = 0` and size 0 — and at any level above 1 it is instead
a clause freshly built by `sat_build_asserting_clause` from the failed
state. -/
theorem C6_root_unsat_false_clause (c : Clause) (s : SatState) (r : Clause)
    (s' : SatState)
    (hfc : s.falseClause.assertionLevel = 0 ∧ s.falseClause.lits = [])
    (h : sat_assert_clause c s = (some r, s')) :
    (s.level = 1 → r = s.falseClause ∧ r.assertionLevel = 0 ∧ r.lits = []) ∧
    (1 < s.level → ∃ sm : SatState, sm.level = s.level ∧
      r = (sat_build_asserting_clause sm).1 ∧
      s' = (sat_build_asserting_clause sm).2) := by
  rcases hh : c.lits.head? with _ | wa
  · unfold sat_assert_clause at h
    dsimp only at h
    rw [hh] at h
    simp at h
  · obtain ⟨p, st, heq, hlev, hfcst⟩ := assert_clause_eq_outcome c s wa hh
    rw [heq] at h
    unfold assertOutcome at h
    by_cases hp : p = true
    · rw [if_pos hp] at h
      simp at h
    · rw [if_neg hp] at h
      by_cases hl : 1 < st.level
      · rw [if_pos hl] at h
        dsimp only at h
        have hr : some (sat_build_asserting_clause st).1 = some r := congrArg Prod.fst h
        have hs : (sat_build_asserting_clause st).2 = s' := congrArg Prod.snd h
        constructor
        · intro h1
          rw [h1] at hlev
          omega
        · intro _
          exact ⟨st, hlev, (Option.some.injEq _ _ ▸ hr).symm, hs.symm⟩
      · rw [if_neg hl] at h
        have hr : some st.falseClause = some r := congrArg Prod.fst h
        have hrr : st.falseClause = r := by
          simpa using hr
        constructor
        · intro _
          refine ⟨hrr ▸ hfcst, ?_, ?_⟩
          · rw [← hrr, hfcst]
            exact hfc.1
          · rw [← hrr, hfcst]
            exact hfc.2
        · intro h2
          rw [← hlev] at h2
          exact absurd h2 hl

/-- Clause returned by asserting `cUnit` on scenario S1's root state. -/
def c6r : Clause := (sat_assert_clause cUnit stateS1R).1.getD junkClause

/-- State returned by asserting `cUnit` on scenario S1's root state. -/
def c6s : SatState := (sat_assert_clause cUnit stateS1R).2

theorem C6_root_unsat_false_clause_witness :
    (stateS1R.falseClause.assertionLevel = 0 ∧ stateS1R.falseClause.lits = []) ∧
    sat_assert_clause cUnit stateS1R = (some c6r, c6s) ∧
    stateS1R.level = 1 ∧
    (c6r = stateS1R.falseClause ∧ c6r.assertionLevel = 0 ∧ c6r.lits = []) :=
  ⟨⟨by decide, by decide⟩, by decide, by decide,
   (C6_root_unsat_false_clause cUnit stateS1R c6r c6s ⟨by decide, by decide⟩
     (by decide)).1 (by decide)⟩


/-! ## Clause lookup and update lemmas -/

/-- The clause id `cid` resolves to an actual stored clause (C follows a
pointer, so this holds for every clause reference a modeled state
contains). -/
def ClauseAt (s : SatState) (cid : Nat) : Prop :=
  cid ≠ 0 ∧ (cid ≤ s.origClauses.length ∨ (s.learned.find? fun c => c.id = cid).isSome)

theorem find?_map_modify (l : List Clause) (cid : Nat) (f : Clause → Clause)
    (hid : ∀ c, (f c).id = c.id) :
    ((l.map fun c => if c.id = cid then f c else c).find? fun c => c.id = cid) =
      (l.find? fun c => c.id = cid).map f := by
  induction l with
  | nil => rfl
  | cons a l ih =>
    by_cases ha : a.id = cid
    · rw [List.map_cons, if_pos ha,
        List.find?_cons_of_pos _ (by simp [hid, ha]),
        List.find?_cons_of_pos _ (by simp [ha])]
      rfl
    · rw [List.map_cons, if_neg ha,
        List.find?_cons_of_neg _ (by simp [ha]),
        List.find?_cons_of_neg _ (by simp [ha])]
      exact ih

theorem find?_map_modify_ne (l : List Clause) (cid cid' : Nat) (f : Clause → Clause)
    (hid : ∀ c, (f c).id = c.id) (hne : cid' ≠ cid) :
    ((l.map fun c => if c.id = cid then f c else c).find? fun c => c.id = cid') =
      l.find? fun c => c.id = cid' := by
  induction l with
  | nil => rfl
  | cons a l ih =>
    by_cases ha : a.id = cid
    · rw [List.map_cons, if_pos ha,
        List.find?_cons_of_neg _ (by simp [hid, ha]; omega),
        List.find?_cons_of_neg _ (by simp [ha]; omega)]
      exact ih
    · rw [List.map_cons, if_neg ha]
      by_cases ha' : a.id = cid'
      · rw [List.find?_cons_of_pos _ (by simp [ha']),
          List.find?_cons_of_pos _ (by simp [ha'])]
      · rw [List.find?_cons_of_neg _ (by simp [ha']),
          List.find?_cons_of_neg _ (by simp [ha'])]
        exact ih

theorem getClause_modifyClause_self (s : SatState) (cid : Nat) (f : Clause → Clause)
    (hid : ∀ c, (f c).id = c.id) (hex : ClauseAt s cid) :
    (s.modifyClause cid f).getClause cid = f (s.getClause cid) := by
  obtain ⟨h0, hor⟩ := hex
  by_cases hle : cid ≤ s.origClauses.length
  · have hmod : s.modifyClause cid f =
        { s with origClauses :=
            s.origClauses.set (cid - 1) (f (s.origClauses.getD (cid - 1) junkClause)) } := by
      unfold SatState.modifyClause
      rw [if_neg h0, if_pos hle]
    rw [hmod]
    unfold SatState.getClause
    dsimp only
    rw [if_neg h0, if_neg h0,
      if_pos (show cid ≤ (s.origClauses.set (cid - 1)
        (f (s.origClauses.getD (cid - 1) junkClause))).length by simpa using hle),
      if_pos hle]
    exact getD_set_self s.origClauses (cid - 1) _ junkClause (by omega)
  · have hmod : s.modifyClause cid f =
        { s with learned := s.learned.map fun c => if c.id = cid then f c else c } := by
      unfold SatState.modifyClause
      rw [if_neg h0, if_neg hle]
    rcases hor with hor | hor
    · exact absurd hor hle
    rcases hf : s.learned.find? (fun c => c.id = cid) with _ | cl
    · rw [hf] at hor; cases hor
    · rw [hmod]
      unfold SatState.getClause
      dsimp only
      rw [if_neg h0, if_neg h0, if_neg hle, if_neg hle]
      rw [find?_map_modify s.learned cid f hid, hf]
      rfl

theorem getClause_modifyClause_ne (s : SatState) (cid cid' : Nat) (f : Clause → Clause)
    (hid : ∀ c, (f c).id = c.id) (hne : cid' ≠ cid) :
    (s.modifyClause cid f).getClause cid' = s.getClause cid' := by
  by_cases h0 : cid = 0
  · unfold SatState.modifyClause
    rw [if_pos h0]
  · by_cases hle : cid ≤ s.origClauses.length
    · have hmod : s.modifyClause cid f =
          { s with origClauses :=
              s.origClauses.set (cid - 1) (f (s.origClauses.getD (cid - 1) junkClause)) } := by
        unfold SatState.modifyClause
        rw [if_neg h0, if_pos hle]
      rw [hmod]
      unfold SatState.getClause
      dsimp only
      by_cases h0' : cid' = 0
      · rw [if_pos h0', if_pos h0']
      · rw [if_neg h0', if_neg h0']
        by_cases hle' : cid' ≤ s.origClauses.length
        · rw [if_pos (by simpa using hle'), if_pos hle']
          exact getD_set_ne _ _ _ _ _ (by omega)
        · rw [if_neg (by simpa using hle'), if_neg hle']
    · have hmod : s.modifyClause cid f =
          { s with learned := s.learned.map fun c => if c.id = cid then f c else c } := by
        unfold SatState.modifyClause
        rw [if_neg h0, if_neg hle]
      rw [hmod]
      unfold SatState.getClause
      dsimp only
      by_cases h0' : cid' = 0
      · rw [if_pos h0', if_pos h0']
      · rw [if_neg h0', if_neg h0']
        by_cases hle' : cid' ≤ s.origClauses.length
        · rw [if_pos hle', if_pos hle']
        · rw [if_neg hle', if_neg hle']
          rw [find?_map_modify_ne s.learned cid cid' f hid hne]

theorem getClause_subsume_self (cid : Nat) (s : SatState) (hex : ClauseAt s cid) :
    (sat_subsume_clause cid s).getClause cid =
      { s.getClause cid with isSubsumed := true } := by
  unfold sat_subsume_clause
  dsimp only
  split
  · rename_i hsub
    show s.getClause cid = _
    cases hc : s.getClause cid
    simp only [hc] at hsub
    simp [hsub]
  · show (s.modifyClause cid fun c => { c with isSubsumed := true }).getClause cid = _
    rw [getClause_modifyClause_self s cid (fun c => { c with isSubsumed := true })
      (fun c => rfl) hex]

theorem getClause_subsume_ne (cid cid' : Nat) (s : SatState) (hne : cid' ≠ cid) :
    (sat_subsume_clause cid s).getClause cid' = s.getClause cid' := by
  unfold sat_subsume_clause
  dsimp only
  split
  · rfl
  · show (s.modifyClause cid fun c => { c with isSubsumed := true }).getClause cid' = _
    rw [getClause_modifyClause_ne s cid cid' (fun c => { c with isSubsumed := true })
      (fun c => rfl) hne]


/-! ## C3 — the replacement-watch scan and the per-clause dispatch -/

/-- A literal the replacement-watch scan skips: falsified (instantiated but
not implied), or uninstantiated but already one of the clause's two
watches. -/
def ScanSkip (s : SatState) (c : Clause) (x : Int) : Prop :=
  (sat_instantiated_var s (litVar x) = true ∧ sat_implied_literal s x = false) ∨
  (sat_instantiated_var s (litVar x) = false ∧ (some x = c.watchA ∨ some x = c.watchB))

theorem unwatchedScan_found_first (s : SatState) (c : Clause) (lits : List Int)
    (m : Int) (h : unwatchedScan s c lits = .found m) :
    ∃ pre post, lits = pre ++ m :: post ∧ (∀ x ∈ pre, ScanSkip s c x) ∧
      sat_instantiated_var s (litVar m) = false ∧
      ¬ (some m = c.watchA ∨ some m = c.watchB) := by
  induction lits with
  | nil => cases h
  | cons a rest ih =>
    unfold unwatchedScan at h
    by_cases hinst : sat_instantiated_var s (litVar a) = true
    · rw [if_pos hinst] at h
      by_cases himp : sat_implied_literal s a = true
      · rw [if_pos himp] at h; cases h
      · rw [if_neg himp] at h
        obtain ⟨pre, post, heq, hpre, hm⟩ := ih h
        refine ⟨a :: pre, post, by rw [heq]; rfl, ?_, hm⟩
        intro x hx
        rcases List.mem_cons.mp hx with hx | hx
        · subst hx
          exact Or.inl ⟨hinst, by simpa using himp⟩
        · exact hpre x hx
    · rw [if_neg hinst] at h
      by_cases hw : some a = c.watchA ∨ some a = c.watchB
      · rw [if_pos hw] at h
        obtain ⟨pre, post, heq, hpre, hm⟩ := ih h
        refine ⟨a :: pre, post, by rw [heq]; rfl, ?_, hm⟩
        intro x hx
        rcases List.mem_cons.mp hx with hx | hx
        · subst hx
          exact Or.inr ⟨by simpa using hinst, hw⟩
        · exact hpre x hx
      · rw [if_neg hw] at h
        injection h with h
        subst h
        exact ⟨[], rest, rfl, by simp, by simpa using hinst, hw⟩

theorem unwatchedScan_satisfied_first (s : SatState) (c : Clause) (lits : List Int)
    (h : unwatchedScan s c lits = .satisfied) :
    ∃ pre i post, lits = pre ++ i :: post ∧ (∀ x ∈ pre, ScanSkip s c x) ∧
      sat_implied_literal s i = true := by
  induction lits with
  | nil => cases h
  | cons a rest ih =>
    unfold unwatchedScan at h
    by_cases hinst : sat_instantiated_var s (litVar a) = true
    · rw [if_pos hinst] at h
      by_cases himp : sat_implied_literal s a = true
      · exact ⟨[], a, rest, rfl, by simp, himp⟩
      · rw [if_neg himp] at h
        obtain ⟨pre, i, post, heq, hpre, hi⟩ := ih h
        refine ⟨a :: pre, i, post, by rw [heq]; rfl, ?_, hi⟩
        intro x hx
        rcases List.mem_cons.mp hx with hx | hx
        · subst hx
          exact Or.inl ⟨hinst, by simpa using himp⟩
        · exact hpre x hx
    · rw [if_neg hinst] at h
      by_cases hw : some a = c.watchA ∨ some a = c.watchB
      · rw [if_pos hw] at h
        obtain ⟨pre, i, post, heq, hpre, hi⟩ := ih h
        refine ⟨a :: pre, i, post, by rw [heq]; rfl, ?_, hi⟩
        intro x hx
        rcases List.mem_cons.mp hx with hx | hx
        · subst hx
          exact Or.inr ⟨by simpa using hinst, hw⟩
        · exact hpre x hx
      · rw [if_neg hw] at h
        cases h

theorem unwatchedScan_nofind_all (s : SatState) (c : Clause) (lits : List Int)
    (h : unwatchedScan s c lits = .nofind) :
    ∀ x ∈ lits, ScanSkip s c x := by
  induction lits with
  | nil => intro x hx; cases hx
  | cons a rest ih =>
    unfold unwatchedScan at h
    intro x hx
    by_cases hinst : sat_instantiated_var s (litVar a) = true
    · rw [if_pos hinst] at h
      by_cases himp : sat_implied_literal s a = true
      · rw [if_pos himp] at h; cases h
      · rw [if_neg himp] at h
        rcases List.mem_cons.mp hx with hx | hx
        · subst hx
          exact Or.inl ⟨hinst, by simpa using himp⟩
        · exact ih h x hx
    · rw [if_neg hinst] at h
      by_cases hw : some a = c.watchA ∨ some a = c.watchB
      · rw [if_pos hw] at h
        rcases List.mem_cons.mp hx with hx | hx
        · subst hx
          exact Or.inr ⟨by simpa using hinst, hw⟩
        · exact ih h x hx
      · rw [if_neg hw] at h; cases h


theorem sat_unwatched_eq_found (cid : Nat) (s : SatState) (m : Int)
    (hscan : unwatchedScan s (s.getClause cid) (s.getClause cid).lits = .found m) :
    sat_unwatched_literal cid s = (some m, s) := by
  unfold sat_unwatched_literal
  dsimp only
  rw [hscan]

theorem sat_unwatched_eq_satisfied (cid : Nat) (s : SatState)
    (hscan : unwatchedScan s (s.getClause cid) (s.getClause cid).lits = .satisfied) :
    sat_unwatched_literal cid s = (none, sat_subsume_clause cid s) := by
  unfold sat_unwatched_literal
  dsimp only
  rw [hscan]

theorem sat_unwatched_eq_nofind (cid : Nat) (s : SatState)
    (hscan : unwatchedScan s (s.getClause cid) (s.getClause cid).lits = .nofind) :
    sat_unwatched_literal cid s = (none, s) := by
  unfold sat_unwatched_literal
  dsimp only
  rw [hscan]

theorem watch_step_found (clit : Int) (cid : Nat) (s : SatState) (m : Int)
    (hns : sat_subsumed_clause s cid = false)
    (hscan : unwatchedScan s (s.getClause cid) (s.getClause cid).lits = .found m) :
    watch_clause_step clit cid s =
      .move m (if (s.getClause cid).watchA = some clit
               then s.modifyClause cid fun c' => { c' with watchA := some m }
               else s.modifyClause cid fun c' => { c' with watchB := some m }) := by
  have hfalse : ¬ (sat_subsumed_clause s cid = true) := by simp [hns]
  unfold watch_clause_step
  rw [sat_unwatched_eq_found cid s m hscan]
  dsimp only
  rw [if_neg hfalse, if_neg hfalse]

theorem watch_step_satisfied (clit : Int) (cid : Nat) (s : SatState)
    (hns : sat_subsumed_clause s cid = false) (hex : ClauseAt s cid)
    (hscan : unwatchedScan s (s.getClause cid) (s.getClause cid).lits = .satisfied) :
    watch_clause_step clit cid s = .keep (sat_subsume_clause cid s) := by
  have hfalse : ¬ (sat_subsumed_clause s cid = true) := by simp [hns]
  have hnow : sat_subsumed_clause (sat_subsume_clause cid s) cid = true := by
    unfold sat_subsumed_clause
    rw [getClause_subsume_self cid s hex]
  unfold watch_clause_step
  rw [sat_unwatched_eq_satisfied cid s hscan]
  dsimp only
  rw [if_neg hfalse, if_pos hnow]

theorem watch_step_nofind (clit : Int) (cid : Nat) (s : SatState)
    (hns : sat_subsumed_clause s cid = false)
    (hscan : unwatchedScan s (s.getClause cid) (s.getClause cid).lits = .nofind) :
    watch_clause_step clit cid s =
      (match (if (s.getClause cid).watchA = some clit
              then (s.getClause cid).watchB else (s.getClause cid).watchA) with
       | none => .stop (sat_contradiction (some cid) s).2
       | some o =>
         if sat_instantiated_var s (litVar o) = true then
           if sat_implied_literal s o = true then .keep (sat_subsume_clause cid s)
           else .stop (sat_contradiction (some cid) s).2
         else
           if (set_Lit_Decision o (some cid) s).1 = true then
             .keep { (set_Lit_Decision o (some cid) s).2 with
                     queue := (set_Lit_Decision o (some cid) s).2.queue ++ [o] }
           else .stop (set_Lit_Decision o (some cid) s).2) := by
  have hfalse : ¬ (sat_subsumed_clause s cid = true) := by simp [hns]
  unfold watch_clause_step
  rw [sat_unwatched_eq_nofind cid s hscan]
  dsimp only
  rw [if_neg hfalse, if_neg hfalse]


theorem set_Lit_Decision_fresh (l : Int) (imp : Option Nat) (s : SatState)
    (h : sat_instantiated_var s (litVar l) = false) :
    set_Lit_Decision l imp s =
      (true, { set_Var_Decision s (litVar l) s.level (decide (0 < l)) imp with
               trail := (set_Var_Decision s (litVar l) s.level (decide (0 < l)) imp).trail
                 ++ [l] }) := by
  unfold set_Lit_Decision
  rw [if_pos (by simp [h])]

/-- C3: during propagation of a literal `l`, `propagate_lit_decision` runs
`watch_clause_step` on every clause of `(¬l).watch_list`; for a clause
`cid` not yet subsumed, (1) a replacement watch is the first literal of the
clause that is uninstantiated and not a current watch, every literal
before it being skippable (falsified, or an uninstantiated current watch),
and the clause's watch that pointed at the falsified literal is redirected
to it; (2) if the scan meets an implied literal first, the clause is
subsumed instead; (3) with no replacement: a missing or falsified other
watch records a conflict on the contradiction variable with `cid` as the
conflict clause, an implied other watch subsumes the clause, and an
uninstantiated other watch `o` is assigned at the current level with
`implied_by = cid` and enqueued onto the propagate queue. -/
theorem C3_watch_scan_dispatch (clit : Int) (cid : Nat) (s : SatState)
    (hns : sat_subsumed_clause s cid = false)
    (hex : ClauseAt s cid) :
    (∀ m, unwatchedScan s (s.getClause cid) (s.getClause cid).lits = .found m →
      (∃ pre post, (s.getClause cid).lits = pre ++ m :: post ∧
        (∀ x ∈ pre, ScanSkip s (s.getClause cid) x) ∧
        sat_instantiated_var s (litVar m) = false ∧
        ¬ (some m = (s.getClause cid).watchA ∨ some m = (s.getClause cid).watchB)) ∧
      (∃ s₂, watch_clause_step clit cid s = .move m s₂ ∧
        ((s.getClause cid).watchA = some clit →
          (s₂.getClause cid).watchA = some m ∧
          (s₂.getClause cid).watchB = (s.getClause cid).watchB) ∧
        ((s.getClause cid).watchA ≠ some clit →
          (s₂.getClause cid).watchB = some m ∧
          (s₂.getClause cid).watchA = (s.getClause cid).watchA) ∧
        s₂.trail = s.trail ∧ s₂.queue = s.queue)) ∧
    (unwatchedScan s (s.getClause cid) (s.getClause cid).lits = .satisfied →
      (∃ pre i post, (s.getClause cid).lits = pre ++ i :: post ∧
        (∀ x ∈ pre, ScanSkip s (s.getClause cid) x) ∧
        sat_implied_literal s i = true) ∧
      (∃ s₂, watch_clause_step clit cid s = .keep s₂ ∧
        sat_subsumed_clause s₂ cid = true ∧ s₂.trail = s.trail ∧ s₂.queue = s.queue)) ∧
    (unwatchedScan s (s.getClause cid) (s.getClause cid).lits = .nofind →
      (∀ x ∈ (s.getClause cid).lits, ScanSkip s (s.getClause cid) x) ∧
      ∀ other, (if (s.getClause cid).watchA = some clit
                then (s.getClause cid).watchB
                else (s.getClause cid).watchA) = other →
        (other = none →
          ∃ s₂, watch_clause_step clit cid s = .stop s₂ ∧
            s₂.contradiction.impliedBy = some cid ∧
            s₂.contradiction.level = s.level ∧
            s₂.trail = s.trail ++ [0]) ∧
        (∀ o, other = some o → sat_instantiated_var s (litVar o) = true →
          (sat_implied_literal s o = true →
            ∃ s₂, watch_clause_step clit cid s = .keep s₂ ∧
              sat_subsumed_clause s₂ cid = true) ∧
          (sat_implied_literal s o = false →
            ∃ s₂, watch_clause_step clit cid s = .stop s₂ ∧
              s₂.contradiction.impliedBy = some cid ∧
              s₂.contradiction.level = s.level ∧
              s₂.trail = s.trail ++ [0])) ∧
        (∀ o, other = some o → sat_instantiated_var s (litVar o) = false →
          (litVar o = 0 ∨ litVar o - 1 < s.vars.length) →
          ∃ s₂, watch_clause_step clit cid s = .keep s₂ ∧
            (s₂.getDecision (litVar o)).impliedBy = some cid ∧
            (s₂.getDecision (litVar o)).level = s.level ∧
            (s₂.getDecision (litVar o)).value = decide (0 < o) ∧
            s₂.trail = s.trail ++ [o] ∧ s₂.queue = s.queue ++ [o])) := by
  refine ⟨?_, ?_, ?_⟩
  · intro m hscan
    refine ⟨unwatchedScan_found_first s _ _ m hscan, ?_⟩
    refine ⟨_, watch_step_found clit cid s m hns hscan, ?_, ?_, ?_, ?_⟩
    · intro hwa
      rw [if_pos hwa,
        getClause_modifyClause_self s cid (fun c' => { c' with watchA := some m })
          (fun c' => rfl) hex]
      exact ⟨rfl, rfl⟩
    · intro hwa
      rw [if_neg hwa,
        getClause_modifyClause_self s cid (fun c' => { c' with watchB := some m })
          (fun c' => rfl) hex]
      exact ⟨rfl, rfl⟩
    · split <;> simp
    · split <;> simp
  · intro hscan
    refine ⟨unwatchedScan_satisfied_first s _ _ hscan, ?_⟩
    refine ⟨_, watch_step_satisfied clit cid s hns hex hscan, ?_, trail_subsume cid s,
      queue_subsume cid s⟩
    unfold sat_subsumed_clause
    rw [getClause_subsume_self cid s hex]
  · intro hscan
    refine ⟨unwatchedScan_nofind_all s _ _ hscan, ?_⟩
    intro other hother
    have hstep := watch_step_nofind clit cid s hns hscan
    rw [hother] at hstep
    refine ⟨?_, ?_, ?_⟩
    · intro hnone
      subst hnone
      dsimp only at hstep
      refine ⟨_, hstep, rfl, rfl, ?_⟩
      show (set_Var_Decision s 0 s.level true (some cid)).trail ++ [0] = s.trail ++ [0]
      unfold set_Var_Decision
      rw [SatState.trail_setDecision]
    · intro o ho hinst
      subst ho
      dsimp only at hstep
      constructor
      · intro himp
        rw [if_pos hinst, if_pos himp] at hstep
        refine ⟨_, hstep, ?_⟩
        unfold sat_subsumed_clause
        rw [getClause_subsume_self cid s hex]
      · intro himp
        rw [if_pos hinst, if_neg (by simp [himp])] at hstep
        refine ⟨_, hstep, rfl, rfl, ?_⟩
        show (set_Var_Decision s 0 s.level true (some cid)).trail ++ [0] = s.trail ++ [0]
        unfold set_Var_Decision
        rw [SatState.trail_setDecision]
    · intro o ho hninst hbound
      subst ho
      dsimp only at hstep
      rw [if_neg (by simp [hninst])] at hstep
      rw [set_Lit_Decision_fresh o (some cid) s hninst] at hstep
      rw [if_pos rfl] at hstep
      refine ⟨_, hstep, ?_, ?_, ?_, ?_, ?_⟩
      · show ((set_Var_Decision s (litVar o) s.level (decide (0 < o))
          (some cid)).getDecision (litVar o)).impliedBy = some cid
        unfold set_Var_Decision
        rw [SatState.getDecision_setDecision_self s (litVar o) _ hbound]
      · show ((set_Var_Decision s (litVar o) s.level (decide (0 < o))
          (some cid)).getDecision (litVar o)).level = s.level
        unfold set_Var_Decision
        rw [SatState.getDecision_setDecision_self s (litVar o) _ hbound]
      · show ((set_Var_Decision s (litVar o) s.level (decide (0 < o))
          (some cid)).getDecision (litVar o)).value = decide (0 < o)
        unfold set_Var_Decision
        rw [SatState.getDecision_setDecision_self s (litVar o) _ hbound]
      · show (set_Var_Decision s (litVar o) s.level (decide (0 < o))
          (some cid)).trail ++ [o] = s.trail ++ [o]
        unfold set_Var_Decision
        rw [SatState.trail_setDecision]
      · show (set_Var_Decision s (litVar o) s.level (decide (0 < o))
          (some cid)).queue ++ [o] = s.queue ++ [o]
        unfold set_Var_Decision
        rw [SatState.queue_setDecision]


theorem C3_watch_scan_dispatch_witness :
    sat_subsumed_clause stateS3 1 = false ∧
    unwatchedScan stateS3 (stateS3.getClause 1) (stateS3.getClause 1).lits = .nofind ∧
    ∃ s₂, watch_clause_step (-1) 1 stateS3 = .keep s₂ ∧
      (s₂.getDecision (litVar 2)).impliedBy = some 1 ∧
      (s₂.getDecision (litVar 2)).level = stateS3.level ∧
      (s₂.getDecision (litVar 2)).value = decide ((0 : Int) < 2) ∧
      s₂.trail = stateS3.trail ++ [2] ∧ s₂.queue = stateS3.queue ++ [2] :=
  ⟨by decide, by decide,
   (((C3_watch_scan_dispatch (-1) 1 stateS3 (by decide)
       ⟨by decide, Or.inl (by decide)⟩).2.2 (by decide)).2 (some 2) (by decide)).2.2 2 rfl
     (by decide) (Or.inr (by decide))⟩


/-! ## The analysis frame: fields conflict analysis never modifies

`sat_compute_UIP` and `sat_build_asserting_clause` write only the scratch
fields: the marks array and the `order`/`dominator` components of decision
records. -/

theorem setDecision_oob (s : SatState) (v : Nat) (d : Decision) (h0 : v ≠ 0)
    (h : s.vars.length ≤ v - 1) : s.setDecision v d = s := by
  unfold SatState.setDecision
  rw [if_neg h0, List.set_eq_of_length_le h]

/-- Everything except marks, orders and dominators. -/
structure AnaFrame (s s' : SatState) : Prop where
  level : s'.level = s.level
  trail : s'.trail = s.trail
  queue : s'.queue = s.queue
  subsumedLog : s'.subsumedLog = s.subsumedLog
  origClauses : s'.origClauses = s.origClauses
  learned : s'.learned = s.learned
  falseClause : s'.falseClause = s.falseClause
  varsLen : s'.vars.length = s.vars.length
  decision : ∀ v, (s'.getDecision v).level = (s.getDecision v).level ∧
    (s'.getDecision v).value = (s.getDecision v).value ∧
    (s'.getDecision v).impliedBy = (s.getDecision v).impliedBy
  litData : ∀ l, s'.getLitData l = s.getLitData l

namespace AnaFrame

theorem anaRfl (s : SatState) : AnaFrame s s :=
  ⟨by rfl, by rfl, by rfl, by rfl, by rfl, by rfl, by rfl, by rfl,
   fun v => ⟨by rfl, by rfl, by rfl⟩, fun l => by rfl⟩

theorem anaTrans {s₁ s₂ s₃ : SatState} (h : AnaFrame s₁ s₂) (h' : AnaFrame s₂ s₃) :
    AnaFrame s₁ s₃ :=
  ⟨h'.level.trans h.level, h'.trail.trans h.trail, h'.queue.trans h.queue,
   h'.subsumedLog.trans h.subsumedLog, h'.origClauses.trans h.origClauses,
   h'.learned.trans h.learned, h'.falseClause.trans h.falseClause,
   h'.varsLen.trans h.varsLen,
   fun v => ⟨((h'.decision v).1).trans (h.decision v).1,
     ((h'.decision v).2.1).trans (h.decision v).2.1,
     ((h'.decision v).2.2).trans (h.decision v).2.2⟩,
   fun l => (h'.litData l).trans (h.litData l)⟩

theorem getClause {s s' : SatState} (h : AnaFrame s s') (cid : Nat) :
    s'.getClause cid = s.getClause cid := by
  unfold SatState.getClause
  rw [h.falseClause, h.origClauses, h.learned]

end AnaFrame

/-- Writing a decision record that keeps level, value and implier is an
analysis-frame step. -/
theorem anaFrame_setDecision (s : SatState) (v : Nat) (d : Decision)
    (hl : d.level = (s.getDecision v).level)
    (hv : d.value = (s.getDecision v).value)
    (hi : d.impliedBy = (s.getDecision v).impliedBy) :
    AnaFrame s (s.setDecision v d) := by
  by_cases hb : v = 0 ∨ v - 1 < s.vars.length
  · refine ⟨by simp, by simp, by simp, by simp, by simp, by simp, by simp, by simp, ?_,
      fun l => SatState.getLitData_setDecision s v d l⟩
    intro w
    by_cases hw : w = v
    · subst hw
      rw [SatState.getDecision_setDecision_self s w d hb]
      exact ⟨hl, hv, hi⟩
    · rw [SatState.getDecision_setDecision_ne s v w d hw]
      exact ⟨by rfl, by rfl, by rfl⟩
  · push_neg at hb
    rw [setDecision_oob s v d hb.1 hb.2]
    exact AnaFrame.anaRfl s

/-- Writing the marks array is an analysis-frame step. -/
theorem anaFrame_marks (s : SatState) (m : List Bool) :
    AnaFrame s { s with marks := m } :=
  ⟨by rfl, by rfl, by rfl, by rfl, by rfl, by rfl, by rfl, by rfl,
   fun v => ⟨by rfl, by rfl, by rfl⟩, fun l => by rfl⟩

theorem anaFrame_uipInitGo (tr : List Int) (idx : Nat) (s : SatState) (acc : List Int) :
    AnaFrame s (uipInitGo tr idx s acc).1 := by
  induction tr generalizing idx s acc with
  | nil => exact AnaFrame.anaRfl s
  | cons l rest ih =>
    unfold uipInitGo
    dsimp only
    split
    · exact (anaFrame_setDecision s (litVar l) _ (by rfl) (by rfl) (by rfl)).anaTrans (ih _ _ _)
    · exact anaFrame_setDecision s (litVar l) _ (by rfl) (by rfl) (by rfl)

theorem anaFrame_uipPredFold (x : Int) (ps : List Int) (s : SatState) :
    AnaFrame s (uipPredFold x ps s) := by
  induction ps generalizing s with
  | nil => exact AnaFrame.anaRfl s
  | cons p ps ih =>
    unfold uipPredFold
    dsimp only
    split
    · exact ih s
    · exact (anaFrame_setDecision s (litVar x) _ (by rfl) (by rfl) (by rfl)).anaTrans (ih _)

theorem anaFrame_uipForwardGo (xs : List Int) (s : SatState) :
    AnaFrame s (uipForwardGo xs s) := by
  induction xs generalizing s with
  | nil => exact AnaFrame.anaRfl s
  | cons x rest ih =>
    unfold uipForwardGo
    dsimp only
    split
    · exact ih s
    · exact (anaFrame_uipPredFold x _ s).anaTrans (ih _)

theorem anaFrame_computeUIP (s : SatState) :
    AnaFrame s (sat_compute_UIP s).1 := by
  unfold sat_compute_UIP
  dsimp only
  exact (anaFrame_uipInitGo _ _ s _).anaTrans (anaFrame_uipForwardGo _ _)

theorem anaFrame_bacMarkPreds (lvl : Nat) (ps : List Int) (s : SatState) (k : Nat) :
    AnaFrame s (bacMarkPreds lvl ps s k).1 := by
  induction ps generalizing s k with
  | nil => exact AnaFrame.anaRfl s
  | cons p ps ih =>
    unfold bacMarkPreds
    dsimp only
    split
    · exact (anaFrame_marks s _).anaTrans (ih _ _)
    · exact ih s k

theorem anaFrame_bacBackGo (uip lvl : Nat) (tr : List Int) (s : SatState) (k : Nat) :
    AnaFrame s (bacBackGo uip lvl tr s k).1 := by
  induction tr generalizing s k with
  | nil => exact AnaFrame.anaRfl s
  | cons dl rest ih =>
    unfold bacBackGo
    dsimp only
    split
    · exact AnaFrame.anaRfl s
    · split
      · split
        · exact (anaFrame_bacMarkPreds lvl _ s k).anaTrans (ih _ _)
        · exact ih s k
      · exact ih s k

theorem anaFrame_bacForwardGo (lvl : Nat) (tr : List Int) (s : SatState)
    (acc : List Int) (al : Nat) :
    AnaFrame s (bacForwardGo lvl tr s acc al).1 := by
  induction tr generalizing s acc al with
  | nil => exact AnaFrame.anaRfl s
  | cons l rest ih =>
    unfold bacForwardGo
    dsimp only
    split
    · split
      · exact (anaFrame_marks s _).anaTrans (ih _ _ _)
      · exact ih s acc al
    · exact AnaFrame.anaRfl s

theorem anaFrame_build (s : SatState) :
    AnaFrame s (sat_build_asserting_clause s).2 := by
  unfold sat_build_asserting_clause
  dsimp only
  split
  · exact anaFrame_computeUIP s
  · split
    · exact ((anaFrame_computeUIP s).anaTrans (anaFrame_bacBackGo _ _ _ _ _)).anaTrans
        (anaFrame_bacForwardGo _ _ _ _ _)
    · exact (anaFrame_computeUIP s).anaTrans (anaFrame_bacBackGo _ _ _ _ _)


/-! ## C7 — watch shape of original clauses, and `sat_assert_clause`'s
watch installation -/

/-- Watch shape of the original clauses as established by `read_sat_cnf`:
every original clause is nonempty; a single-literal clause watches its
literal with `watch_b = ∅`; a longer clause always has `watch_b ≠ ∅`. -/
def OrigWatchInv (s : SatState) : Prop :=
  ∀ cl ∈ s.origClauses,
    cl.lits ≠ [] ∧
    (cl.lits.length = 1 → cl.watchA = cl.lits.head? ∧ cl.watchB = none) ∧
    (1 < cl.lits.length → cl.watchB ≠ none)

theorem origWatchInv_of_eq {s s' : SatState} (h : s'.origClauses = s.origClauses)
    (hi : OrigWatchInv s) : OrigWatchInv s' := by
  intro cl hcl
  exact hi cl (h ▸ hcl)

theorem getD_mem_of_lt {α : Type} (l : List α) (d : α) (i : Nat) (h : i < l.length) :
    l.getD i d ∈ l := by
  rw [List.getD_eq_getElem l d h]
  exact List.getElem_mem h

theorem origWatchInv_modifyClause (s : SatState) (cid : Nat) (f : Clause → Clause)
    (hf : ∀ c, (f c).lits = c.lits ∧ (f c).watchA = c.watchA ∧ (f c).watchB = c.watchB)
    (hi : OrigWatchInv s) : OrigWatchInv (s.modifyClause cid f) := by
  unfold SatState.modifyClause
  split
  · exact hi
  · split
    · rename_i h0 hle
      intro cl hcl
      rcases List.mem_or_eq_of_mem_set hcl with hcl | hcl
      · exact hi cl hcl
      · subst hcl
        have hmem := getD_mem_of_lt s.origClauses junkClause (cid - 1) (by omega)
        obtain ⟨hne, hu, hb⟩ := hi _ hmem
        refine ⟨by rw [(hf _).1]; exact hne, ?_, ?_⟩
        · intro h1
          rw [(hf _).1] at h1
          rw [(hf _).2.1, (hf _).2.2, (hf _).1]
          exact hu h1
        · intro h1
          rw [(hf _).1] at h1
          rw [(hf _).2.2]
          exact hb h1
    · intro cl hcl
      exact hi cl hcl

theorem origWatchInv_subsume (cid : Nat) (s : SatState) (hi : OrigWatchInv s) :
    OrigWatchInv (sat_subsume_clause cid s) := by
  unfold sat_subsume_clause
  dsimp only
  split
  · exact hi
  · exact origWatchInv_of_eq rfl
      (origWatchInv_modifyClause s cid _ (fun c => ⟨rfl, rfl, rfl⟩) hi)

theorem origWatchInv_setLit (l : Int) (imp : Option Nat) (s : SatState)
    (hi : OrigWatchInv s) : OrigWatchInv (set_Lit_Decision l imp s).2 := by
  unfold set_Lit_Decision
  dsimp only
  split
  · exact origWatchInv_of_eq (by simp [set_Var_Decision]) hi
  · split
    · exact origWatchInv_of_eq (by simp [sat_contradiction, set_Var_Decision]) hi
    · match imp with
      | some cid => exact origWatchInv_subsume cid s hi
      | none => exact hi

theorem origWatchInv_move (s : SatState) (cid : Nat) (m : Int)
    (hm : m ∈ (s.getClause cid).lits)
    (hmnw : ¬ (some m = (s.getClause cid).watchA ∨ some m = (s.getClause cid).watchB))
    (hi : OrigWatchInv s) (f : Clause → Clause)
    (hfl : ∀ c, (f c).lits = c.lits)
    (hfb : ∀ c, (f c).watchB = c.watchB ∨ (f c).watchB = some m) :
    OrigWatchInv (s.modifyClause cid f) := by
  unfold SatState.modifyClause
  split
  · exact hi
  · split
    · rename_i h0 hle
      intro cl hcl
      rcases List.mem_or_eq_of_mem_set hcl with hcl | hcl
      · exact hi cl hcl
      · subst hcl
        have hmem := getD_mem_of_lt s.origClauses junkClause (cid - 1) (by omega)
        have hgc : s.getClause cid = s.origClauses.getD (cid - 1) junkClause := by
          unfold SatState.getClause
          rw [if_neg h0, if_pos hle]
        obtain ⟨hne, hu, hb⟩ := hi _ hmem
        have hlen1 : (s.origClauses.getD (cid - 1) junkClause).lits.length ≠ 1 := by
          intro h1
          obtain ⟨x, hx⟩ := List.length_eq_one.mp h1
          have hmx : m = x := by
            have hm' := hm
            rw [hgc, hx] at hm'
            simpa using hm'
          apply hmnw
          left
          rw [hgc, (hu h1).1, hx, hmx]
          rfl
        have hlen2 : 1 < (s.origClauses.getD (cid - 1) junkClause).lits.length := by
          have hpos : 0 < (s.origClauses.getD (cid - 1) junkClause).lits.length :=
            List.length_pos.mpr hne
          omega
        refine ⟨by rw [hfl]; exact hne, ?_, ?_⟩
        · intro h1
          rw [hfl] at h1
          exact absurd h1 hlen1
        · intro _
          rcases hfb (s.origClauses.getD (cid - 1) junkClause) with h | h
          · rw [h]; exact hb hlen2
          · rw [h]; exact Option.some_ne_none m
    · intro cl hcl
      exact hi cl hcl

theorem sat_unwatched_some (cid : Nat) (s : SatState) (m : Int)
    (hm : (sat_unwatched_literal cid s).1 = some m) :
    (sat_unwatched_literal cid s).2 = s ∧ m ∈ (s.getClause cid).lits ∧
    ¬ (some m = (s.getClause cid).watchA ∨ some m = (s.getClause cid).watchB) := by
  rcases hscan : unwatchedScan s (s.getClause cid) (s.getClause cid).lits with m' | _ | _
  · rw [sat_unwatched_eq_found cid s m' hscan] at hm ⊢
    have hmm : m' = m := by simpa using hm
    subst hmm
    obtain ⟨pre, post, heq, _, _, hmnw⟩ := unwatchedScan_found_first s _ _ m' hscan
    refine ⟨rfl, ?_, hmnw⟩
    rw [heq]
    exact List.mem_append.mpr (Or.inr (List.mem_cons_self m' post))
  · rw [sat_unwatched_eq_satisfied cid s hscan] at hm
    cases hm
  · rw [sat_unwatched_eq_nofind cid s hscan] at hm
    cases hm

theorem origWatchInv_unwatched (cid : Nat) (s : SatState) (hi : OrigWatchInv s) :
    OrigWatchInv (sat_unwatched_literal cid s).2 := by
  unfold sat_unwatched_literal
  dsimp only
  split
  · exact hi
  · exact origWatchInv_subsume cid s hi
  · exact hi

theorem origClauses_contradiction_step (imp : Option Nat) (s : SatState) :
    (sat_contradiction imp s).2.origClauses = s.origClauses := by
  unfold sat_contradiction set_Var_Decision
  dsimp only
  rw [SatState.origClauses_setDecision]

theorem origWatchInv_watch_step (clit : Int) (cid : Nat) (s : SatState)
    (hi : OrigWatchInv s) : OrigWatchInv (watch_clause_step clit cid s).state := by
  have hIun := origWatchInv_unwatched cid s hi
  unfold watch_clause_step
  dsimp only
  split
  · exact hi
  · split
    · exact hIun
    · split
      · rename_i m hm
        obtain ⟨hs2, hmmem, hmnw⟩ := sat_unwatched_some cid s m hm
        rw [hs2]
        dsimp only [WStep.state]
        split
        · exact origWatchInv_move s cid m hmmem hmnw hi _ (fun c => rfl) (fun c => Or.inl rfl)
        · exact origWatchInv_move s cid m hmmem hmnw hi _ (fun c => rfl) (fun c => Or.inr rfl)
      · split
        · exact origWatchInv_of_eq (origClauses_contradiction_step _ _) hIun
        · rename_i o ho
          split
          · split
            · exact origWatchInv_subsume _ _ hIun
            · exact origWatchInv_of_eq (origClauses_contradiction_step _ _) hIun
          · split
            · exact origWatchInv_of_eq (rfl)
                (origWatchInv_setLit o (some cid) _ hIun)
            · exact origWatchInv_setLit o (some cid) _ hIun


theorem origWatchInv_setWatchList (s : SatState) (l : Int) (wl : List Nat)
    (hi : OrigWatchInv s) : OrigWatchInv (s.setWatchList l wl) :=
  origWatchInv_of_eq (by simp [SatState.setWatchList]) hi

theorem origWatchInv_processWL (clit : Int) (wl kept : List Nat) (s : SatState)
    (hi : OrigWatchInv s) : OrigWatchInv (processWL clit wl kept s).2 := by
  induction wl generalizing kept s with
  | nil => exact origWatchInv_setWatchList s clit kept.reverse hi
  | cons cid rest ih =>
    have hstep := origWatchInv_watch_step clit cid s hi
    rcases hw : watch_clause_step clit cid s with s' | ⟨m, s'⟩ | s' <;>
      rw [hw] at hstep <;> simp only [processWL, hw]
    · exact ih _ _ hstep
    · exact ih _ _ (origWatchInv_of_eq (by simp [WStep.state]) hstep)
    · exact origWatchInv_setWatchList s' clit _ hstep

theorem origWatchInv_foldl {α : Type} (g : SatState → α → SatState)
    (hg : ∀ st a, OrigWatchInv st → OrigWatchInv (g st a)) (xs : List α)
    (s : SatState) (hi : OrigWatchInv s) : OrigWatchInv (xs.foldl g s) := by
  induction xs generalizing s with
  | nil => exact hi
  | cons x xs ih => exact ih _ (hg s x hi)

theorem origWatchInv_propagate (l : Int) (s : SatState) (hi : OrigWatchInv s) :
    OrigWatchInv (propagate_lit_decision l s).2 := by
  unfold propagate_lit_decision
  dsimp only
  apply origWatchInv_processWL
  apply origWatchInv_foldl _ (fun st a h => origWatchInv_subsume a st h)
  apply origWatchInv_foldl _ (fun st a h => origWatchInv_subsume a st h)
  exact hi

theorem origWatchInv_urGo (fuel i : Nat) (s : SatState) (hi : OrigWatchInv s) :
    OrigWatchInv (urGo fuel i s).2 := by
  induction fuel generalizing i s with
  | zero => exact hi
  | succ f ih =>
    unfold urGo
    dsimp only
    split
    · have hp := origWatchInv_propagate (s.queue.getD i 0) s hi
      split
      · exact ih _ _ hp
      · exact hp
    · exact origWatchInv_of_eq rfl hi

theorem origWatchInv_unit_resolution (s : SatState) (hi : OrigWatchInv s) :
    OrigWatchInv (sat_unit_resolution s).2 :=
  origWatchInv_urGo _ 0 s hi

theorem origWatchInv_build (s : SatState) (hi : OrigWatchInv s) :
    OrigWatchInv (sat_build_asserting_clause s).2 :=
  origWatchInv_of_eq (anaFrame_build s).origClauses hi

theorem origWatchInv_decide (l : Int) (s : SatState) (hi : OrigWatchInv s) :
    OrigWatchInv (sat_decide_literal l s).2 := by
  unfold sat_decide_literal
  dsimp only
  have h₁ := origWatchInv_setLit l none
    { s with level := s.level + 1, subsumedLog := none :: s.subsumedLog }
    (origWatchInv_of_eq rfl hi)
  split
  · split
    · exact origWatchInv_unit_resolution _ (origWatchInv_of_eq rfl h₁)
    · exact origWatchInv_build _
        (origWatchInv_unit_resolution _ (origWatchInv_of_eq rfl h₁))
  · split
    · exact h₁
    · exact origWatchInv_build _ h₁

theorem origWatchInv_popTrailGo (lvl : Nat) (tr : List Int) (s : SatState)
    (hi : OrigWatchInv s) : OrigWatchInv (popTrailGo lvl tr s).2 := by
  induction tr generalizing s with
  | nil => exact hi
  | cons l rest ih =>
    unfold popTrailGo
    split
    · exact ih _ (origWatchInv_of_eq (by simp [unset_Var_Decision]) hi)
    · exact hi

theorem origWatchInv_popLogGo (log : List (Option Nat)) (s : SatState)
    (hi : OrigWatchInv s) : OrigWatchInv (popLogGo log s).2 := by
  induction log generalizing s with
  | nil => exact hi
  | cons e rest ih =>
    match e with
    | none => exact hi
    | some cid =>
      exact ih _ (origWatchInv_modifyClause s cid _ (fun c => ⟨rfl, rfl, rfl⟩) hi)

theorem origWatchInv_undoUR (s : SatState) (hi : OrigWatchInv s) :
    OrigWatchInv (sat_undo_unit_resolution s) := by
  unfold sat_undo_unit_resolution
  dsimp only
  apply origWatchInv_of_eq rfl
  apply origWatchInv_popLogGo
  apply origWatchInv_of_eq rfl
  exact origWatchInv_popTrailGo s.level s.trail.reverse s hi

theorem origWatchInv_undo_decide (s : SatState) (hi : OrigWatchInv s) :
    OrigWatchInv (sat_undo_decide_literal s) :=
  origWatchInv_of_eq rfl (origWatchInv_undoUR s hi)

theorem origWatchInv_assertOutcome (p : Bool) (s : SatState) (hi : OrigWatchInv s) :
    OrigWatchInv (assertOutcome p s).2 := by
  unfold assertOutcome
  split
  · exact hi
  · split
    · exact origWatchInv_build _ hi
    · exact hi

theorem origWatchInv_assert (c : Clause) (s : SatState) (hi : OrigWatchInv s) :
    OrigWatchInv (sat_assert_clause c s).2 := by
  unfold sat_assert_clause
  dsimp only
  have h₂ : OrigWatchInv (c.lits.foldl (fun st l => st.modifyLitData l fun d =>
      { d with learnedList := c.id :: d.learnedList }) { s with learned := assertWatched c :: s.learned }) := by
    apply origWatchInv_foldl _ (fun st a h => origWatchInv_of_eq (by simp) h)
    exact origWatchInv_of_eq rfl hi
  rcases hh : c.lits.head? with _ | wa <;> dsimp only
  · exact h₂
  · have h₃ := origWatchInv_setLit wa (some c.id) _ h₂
    split
    · exact origWatchInv_assertOutcome _ _
        (origWatchInv_unit_resolution _ (origWatchInv_of_eq (by simp) h₃))
    · exact origWatchInv_assertOutcome _ _ h₃


theorem origWatchInv_append (s : SatState) (c₁ : Clause) (hi : OrigWatchInv s)
    (h1 : c₁.lits ≠ [])
    (h2 : c₁.lits.length = 1 → c₁.watchA = c₁.lits.head? ∧ c₁.watchB = none)
    (h3 : 1 < c₁.lits.length → c₁.watchB ≠ none) :
    OrigWatchInv { s with origClauses := s.origClauses ++ [c₁] } := by
  intro cl hcl
  dsimp only at hcl
  rcases List.mem_append.1 hcl with hcl | hcl
  · exact hi cl hcl
  · rw [List.mem_singleton] at hcl
    subst hcl
    exact ⟨h1, h2, h3⟩

theorem origWatchInv_installClause (st st' : SatState) (c : Clause)
    (h : installClause st c = some st') (hi : OrigWatchInv st) : OrigWatchInv st' := by
  unfold installClause at h
  rcases hl : c.lits with _ | ⟨l0, rest⟩ <;> rw [hl] at h
  · cases h
  · dsimp only at h
    rcases rest with _ | ⟨l1, rtail⟩ <;> dsimp only [List.head?] at h <;>
      injection h with h <;> subst h
    · have happ := origWatchInv_append st
        { id := c.id, assertionLevel := c.assertionLevel, lits := [l0], watchA := some l0,
          watchB := none, isSubsumed := c.isSubsumed } hi (by simp)
        (fun _ => ⟨rfl, rfl⟩) (by intro hco; simp at hco)
      exact origWatchInv_of_eq (by simp) happ
    · have happ := origWatchInv_append st
        { id := c.id, assertionLevel := c.assertionLevel, lits := l0 :: l1 :: rtail,
          watchA := some l0, watchB := some l1, isSubsumed := c.isSubsumed } hi (by simp)
        (by intro hco; rw [List.length_cons, List.length_cons] at hco; omega)
        (fun _ => by simp)
      exact origWatchInv_of_eq (by simp) happ

theorem origWatchInv_installStep (acc : Option SatState) (toks : List Int)
    (st' : SatState) (h : installStep acc toks = some st')
    (hi : ∀ st, acc = some st → OrigWatchInv st) : OrigWatchInv st' := by
  rcases acc with _ | st
  · cases h
  · exact origWatchInv_installClause st st' _ h (hi st rfl)

theorem origWatchInv_install_fold (cnf : List (List Int)) (acc : Option SatState)
    (st' : SatState) (h : cnf.foldl installStep acc = some st')
    (hi : ∀ st, acc = some st → OrigWatchInv st) : OrigWatchInv st' := by
  induction cnf generalizing acc with
  | nil => exact hi st' h
  | cons toks rest ih =>
    rw [List.foldl_cons] at h
    exact ih _ h (fun st hst => origWatchInv_installStep acc toks st hst hi)

theorem origWatchInv_seedClause (s : SatState) (p : Bool) (cid : Nat)
    (hi : OrigWatchInv s) : OrigWatchInv (seedClause s p cid).1 := by
  unfold seedClause
  dsimp only
  split
  · exact origWatchInv_foldl _ (fun st a h => origWatchInv_of_eq (by simp) h) _ _ hi
  · split
    · exact hi
    · rename_i wa hwa
      have h₂ := origWatchInv_setLit wa (some cid)
        (s.modifyLitData wa fun d => { d with appearsIn := d.appearsIn ++ [cid] })
        (origWatchInv_of_eq (by simp) hi)
      split
      · exact origWatchInv_of_eq rfl h₂
      · exact origWatchInv_of_eq rfl
          (origWatchInv_modifyClause _ cid _ (fun c => ⟨rfl, rfl, rfl⟩) h₂)

theorem origWatchInv_seed_fold (ids : List Nat) (p : SatState × Bool)
    (hi : OrigWatchInv p.1) :
    OrigWatchInv (ids.foldl (fun q cid => seedClause q.1 q.2 cid) p).1 := by
  induction ids generalizing p with
  | nil => exact hi
  | cons cid rest ih => exact ih _ (origWatchInv_seedClause p.1 p.2 cid hi)

theorem origWatchInv_read (n : Nat) (cnf : List (List Int)) (s s' : SatState)
    (h : read_sat_cnf n cnf s = some s') (hi : OrigWatchInv s) : OrigWatchInv s' := by
  unfold read_sat_cnf at h
  dsimp only at h
  rcases hins : cnf.foldl installStep (some { s with vars := List.replicate n Var.init })
      with _ | s₂ <;> rw [hins] at h <;> dsimp only at h
  · cases h
  · injection h with h
    subst h
    apply origWatchInv_seed_fold
    refine origWatchInv_install_fold cnf _ s₂ hins (fun st hst => ?_)
    injection hst with hst
    subst hst
    exact origWatchInv_of_eq (by simp) hi

theorem origWatchInv_new (n : Nat) (cnf : List (List Int)) (s : SatState)
    (h : sat_state_new n cnf = some s) : OrigWatchInv s := by
  unfold sat_state_new at h
  dsimp only at h
  rcases hr : read_sat_cnf n cnf
      { level := 1, vars := [], contradiction := Decision.init,
        falseClause := ⟨0, 0, [], none, none, false⟩,
        origClauses := [], learned := [], trail := [], queue := [],
        subsumedLog := [], marks := [] } with _ | s₁ <;> rw [hr] at h <;> dsimp only at h
  · cases h
  · injection h with h
    subst h
    have hread := origWatchInv_read n cnf _ s₁ hr
      (fun cl hcl => absurd hcl (List.not_mem_nil cl))
    exact origWatchInv_of_eq (by simp) hread


/-- The engine flow behind the C7 counterexample: on `stateS4`, deciding
`-3` forces `-2`, then `1`, and clause 2 becomes falsified; conflict
analysis learns the one-literal clause `{2}` (id 4, assertion level 1).
The driver then undoes the decision and asserts the learned clause. -/
def s4Dec : Option Clause × SatState := sat_decide_literal (-3) stateS4

def s4Learned : Clause := s4Dec.1.getD junkClause

def s4Undone : SatState := sat_undo_decide_literal s4Dec.2

def s4Final : SatState := (sat_assert_clause s4Learned s4Undone).2

/-- **C7** (counterexample): `sat_assert_clause` installs
`watch_a = lits[0]` and `watch_b = lits[size-1]` unconditionally, so the
one-literal clause `{2}` learned from the conflict on `stateS4` is stored
with `watch_b = watch_a = 2`, not `watch_b = ∅` — the claimed
"`wb = ∅` iff the clause is unit" fails for learned clauses. -/
theorem C7_counterexample :
    s4Learned.lits.length = 1 ∧
    (s4Final.getClause 4).lits.length = 1 ∧
    (s4Final.getClause 4).watchB ≠ none := by decide

/-- **C7** (amended): the watch shape `watch_b = ∅ ↔ size = 1` does hold
for the *original* clauses — `sat_state_new` establishes `OrigWatchInv`
and every public operation (`sat_decide_literal`,
`sat_undo_decide_literal`, `sat_unit_resolution`, `sat_assert_clause`)
preserves it, and `OrigWatchInv` yields that equivalence — but learned
clauses break it: `sat_assert_clause` watches `lits[0]` and
`lits[size-1]`, so an asserted one-literal clause has `watch_b` equal to
its sole literal rather than `∅`. -/
theorem C7_watch_shape :
    (∀ n cnf s, sat_state_new n cnf = some s → OrigWatchInv s) ∧
    (∀ l s, OrigWatchInv s → OrigWatchInv (sat_decide_literal l s).2) ∧
    (∀ s, OrigWatchInv s → OrigWatchInv (sat_undo_decide_literal s)) ∧
    (∀ s, OrigWatchInv s → OrigWatchInv (sat_unit_resolution s).2) ∧
    (∀ c s, OrigWatchInv s → OrigWatchInv (sat_assert_clause c s).2) ∧
    (∀ s, OrigWatchInv s → ∀ cl ∈ s.origClauses, (cl.watchB = none ↔ cl.lits.length = 1)) ∧
    (∀ c l, c.lits = [l] → (assertWatched c).watchB = some l) := by
  refine ⟨origWatchInv_new, origWatchInv_decide, origWatchInv_undo_decide,
    origWatchInv_unit_resolution, origWatchInv_assert, ?_, ?_⟩
  · intro s hs cl hcl
    obtain ⟨hne, hu, hb⟩ := hs cl hcl
    constructor
    · intro hwb
      by_contra hlen
      rcases Nat.lt_or_ge 1 cl.lits.length with hgt | hle
      · exact hb hgt hwb
      · have h0 : cl.lits.length = 0 := by omega
        exact hne (List.length_eq_zero.mp h0)
    · intro hlen
      exact (hu hlen).2
  · intro c l hl
    simp [assertWatched, hl]

/-- Concrete instance of the amended C7: the invariant holds on the
constructed `stateS1`, and asserting the one-literal clause `cUnit`
stores its sole literal as `watch_b`. -/
theorem C7_watch_shape_witness :
    sat_state_new 1 [[1]] = some stateS1 ∧ OrigWatchInv stateS1 ∧
    cUnit.lits = [-1] ∧ (assertWatched cUnit).watchB = some (-1) :=
  ⟨by decide, C7_watch_shape.1 1 [[1]] stateS1 (by decide), by decide,
   C7_watch_shape.2.2.2.2.2.2 cUnit (-1) (by decide)⟩


/-! ## C1 — shape of the asserting clause -/

theorem max_ite (a b : Nat) : (if a < b then b else a) = max a b := by
  by_cases h : a < b
  · rw [if_pos h]
    omega
  · rw [if_neg h]
    omega

/-- What the forward sweep emits: an extension of the accumulator whose
every literal's variable sits strictly below `lvl`, with the running
assertion level folding the maximum of the emitted levels into `al`. -/
theorem bacForwardGo_spec (lvl : Nat) (tr : List Int) (s : SatState)
    (acc : List Int) (al : Nat) :
    ∃ em : List Int,
      (bacForwardGo lvl tr s acc al).2.1 = acc ++ em ∧
      (∀ l ∈ em, ((bacForwardGo lvl tr s acc al).1.getDecision (litVar l)).level < lvl) ∧
      (bacForwardGo lvl tr s acc al).2.2 =
        em.foldl (fun a l =>
          max a (((bacForwardGo lvl tr s acc al).1.getDecision (litVar l)).level)) al := by
  induction tr generalizing s acc al with
  | nil => exact ⟨[], by simp [bacForwardGo], by simp, by simp [bacForwardGo]⟩
  | cons l rest ih =>
    unfold bacForwardGo
    dsimp only
    split
    · split
      · rename_i hlt hmk
        obtain ⟨em, hE, hL, hA⟩ := ih { s with marks := s.marks.set (litVar l) false }
          (acc ++ [if (s.getDecision (litVar l)).value = true then -(Int.ofNat (litVar l))
            else Int.ofNat (litVar l)])
          (if al < (s.getDecision (litVar l)).level then (s.getDecision (litVar l)).level else al)
        have hv : litVar (if (s.getDecision (litVar l)).value = true then -(Int.ofNat (litVar l))
            else Int.ofNat (litVar l)) = litVar l := by
          cases (s.getDecision (litVar l)).value <;> simp [litVar, Int.natAbs_abs]
        have hF := anaFrame_bacForwardGo lvl rest { s with marks := s.marks.set (litVar l) false }
          (acc ++ [if (s.getDecision (litVar l)).value = true then -(Int.ofNat (litVar l))
            else Int.ofNat (litVar l)])
          (if al < (s.getDecision (litVar l)).level then (s.getDecision (litVar l)).level else al)
        refine ⟨(if (s.getDecision (litVar l)).value = true then -(Int.ofNat (litVar l))
          else Int.ofNat (litVar l)) :: em, ?_, ?_, ?_⟩
        · rw [hE, List.append_assoc]
          rfl
        · intro x hx
          rcases List.mem_cons.mp hx with hx | hx
          · subst hx
            rw [hv, (hF.decision (litVar l)).1]
            exact hlt
          · exact hL x hx
        · rw [hA, List.foldl_cons]
          congr 1
          rw [hv, (hF.decision (litVar l)).1]
          exact max_ite al ((s.getDecision (litVar l)).level)
      · exact ih s acc al
    · exact ⟨[], by simp, by simp, by rfl⟩

/-- **C1**: when conflict analysis finds a UIP that sits at the current
decision level, the clause built by `sat_build_asserting_clause` starts
with the negation of the UIP literal — the only literal of the clause at
the current level — every other literal's variable is at a strictly lower
level, and `assertion_level` is the maximum of those lower levels with
floor 1 (so exactly 1 when the clause is the UIP literal alone). -/
theorem C1_asserting_clause_shape (s : SatState) (uip : Nat)
    (huip : (sat_compute_UIP s).2 = some uip)
    (hlvl : (s.getDecision uip).level = s.level) :
    ∃ t : List Int,
      (sat_build_asserting_clause s).1.lits =
        (if (s.getDecision uip).value = true then -(Int.ofNat uip) else Int.ofNat uip) :: t ∧
      litVar (if (s.getDecision uip).value = true then -(Int.ofNat uip) else Int.ofNat uip) = uip ∧
      ((sat_build_asserting_clause s).2.getDecision uip).level =
        (sat_build_asserting_clause s).2.level ∧
      (∀ l ∈ t, ((sat_build_asserting_clause s).2.getDecision (litVar l)).level <
        (sat_build_asserting_clause s).2.level) ∧
      (sat_build_asserting_clause s).1.assertionLevel =
        t.foldl (fun a l =>
          max a (((sat_build_asserting_clause s).2.getDecision (litVar l)).level)) 1 := by
  unfold sat_build_asserting_clause
  dsimp only
  rw [huip]
  dsimp only
  have hA : AnaFrame s (bacBackGo uip (sat_compute_UIP s).1.level
      (sat_compute_UIP s).1.trail.reverse (sat_compute_UIP s).1 1).1 :=
    (anaFrame_computeUIP s).anaTrans (anaFrame_bacBackGo _ _ _ _ _)
  split
  · obtain ⟨em, hE, hL, hAL⟩ := bacForwardGo_spec
      (bacBackGo uip (sat_compute_UIP s).1.level
        (sat_compute_UIP s).1.trail.reverse (sat_compute_UIP s).1 1).1.level
      (bacBackGo uip (sat_compute_UIP s).1.level
        (sat_compute_UIP s).1.trail.reverse (sat_compute_UIP s).1 1).1.trail
      (bacBackGo uip (sat_compute_UIP s).1.level
        (sat_compute_UIP s).1.trail.reverse (sat_compute_UIP s).1 1).1 [] 1
    have hF := anaFrame_bacForwardGo
      (bacBackGo uip (sat_compute_UIP s).1.level
        (sat_compute_UIP s).1.trail.reverse (sat_compute_UIP s).1 1).1.level
      (bacBackGo uip (sat_compute_UIP s).1.level
        (sat_compute_UIP s).1.trail.reverse (sat_compute_UIP s).1 1).1.trail
      (bacBackGo uip (sat_compute_UIP s).1.level
        (sat_compute_UIP s).1.trail.reverse (sat_compute_UIP s).1 1).1 [] 1
    refine ⟨em, ?_, ?_, ?_, ?_, ?_⟩
    · dsimp only
      rw [hE, List.nil_append, (hA.decision uip).2.1]
    · cases hv : (s.getDecision uip).value <;> simp [litVar]
    · dsimp only
      rw [(hF.decision uip).1, hF.level, (hA.decision uip).1, hlvl, hA.level]
    · intro x hx
      dsimp only
      rw [hF.level]
      exact hL x hx
    · dsimp only
      rw [hAL]
  · refine ⟨[], ?_, ?_, ?_, by simp, by rfl⟩
    · dsimp only
      rw [(hA.decision uip).2.1]
    · cases hv : (s.getDecision uip).value <;> simp [litVar]
    · dsimp only
      rw [(hA.decision uip).1, hlvl, hA.level]


/-- The conflict state reached inside `sat_decide_literal (-3)` on
`stateS4`, reconstructed step by step: level bump and log sentinel, the
assignment of `-3`, the enqueue, and the failing unit resolution. -/
def s4Pre : SatState :=
  { stateS4 with level := stateS4.level + 1, subsumedLog := none :: stateS4.subsumedLog }

def s4Set : Bool × SatState := set_Lit_Decision (-3) none s4Pre

def s4ConflictState : SatState :=
  (sat_unit_resolution { s4Set.2 with queue := s4Set.2.queue ++ [-3] }).2

/-- Concrete instance of C1: on the conflict reached from `stateS4` the
UIP is variable 2, it sits at the current level, and the built clause is
its negation alone with assertion level 1. -/
theorem C1_asserting_clause_shape_witness :
    (sat_compute_UIP s4ConflictState).2 = some 2 ∧
    (s4ConflictState.getDecision 2).level = s4ConflictState.level ∧
    ∃ t : List Int,
      (sat_build_asserting_clause s4ConflictState).1.lits =
        (if (s4ConflictState.getDecision 2).value = true then -(Int.ofNat 2) else Int.ofNat 2) :: t ∧
      litVar (if (s4ConflictState.getDecision 2).value = true then -(Int.ofNat 2) else Int.ofNat 2) = 2 ∧
      ((sat_build_asserting_clause s4ConflictState).2.getDecision 2).level =
        (sat_build_asserting_clause s4ConflictState).2.level ∧
      (∀ l ∈ t, ((sat_build_asserting_clause s4ConflictState).2.getDecision (litVar l)).level <
        (sat_build_asserting_clause s4ConflictState).2.level) ∧
      (sat_build_asserting_clause s4ConflictState).1.assertionLevel =
        t.foldl (fun a l =>
          max a (((sat_build_asserting_clause s4ConflictState).2.getDecision (litVar l)).level)) 1 :=
  ⟨by decide, by decide, C1_asserting_clause_shape s4ConflictState 2 (by decide) (by decide)⟩


/-! ## C9 — the marks array is analyzer-private scratch space -/

theorem marks_uipInitGo (tr : List Int) (idx : Nat) (s : SatState) (acc : List Int) :
    (uipInitGo tr idx s acc).1.marks = s.marks := by
  induction tr generalizing idx s acc with
  | nil => rfl
  | cons l rest ih =>
    unfold uipInitGo
    dsimp only
    split
    · rw [ih]
      simp
    · simp

theorem marks_uipPredFold (x : Int) (ps : List Int) (s : SatState) :
    (uipPredFold x ps s).marks = s.marks := by
  induction ps generalizing s with
  | nil => rfl
  | cons p ps ih =>
    unfold uipPredFold
    dsimp only
    split
    · exact ih s
    · rw [ih]
      simp

theorem marks_uipForwardGo (xs : List Int) (s : SatState) :
    (uipForwardGo xs s).marks = s.marks := by
  induction xs generalizing s with
  | nil => rfl
  | cons x rest ih =>
    unfold uipForwardGo
    dsimp only
    split
    · exact ih s
    · rw [ih, marks_uipPredFold]

theorem marks_computeUIP (s : SatState) : (sat_compute_UIP s).1.marks = s.marks := by
  unfold sat_compute_UIP
  dsimp only
  rw [marks_uipForwardGo, marks_uipInitGo]

theorem getD_true_lt (l : List Bool) (v : Nat) (h : l.getD v false = true) :
    v < l.length := by
  by_contra hge
  push_neg at hge
  rw [List.getD_eq_default _ _ hge] at h
  cases h

theorem bacMarkPreds_k_mono (lvl : Nat) (ps : List Int) (s : SatState) (k : Nat) :
    k ≤ (bacMarkPreds lvl ps s k).2 := by
  induction ps generalizing s k with
  | nil => exact Nat.le_refl k
  | cons p ps ih =>
    unfold bacMarkPreds
    dsimp only
    split
    · exact Nat.le_trans (Nat.le_succ k) (ih _ _)
    · exact ih s k

theorem bacMarkPreds_marks_or (lvl : Nat) (ps : List Int) (s : SatState) (k : Nat) :
    (bacMarkPreds lvl ps s k).1.marks = s.marks ∨ k < (bacMarkPreds lvl ps s k).2 := by
  induction ps generalizing s k with
  | nil => exact Or.inl rfl
  | cons p ps ih =>
    unfold bacMarkPreds
    dsimp only
    split
    · right
      exact Nat.lt_of_lt_of_le (Nat.lt_succ_self k) (bacMarkPreds_k_mono lvl ps _ (k + 1))
    · exact ih s k

theorem bacBackGo_k_mono (uip lvl : Nat) (tr : List Int) (s : SatState) (k : Nat) :
    k ≤ (bacBackGo uip lvl tr s k).2 := by
  induction tr generalizing s k with
  | nil => exact Nat.le_refl k
  | cons dl rest ih =>
    unfold bacBackGo
    dsimp only
    split
    · exact Nat.le_refl k
    · split
      · split
        · exact Nat.le_trans (bacMarkPreds_k_mono _ _ _ _) (ih _ _)
        · exact ih s k
      · exact ih s k

theorem bacBackGo_marks_or (uip lvl : Nat) (tr : List Int) (s : SatState) (k : Nat) :
    (bacBackGo uip lvl tr s k).1.marks = s.marks ∨ k < (bacBackGo uip lvl tr s k).2 := by
  induction tr generalizing s k with
  | nil => exact Or.inl rfl
  | cons dl rest ih =>
    unfold bacBackGo
    dsimp only
    split
    · exact Or.inl rfl
    · split
      · split
        · rename_i hcid
          rcases ih (bacMarkPreds lvl _ s k).1 (bacMarkPreds lvl _ s k).2 with h1 | h1
          · rcases bacMarkPreds_marks_or lvl _ s k with h2 | h2
            · exact Or.inl (h1.trans h2)
            · exact Or.inr (Nat.lt_of_lt_of_le h2 (bacBackGo_k_mono uip lvl rest _ _))
          · exact Or.inr (Nat.lt_of_le_of_lt (bacMarkPreds_k_mono _ _ _ _) h1)
        · exact ih s k
      · exact ih s k


/-- `v` is the variable of some literal of some clause reachable through
`getClause` (the synthetic `false_clause`, an original, or a learned
clause). -/
def MentionsVar (s : SatState) (v : Nat) : Prop :=
  v ∈ s.falseClause.lits.map litVar ∨
  (∃ c ∈ s.origClauses, v ∈ c.lits.map litVar) ∨
  (∃ c ∈ s.learned, v ∈ c.lits.map litVar)

instance (s : SatState) (v : Nat) : Decidable (MentionsVar s v) := by
  unfold MentionsVar
  infer_instance

theorem mentions_of_getClause (s : SatState) (cid : Nat) (p : Int)
    (hp : p ∈ (s.getClause cid).lits) : MentionsVar s (litVar p) := by
  unfold SatState.getClause at hp
  split at hp
  · exact Or.inl (List.mem_map_of_mem litVar hp)
  · split at hp
    · rename_i h0 hle
      have hmem := getD_mem_of_lt s.origClauses junkClause (cid - 1) (by omega)
      exact Or.inr (Or.inl ⟨_, hmem, List.mem_map_of_mem litVar hp⟩)
    · rcases hf : s.learned.find? (fun c => c.id = cid) with _ | c
      · rw [hf] at hp
        cases hp
      · rw [hf] at hp
        exact Or.inr (Or.inr ⟨c, List.mem_of_find?_eq_some hf, List.mem_map_of_mem litVar hp⟩)

theorem mentionsVar_frame {s s' : SatState} (h : AnaFrame s s') (v : Nat) :
    MentionsVar s' v ↔ MentionsVar s v := by
  unfold MentionsVar
  rw [h.falseClause, h.origClauses, h.learned]

/-- Every variable marked by the predecessor fold was either already marked
or is a fold literal's variable sitting strictly below `lvl`. -/
theorem bacMarkPreds_marks (lvl : Nat) (ps : List Int) (s : SatState) (k : Nat) (v : Nat)
    (h : (bacMarkPreds lvl ps s k).1.marks.getD v false = true) :
    s.marks.getD v false = true ∨
      ((∃ p ∈ ps, litVar p = v) ∧ (s.getDecision v).level < lvl) := by
  induction ps generalizing s k with
  | nil => exact Or.inl h
  | cons p ps ih =>
    unfold bacMarkPreds at h
    dsimp only at h
    split at h
    · rename_i hg
      rcases ih _ _ h with h1 | h1
      · by_cases hv : litVar p = v
        · subst hv
          exact Or.inr ⟨⟨p, List.mem_cons_self p ps, rfl⟩, hg.1⟩
        · rw [getD_set_ne s.marks (litVar p) v true false hv] at h1
          exact Or.inl h1
      · exact Or.inr ⟨⟨h1.1.choose, List.mem_cons_of_mem p h1.1.choose_spec.1, h1.1.choose_spec.2⟩, h1.2⟩
    · rcases ih _ _ h with h1 | h1
      · exact Or.inl h1
      · exact Or.inr ⟨⟨h1.1.choose, List.mem_cons_of_mem p h1.1.choose_spec.1, h1.1.choose_spec.2⟩, h1.2⟩

/-- Every variable marked by the backward sweep was either already marked
or is mentioned by a clause and sits strictly below `lvl`. -/
theorem bacBackGo_marks (uip lvl : Nat) (tr : List Int) (s : SatState) (k : Nat) (v : Nat)
    (h : (bacBackGo uip lvl tr s k).1.marks.getD v false = true) :
    s.marks.getD v false = true ∨
      (MentionsVar s v ∧ (s.getDecision v).level < lvl) := by
  induction tr generalizing s k with
  | nil => exact Or.inl h
  | cons dl rest ih =>
    unfold bacBackGo at h
    dsimp only at h
    split at h
    · exact Or.inl h
    · split at h
      · split at h
        · rename_i cid hcid
          have hF := anaFrame_bacMarkPreds lvl ((s.getClause cid).lits) s k
          rcases ih _ _ h with h1 | h1
          · rcases bacMarkPreds_marks lvl _ s k v h1 with h2 | h2
            · exact Or.inl h2
            · obtain ⟨⟨p, hps, hpv⟩, hlt⟩ := h2
              exact Or.inr ⟨hpv ▸ mentions_of_getClause s cid p hps, hlt⟩
          · refine Or.inr ⟨?_, ?_⟩
            · exact (mentionsVar_frame hF v).mp h1.1
            · rw [← (hF.decision v).1]
              exact h1.2
        · exact ih s k h
      · exact ih s k h


/-- If every marked variable occurs in the low-level trail prefix, the
forward sweep leaves the marks array all-zero. -/
theorem bacForwardGo_clears (lvl : Nat) (tr : List Int) (s : SatState)
    (acc : List Int) (al : Nat)
    (hcov : ∀ v, s.marks.getD v false = true →
      ∃ l ∈ tr.takeWhile (fun l => decide ((s.getDecision (litVar l)).level < lvl)),
        litVar l = v) :
    ∀ v, (bacForwardGo lvl tr s acc al).1.marks.getD v false = false := by
  induction tr generalizing s acc al with
  | nil =>
    intro v
    rcases hb : s.marks.getD v false with _ | _
    · exact hb
    · obtain ⟨l, hl, _⟩ := hcov v hb
      simp at hl
  | cons l tr ih =>
    unfold bacForwardGo
    dsimp only
    split
    · rename_i hlt
      have htw : (l :: tr).takeWhile
            (fun x => decide ((s.getDecision (litVar x)).level < lvl)) =
          l :: tr.takeWhile (fun x => decide ((s.getDecision (litVar x)).level < lvl)) :=
        List.takeWhile_cons_of_pos (by exact decide_eq_true hlt)
      split
      · rename_i hmk
        apply ih
        intro w hw
        by_cases hwv : w = litVar l
        · subst hwv
          rw [getD_set_self s.marks (litVar l) false false (getD_true_lt s.marks (litVar l) hmk)] at hw
          cases hw
        · rw [getD_set_ne s.marks (litVar l) w false false (fun he => hwv he.symm)] at hw
          obtain ⟨x, hx, hxv⟩ := hcov w hw
          rw [htw] at hx
          rcases List.mem_cons.mp hx with hx | hx
          · subst hx
            exact absurd hxv (fun he => hwv he.symm)
          · exact ⟨x, hx, hxv⟩
      · rename_i hmk
        apply ih
        intro w hw
        obtain ⟨x, hx, hxv⟩ := hcov w hw
        rw [htw] at hx
        rcases List.mem_cons.mp hx with hx | hx
        · subst hx
          rw [hxv] at hmk
          exact absurd hw hmk
        · exact ⟨x, hx, hxv⟩
    · rename_i hge
      have htw : (l :: tr).takeWhile
            (fun x => decide ((s.getDecision (litVar x)).level < lvl)) =
          ([] : List Int) :=
        List.takeWhile_cons_of_neg (by simpa using hge)
      intro v
      rcases hb : s.marks.getD v false with _ | _
      · rfl
      · obtain ⟨x, hx, _⟩ := hcov v hb
        rw [htw] at hx
        simp at hx


theorem marksLen_bacMarkPreds (lvl : Nat) (ps : List Int) (s : SatState) (k : Nat) :
    (bacMarkPreds lvl ps s k).1.marks.length = s.marks.length := by
  induction ps generalizing s k with
  | nil => rfl
  | cons p ps ih =>
    unfold bacMarkPreds
    dsimp only
    split
    · rw [ih]
      exact List.length_set s.marks (litVar p) true
    · exact ih s k

theorem marksLen_bacBackGo (uip lvl : Nat) (tr : List Int) (s : SatState) (k : Nat) :
    (bacBackGo uip lvl tr s k).1.marks.length = s.marks.length := by
  induction tr generalizing s k with
  | nil => rfl
  | cons dl rest ih =>
    unfold bacBackGo
    dsimp only
    split
    · rfl
    · split
      · split
        · rw [ih]
          exact marksLen_bacMarkPreds _ _ _ _
        · exact ih s k
      · exact ih s k

theorem marksLen_bacForwardGo (lvl : Nat) (tr : List Int) (s : SatState)
    (acc : List Int) (al : Nat) :
    (bacForwardGo lvl tr s acc al).1.marks.length = s.marks.length := by
  induction tr generalizing s acc al with
  | nil => rfl
  | cons l rest ih =>
    unfold bacForwardGo
    dsimp only
    split
    · split
      · rw [ih]
        exact List.length_set s.marks (litVar l) false
      · exact ih s acc al
    · rfl

theorem list_eq_of_getD (a b : List Bool) (hlen : a.length = b.length)
    (h : ∀ v, a.getD v false = b.getD v false) : a = b := by
  apply List.ext_getElem hlen
  intro i h1 h2
  have hi := h i
  rwa [List.getD_eq_getElem a false h1, List.getD_eq_getElem b false h2] at hi

theorem getD_false_of_bounded (l : List Bool)
    (h : ∀ v < l.length, l.getD v false = false) (v : Nat) : l.getD v false = false := by
  rcases Nat.lt_or_ge v l.length with hv | hv
  · exact h v hv
  · exact List.getD_eq_default _ _ hv

theorem marks_popTrailGo (lvl : Nat) (tr : List Int) (s : SatState) :
    (popTrailGo lvl tr s).2.marks = s.marks := by
  induction tr generalizing s with
  | nil => rfl
  | cons l rest ih =>
    unfold popTrailGo
    split
    · rw [ih]
      simp [unset_Var_Decision]
    · rfl

theorem marks_popLogGo (log : List (Option Nat)) (s : SatState) :
    (popLogGo log s).2.marks = s.marks := by
  induction log generalizing s with
  | nil => rfl
  | cons e rest ih =>
    match e with
    | none => rfl
    | some cid =>
      rw [show (popLogGo (some cid :: rest) s).2 =
        (popLogGo rest (s.modifyClause cid fun c => { c with isSubsumed := false })).2 from rfl, ih]
      simp

theorem marks_undoUR (s : SatState) : (sat_undo_unit_resolution s).marks = s.marks := by
  unfold sat_undo_unit_resolution
  dsimp only
  rw [marks_popLogGo]
  exact marks_popTrailGo s.level s.trail.reverse s

theorem marks_undo_decide (s : SatState) :
    (sat_undo_decide_literal s).marks = s.marks :=
  marks_undoUR s


/-- **C9**: the marks array is analyzer-private scratch.  When it is
all-zero on entry and every clause-mentioned variable below the current
level occurs in the low-level trail prefix, `sat_build_asserting_clause`
returns it exactly as received; `sat_state_new` allocates it all-zero; and
no other core operation (assignment, propagation, unit resolution, either
undo) writes it. -/
theorem C9_marks_scratch (s : SatState)
    (Hm : ∀ v < s.marks.length, s.marks.getD v false = false)
    (Hcov : ∀ v < s.marks.length, MentionsVar s v → (s.getDecision v).level < s.level →
      ∃ l ∈ s.trail.takeWhile (fun l => decide ((s.getDecision (litVar l)).level < s.level)),
        litVar l = v) :
    (sat_build_asserting_clause s).2.marks = s.marks ∧
    (∀ n cnf s₀, sat_state_new n cnf = some s₀ → s₀.marks = List.replicate (n + 1) false) ∧
    (∀ l i s', (set_Lit_Decision l i s').2.marks = s'.marks) ∧
    (∀ l s', (propagate_lit_decision l s').2.marks = s'.marks) ∧
    (∀ s', (sat_unit_resolution s').2.marks = s'.marks) ∧
    (∀ s', (sat_undo_unit_resolution s').marks = s'.marks) ∧
    (∀ s', (sat_undo_decide_literal s').marks = s'.marks) := by
  refine ⟨?_, ?_, fun l i s' => (stepFrame_setLit l i s').marks,
    fun l s' => (stepFrame_propagate l s').marks,
    fun s' => (stepFrame_unit_resolution s').marks, marks_undoUR, marks_undo_decide⟩
  · unfold sat_build_asserting_clause
    dsimp only
    rcases hu : (sat_compute_UIP s).2 with _ | uip <;> dsimp only
    · exact marks_computeUIP s
    · have hA1 : AnaFrame s (sat_compute_UIP s).1 := anaFrame_computeUIP s
      split
      · rename_i hk
        refine list_eq_of_getD _ _ ?_ ?_
        · rw [marksLen_bacForwardGo, marksLen_bacBackGo]
          exact congrArg List.length (marks_computeUIP s)
        · intro v
          rw [getD_false_of_bounded s.marks Hm v]
          apply bacForwardGo_clears
          intro w hw
          rcases bacBackGo_marks uip (sat_compute_UIP s).1.level
              (sat_compute_UIP s).1.trail.reverse (sat_compute_UIP s).1 1 w hw with h1 | h1
          · rw [marks_computeUIP s] at h1
            rw [getD_false_of_bounded s.marks Hm w] at h1
            cases h1
          · have hA : AnaFrame s (bacBackGo uip (sat_compute_UIP s).1.level
                (sat_compute_UIP s).1.trail.reverse (sat_compute_UIP s).1 1).1 :=
              hA1.anaTrans (anaFrame_bacBackGo _ _ _ _ _)
            have hwlen : w < s.marks.length := by
              have hlt := getD_true_lt _ _ hw
              rwa [marksLen_bacBackGo, congrArg List.length (marks_computeUIP s)] at hlt
            have hv1 : MentionsVar s w := (mentionsVar_frame hA1 w).mp h1.1
            have hv2 : (s.getDecision w).level < s.level := by
              have h2 := h1.2
              rwa [(hA1.decision w).1, hA1.level] at h2
            obtain ⟨x, hx, hxv⟩ := Hcov w hwlen hv1 hv2
            refine ⟨x, ?_, hxv⟩
            have hpred : (fun l => decide (((bacBackGo uip (sat_compute_UIP s).1.level
                  (sat_compute_UIP s).1.trail.reverse (sat_compute_UIP s).1 1).1.getDecision
                    (litVar l)).level <
                  (bacBackGo uip (sat_compute_UIP s).1.level
                    (sat_compute_UIP s).1.trail.reverse (sat_compute_UIP s).1 1).1.level)) =
                (fun l => decide ((s.getDecision (litVar l)).level < s.level)) :=
              funext fun l => by rw [(hA.decision (litVar l)).1, hA.level]
            rw [hA.trail, hpred]
            exact hx
      · rename_i hk
        rcases bacBackGo_marks_or uip (sat_compute_UIP s).1.level
            (sat_compute_UIP s).1.trail.reverse (sat_compute_UIP s).1 1 with h1 | h1
        · rw [h1]
          exact marks_computeUIP s
        · exact absurd h1 hk
  · intro n cnf s₀ h
    unfold sat_state_new at h
    dsimp only at h
    rcases hr : read_sat_cnf n cnf
        { level := 1, vars := [], contradiction := Decision.init,
          falseClause := ⟨0, 0, [], none, none, false⟩,
          origClauses := [], learned := [], trail := [], queue := [],
          subsumedLog := [], marks := [] } with _ | s₁ <;> rw [hr] at h <;> dsimp only at h
    · cases h
    · injection h with h
      subst h
      rfl


/-- A two-level flow for the C9 witness: root unit `1`, then the decision
`2` propagates `-3` and falsifies the clause `{-1,-2,3}`; the conflict
state reconstructs `sat_decide_literal 2`\'s internals. -/
def w9Base : SatState := (sat_state_new 3 [[1], [-1, -2, 3], [-3, -2]]).getD default

def w9R : SatState := (sat_unit_resolution w9Base).2

def w9Pre : SatState :=
  { w9R with level := w9R.level + 1, subsumedLog := none :: w9R.subsumedLog }

def w9Set : Bool × SatState := set_Lit_Decision 2 none w9Pre

def w9Conflict : SatState :=
  (sat_unit_resolution { w9Set.2 with queue := w9Set.2.queue ++ [2] }).2

/-- Concrete instance of C9 on a conflict whose analysis really marks and
unmarks a lower-level variable (variable 1 at level 1 under level 2). -/
theorem C9_marks_scratch_witness :
    (∀ v < w9Conflict.marks.length, w9Conflict.marks.getD v false = false) ∧
    (∀ v < w9Conflict.marks.length, MentionsVar w9Conflict v →
      (w9Conflict.getDecision v).level < w9Conflict.level →
      ∃ l ∈ w9Conflict.trail.takeWhile
        (fun l => decide ((w9Conflict.getDecision (litVar l)).level < w9Conflict.level)),
        litVar l = v) ∧
    (sat_build_asserting_clause w9Conflict).2.marks = w9Conflict.marks :=
  ⟨by decide, by decide, (C9_marks_scratch w9Conflict (by decide) (by decide)).1⟩


/-! ## C4 — the decide/undo round trip -/

/-- A literal names a real, addressable variable. -/
def LitOK (s : SatState) (p : Int) : Prop :=
  litVar p ≠ 0 ∧ litVar p - 1 < s.vars.length

/-- A clause whose literals are addressable and whose watches point into
its own literal list. -/
def ClauseOK (s : SatState) (c : Clause) : Prop :=
  (∀ p ∈ c.lits, LitOK s p) ∧
  (∀ w, c.watchA = some w → w ∈ c.lits) ∧
  (∀ w, c.watchB = some w → w ∈ c.lits)

/-- The well-formedness a state reached through the public interface
enjoys when the driver is about to decide: empty propagation queue, clear
contradiction variable, a trail of instantiated variables at or below the
current level, addressable clauses with in-clause watches, learned clauses
with distinct ids above the original range, and the `false_clause`
sentinel. -/
def DecideWF (s : SatState) : Prop :=
  s.queue = [] ∧
  (s.getDecision 0).level = 0 ∧
  (∀ x ∈ s.trail, 0 < (s.getDecision (litVar x)).level ∧
    (s.getDecision (litVar x)).level ≤ s.level) ∧
  (∀ c ∈ s.origClauses, ClauseOK s c) ∧
  (∀ c ∈ s.learned, ClauseOK s c) ∧
  (s.learned.map fun c => c.id).Nodup ∧
  (∀ c ∈ s.learned, s.origClauses.length < c.id) ∧
  s.falseClause.lits = [] ∧ s.falseClause.watchA = none ∧ s.falseClause.watchB = none

/-- The semantic content of a clause named by the round-trip claim:
identity, assertion level, literals and the subsumption flag (watches and
intrusive nodes excluded). -/
def Clause.sem (c : Clause) : Nat × Nat × List Int × Bool :=
  (c.id, c.assertionLevel, c.lits, c.isSubsumed)

/-- Equality on the semantic fields of the round-trip claim: level, trail,
subsumption log, queue, variable count, instantiation status of every
variable, the full decision record of every instantiated variable, and the
semantic content of every clause. -/
def SemEq (s u : SatState) : Prop :=
  u.level = s.level ∧
  u.trail = s.trail ∧
  u.subsumedLog = s.subsumedLog ∧
  u.queue = s.queue ∧
  u.vars.length = s.vars.length ∧
  (∀ v, sat_instantiated_var u v = sat_instantiated_var s v) ∧
  (∀ v, sat_instantiated_var s v = true → u.getDecision v = s.getDecision v) ∧
  u.origClauses.map Clause.sem = s.origClauses.map Clause.sem ∧
  u.learned.map Clause.sem = s.learned.map Clause.sem

/-- The invariant maintained from the moment `sat_decide_literal l` has
assigned `l` until its unit resolution finishes: `dta` is the new trail
suffix, `sig` the subsumption-log suffix, `live` records that no conflict
was recorded yet. -/
structure DecInv (s : SatState) (l : Int) (dta : List Int) (sig : List Nat)
    (live : Bool) (t : SatState) : Prop where
  level : t.level = s.level + 1
  varsLen : t.vars.length = s.vars.length
  falseClause : t.falseClause = s.falseClause
  origCore : t.origClauses.map Clause.core = s.origClauses.map Clause.core
  learnedCore : t.learned.map Clause.core = s.learned.map Clause.core
  trail : t.trail = s.trail ++ dta
  log : t.subsumedLog = sig.map some ++ none :: s.subsumedLog
  untouched : ∀ v, v ∉ dta.map litVar → t.getDecision v = s.getDecision v
  dlevel : ∀ x ∈ dta, (t.getDecision (litVar x)).level = s.level + 1
  dfresh : ∀ x ∈ dta, (s.getDecision (litVar x)).level = 0
  dbound : ∀ x ∈ dta, litVar x = 0 ∨ litVar x - 1 < s.vars.length
  dnodup : (dta.map litVar).Nodup
  dhead : dta.head? = some l
  dimpl : (t.getDecision (litVar l)).impliedBy = none
  dimpr : ∀ x ∈ dta, litVar x ≠ litVar l → (t.getDecision (litVar x)).impliedBy ≠ none
  oflag : ∀ i < s.origClauses.length,
    ((i + 1) ∈ sig → (s.origClauses.getD i junkClause).isSubsumed = false) ∧
    ((i + 1) ∉ sig → (t.origClauses.getD i junkClause).isSubsumed =
      (s.origClauses.getD i junkClause).isSubsumed)
  lflag : ∀ j < s.learned.length,
    ((s.learned.getD j junkClause).id ∈ sig →
      (s.learned.getD j junkClause).isSubsumed = false) ∧
    ((s.learned.getD j junkClause).id ∉ sig →
      (t.learned.getD j junkClause).isSubsumed = (s.learned.getD j junkClause).isSubsumed)
  watchesO : ∀ c ∈ t.origClauses,
    (∀ w, c.watchA = some w → w ∈ c.lits) ∧ (∀ w, c.watchB = some w → w ∈ c.lits)
  watchesL : ∀ c ∈ t.learned,
    (∀ w, c.watchA = some w → w ∈ c.lits) ∧ (∀ w, c.watchB = some w → w ∈ c.lits)
  zero : live = true → (t.getDecision 0).level ≠ s.level + 1

theorem DecInv.weaken {s : SatState} {l : Int} {dta : List Int} {sig : List Nat}
    {live : Bool} {t : SatState} (h : DecInv s l dta sig live t) :
    DecInv s l dta sig false t :=
  ⟨h.level, h.varsLen, h.falseClause, h.origCore, h.learnedCore, h.trail, h.log,
   h.untouched, h.dlevel, h.dfresh, h.dbound, h.dnodup, h.dhead, h.dimpl, h.dimpr,
   h.oflag, h.lflag, h.watchesO, h.watchesL, fun hf => absurd hf (by simp)⟩

theorem DecInv.queueSet {s : SatState} {l : Int} {dta : List Int} {sig : List Nat}
    {live : Bool} {t : SatState} (h : DecInv s l dta sig live t) (q : List Int) :
    DecInv s l dta sig live { t with queue := q } :=
  ⟨h.level, h.varsLen, h.falseClause, h.origCore, h.learnedCore, h.trail, h.log,
   h.untouched, h.dlevel, h.dfresh, h.dbound, h.dnodup, h.dhead, h.dimpl, h.dimpr,
   h.oflag, h.lflag, h.watchesO, h.watchesL, h.zero⟩

theorem core_pointwise {a b : List Clause} (h : a.map Clause.core = b.map Clause.core)
    (i : Nat) (hi : i < a.length) :
    (a.getD i junkClause).id = (b.getD i junkClause).id ∧
    (a.getD i junkClause).assertionLevel = (b.getD i junkClause).assertionLevel ∧
    (a.getD i junkClause).lits = (b.getD i junkClause).lits := by
  have hlen : a.length = b.length := by
    have hc := congrArg List.length h
    simpa using hc
  have hib : i < b.length := hlen ▸ hi
  have hcore : Clause.core (a.getD i junkClause) = Clause.core (b.getD i junkClause) := by
    rw [List.getD_eq_getElem a _ hi, List.getD_eq_getElem b _ hib]
    have h1 : (a.map Clause.core)[i]? = (b.map Clause.core)[i]? := by rw [h]
    rw [List.getElem?_map, List.getElem?_map, List.getElem?_eq_getElem hi,
      List.getElem?_eq_getElem hib] at h1
    simpa using h1
  exact ⟨congrArg (fun p => p.1) hcore, congrArg (fun p => p.2.1) hcore,
    congrArg (fun p => p.2.2) hcore⟩

theorem core_len {a b : List Clause} (h : a.map Clause.core = b.map Clause.core) :
    a.length = b.length := by
  have hc := congrArg List.length h
  simpa using hc


theorem getD_map_pos {α : Type} (L : List α) (g : α → α) (j : Nat) (d : α)
    (hj : j < L.length) : (L.map g).getD j d = g (L.getD j d) := by
  rw [List.getD_eq_getElem (L.map g) d (by simpa using hj), List.getD_eq_getElem L d hj]
  simp

theorem getDecision_subsume (cid : Nat) (t : SatState) (v : Nat) :
    (sat_subsume_clause cid t).getDecision v = t.getDecision v := by
  unfold sat_subsume_clause
  split
  · rfl
  · exact SatState.getDecision_modifyClause t cid _ v

theorem find?_id_unique (L : List Clause) (cid : Nat) (j : Nat) (hj : j < L.length)
    (hid : (L.getD j junkClause).id = cid)
    (hnd : (L.map fun c => c.id).Nodup) :
    L.find? (fun c => c.id = cid) = some (L.getD j junkClause) := by
  rcases hf : L.find? (fun c => c.id = cid) with _ | c
  · exfalso
    have hmem := getD_mem_of_lt L junkClause j hj
    have hno := List.find?_eq_none.mp hf _ hmem
    rw [hid] at hno
    simp at hno
  · have hcid : c.id = cid := by
      have hp := List.find?_some hf
      simpa using hp
    obtain ⟨j2, hj2, hget⟩ := List.mem_iff_getElem.mp (List.mem_of_find?_eq_some hf)
    have hj2m : j2 < (L.map fun c => c.id).length := by simpa using hj2
    have hjm : j < (L.map fun c => c.id).length := by simpa using hj
    have hmap : (L.map fun c => c.id).get ⟨j2, hj2m⟩ =
        (L.map fun c => c.id).get ⟨j, hjm⟩ := by
      rw [List.getD_eq_getElem L _ hj] at hid
      simp [hget, hcid, hid]
    have hjj : j2 = j :=
      congrArg Fin.val ((List.Nodup.get_inj_iff hnd).mp hmap)
    subst hjj
    rw [List.getD_eq_getElem L _ hj, hget]
    exact hf

theorem DecInv.clauseOK {s : SatState} {l : Int} {dta : List Int} {sig : List Nat}
    {live : Bool} {t : SatState} (h : DecInv s l dta sig live t) (hwf : DecideWF s)
    (cid : Nat) :
    (∀ p ∈ (t.getClause cid).lits, LitOK s p) ∧
    (∀ w, (t.getClause cid).watchA = some w → w ∈ (t.getClause cid).lits) ∧
    (∀ w, (t.getClause cid).watchB = some w → w ∈ (t.getClause cid).lits) := by
  obtain ⟨-, -, -, hcO, hcL, -, -, hfl, hfa, hfb⟩ := hwf
  unfold SatState.getClause
  split
  · rw [h.falseClause]
    refine ⟨?_, ?_, ?_⟩
    · intro p hp
      rw [hfl] at hp
      cases hp
    · intro w hw
      rw [hfa] at hw
      cases hw
    · intro w hw
      rw [hfb] at hw
      cases hw
  · split
    · rename_i h0 hle
      have hi : cid - 1 < t.origClauses.length := by omega
      have hmem := getD_mem_of_lt t.origClauses junkClause (cid - 1) hi
      have hw := h.watchesO _ hmem
      refine ⟨?_, hw.1, hw.2⟩
      have hlits := (core_pointwise h.origCore (cid - 1) hi).2.2
      intro p hp
      rw [hlits] at hp
      have hsm : cid - 1 < s.origClauses.length := by
        rw [← core_len h.origCore]
        exact hi
      exact (hcO _ (getD_mem_of_lt s.origClauses junkClause (cid - 1) hsm)).1 p hp
    · rcases hf : t.learned.find? (fun c => c.id = cid) with _ | c <;> rw [hf]
      · refine ⟨?_, ?_, ?_⟩
        · intro p hp
          simp [junkClause] at hp
        · intro w hw
          simp [junkClause] at hw
        · intro w hw
          simp [junkClause] at hw
      · have hmem := List.mem_of_find?_eq_some hf
        have hw := h.watchesL _ hmem
        obtain ⟨j, hj, hget⟩ := List.mem_iff_getElem.mp hmem
        refine ⟨?_, ?_, ?_⟩
        · intro p hp
          have hlits := (core_pointwise h.learnedCore j hj).2.2
          rw [List.getD_eq_getElem t.learned _ hj, hget] at hlits
          dsimp only [Option.getD] at hp
          rw [hlits] at hp
          have hsj : j < s.learned.length := by
            rw [← core_len h.learnedCore]
            exact hj
          exact (hcL _ (getD_mem_of_lt s.learned junkClause j hsj)).1 p hp
        · intro w hw0
          exact hw.1 w hw0
        · intro w hw0
          exact hw.2 w hw0


theorem origFlag_modify (t : SatState) (cid : Nat) (f : Clause → Clause) (i : Nat)
    (hne : i + 1 ≠ cid) :
    (t.modifyClause cid f).origClauses.getD i junkClause =
      t.origClauses.getD i junkClause := by
  unfold SatState.modifyClause
  split
  · rfl
  · split
    · dsimp only
      exact getD_set_ne _ _ _ _ _ (by omega)
    · rfl

theorem learned_modify_ne (t : SatState) (cid : Nat) (f : Clause → Clause) (j : Nat)
    (hj : j < t.learned.length)
    (hne : (t.learned.getD j junkClause).id ≠ cid) :
    (t.modifyClause cid f).learned.getD j junkClause = t.learned.getD j junkClause := by
  unfold SatState.modifyClause
  by_cases h0 : cid = 0
  · rw [if_pos h0]
  · rw [if_neg h0]
    by_cases hle : cid ≤ t.origClauses.length
    · rw [if_pos hle]
    · rw [if_neg hle]
      rw [getD_map_pos _ _ j _ hj]
      rw [if_neg hne]

theorem learned_modify_le (t : SatState) (cid : Nat) (f : Clause → Clause)
    (h : cid ≤ t.origClauses.length) : (t.modifyClause cid f).learned = t.learned := by
  unfold SatState.modifyClause
  by_cases h0 : cid = 0
  · rw [if_pos h0]
  · rw [if_neg h0, if_pos h]

theorem ids_of_core {a b : List Clause} (h : a.map Clause.core = b.map Clause.core) :
    (a.map fun c => c.id) = b.map fun c => c.id := by
  have ha : (a.map fun c => c.id) = (a.map Clause.core).map (fun p => p.1) := by
    rw [List.map_map]
    rfl
  have hb : (b.map fun c => c.id) = (b.map Clause.core).map (fun p => p.1) := by
    rw [List.map_map]
    rfl
  rw [ha, hb, h]

theorem watchesO_modify (t : SatState) (cid : Nat) (f : Clause → Clause)
    (hf : ∀ c, (f c).lits = c.lits ∧ (f c).watchA = c.watchA ∧ (f c).watchB = c.watchB)
    (hO : ∀ c ∈ t.origClauses, (∀ w, c.watchA = some w → w ∈ c.lits) ∧
      (∀ w, c.watchB = some w → w ∈ c.lits)) :
    ∀ c ∈ (t.modifyClause cid f).origClauses,
      (∀ w, c.watchA = some w → w ∈ c.lits) ∧ (∀ w, c.watchB = some w → w ∈ c.lits) := by
  unfold SatState.modifyClause
  split
  · exact hO
  · split
    · rename_i h0 hle
      dsimp only
      intro c hc
      rcases List.mem_or_eq_of_mem_set hc with hc | hc
      · exact hO c hc
      · subst hc
        obtain ⟨h1, h2, h3⟩ := hf (t.origClauses.getD (cid - 1) junkClause)
        have hold := hO _ (getD_mem_of_lt t.origClauses junkClause (cid - 1) (by omega))
        refine ⟨?_, ?_⟩ <;> intro w hw
        · rw [h1]
          exact hold.1 w (h2 ▸ hw)
        · rw [h1]
          exact hold.2 w (h3 ▸ hw)
    · exact hO

theorem watchesL_modify (t : SatState) (cid : Nat) (f : Clause → Clause)
    (hf : ∀ c, (f c).lits = c.lits ∧ (f c).watchA = c.watchA ∧ (f c).watchB = c.watchB)
    (hL : ∀ c ∈ t.learned, (∀ w, c.watchA = some w → w ∈ c.lits) ∧
      (∀ w, c.watchB = some w → w ∈ c.lits)) :
    ∀ c ∈ (t.modifyClause cid f).learned,
      (∀ w, c.watchA = some w → w ∈ c.lits) ∧ (∀ w, c.watchB = some w → w ∈ c.lits) := by
  unfold SatState.modifyClause
  split
  · exact hL
  · split
    · exact hL
    · dsimp only
      intro c hc
      obtain ⟨c₀, hc₀, hcc⟩ := List.mem_map.mp hc
      by_cases hid : c₀.id = cid
      · rw [if_pos hid] at hcc
        subst hcc
        obtain ⟨h1, h2, h3⟩ := hf c₀
        have hold := hL c₀ hc₀
        refine ⟨?_, ?_⟩ <;> intro w hw
        · rw [h1]
          exact hold.1 w (h2 ▸ hw)
        · rw [h1]
          exact hold.2 w (h3 ▸ hw)
      · rw [if_neg hid] at hcc
        subst hcc
        exact hL c₀ hc₀


theorem bool_eq_false {b : Bool} (h : ¬ b = true) : b = false := by
  cases b
  · rfl
  · exact absurd rfl h

theorem decInv_subsume {s : SatState} {l : Int} {dta : List Int} {sig : List Nat}
    {live : Bool} {t : SatState} (hwf : DecideWF s) (h : DecInv s l dta sig live t)
    (cid : Nat) :
    ∃ sig2 : List Nat, DecInv s l dta sig2 live (sat_subsume_clause cid t) := by
  by_cases hflag : (t.getClause cid).isSubsumed = true
  · refine ⟨sig, ?_⟩
    have he : sat_subsume_clause cid t = t := by
      unfold sat_subsume_clause
      rw [if_pos hflag]
    rw [he]
    exact h
  · refine ⟨cid :: sig, ?_⟩
    have he : sat_subsume_clause cid t =
        { t.modifyClause cid (fun c => { c with isSubsumed := true }) with
          subsumedLog := some cid ::
            (t.modifyClause cid fun c => { c with isSubsumed := true }).subsumedLog } := by
      unfold sat_subsume_clause
      rw [if_neg hflag]
    rw [he]
    have hsf := stepFrame_modifyClause t cid (fun c => { c with isSubsumed := true })
      (fun c => by rfl)
    have ghd : ∀ v, (t.modifyClause cid (fun c => { c with isSubsumed := true })).getDecision v
        = t.getDecision v :=
      fun v => SatState.getDecision_modifyClause t cid _ v
    have hlen : t.origClauses.length = s.origClauses.length := core_len h.origCore
    have hlenL : t.learned.length = s.learned.length := core_len h.learnedCore
    refine ⟨hsf.level.trans h.level, hsf.varsLen.trans h.varsLen,
      hsf.falseClause.trans h.falseClause, hsf.origCore.trans h.origCore,
      hsf.learnedCore.trans h.learnedCore,
      (SatState.trail_modifyClause t cid _).trans h.trail, ?_,
      fun v hv => (ghd v).trans (h.untouched v hv),
      fun x hx => (congrArg Decision.level (ghd (litVar x))).trans (h.dlevel x hx),
      h.dfresh, h.dbound, h.dnodup, h.dhead,
      (congrArg Decision.impliedBy (ghd (litVar l))).trans h.dimpl,
      fun x hx hne hcon => h.dimpr x hx hne
        ((congrArg Decision.impliedBy (ghd (litVar x))).symm.trans hcon),
      ?_, ?_,
      watchesO_modify t cid _ (fun c => ⟨rfl, rfl, rfl⟩) h.watchesO,
      watchesL_modify t cid _ (fun c => ⟨rfl, rfl, rfl⟩) h.watchesL,
      fun hlive hcon => h.zero hlive
        ((congrArg Decision.level (ghd 0)).symm.trans hcon)⟩
    · show some cid :: (t.modifyClause cid fun c => { c with isSubsumed := true }).subsumedLog
        = (cid :: sig).map some ++ none :: s.subsumedLog
      rw [SatState.subsumedLog_modifyClause, h.log]
      rfl
    · intro i hi
      constructor
      · intro hmem
        rcases List.mem_cons.mp hmem with hic | hic
        · have hcid_le : cid ≤ t.origClauses.length := by omega
          have hcid0 : ¬ cid = 0 := by omega
          have hgc : t.getClause cid = t.origClauses.getD i junkClause := by
            unfold SatState.getClause
            rw [if_neg hcid0, if_pos hcid_le]
            congr 1
            omega
          have htf : (t.origClauses.getD i junkClause).isSubsumed = false := by
            rw [← hgc]
            exact bool_eq_false hflag
          by_cases hsig : (i + 1) ∈ sig
          · exact (h.oflag i hi).1 hsig
          · rw [← (h.oflag i hi).2 hsig]
            exact htf
        · exact (h.oflag i hi).1 hic
      · intro hnm
        have hne : i + 1 ≠ cid := fun heq => hnm (heq ▸ List.mem_cons_self cid sig)
        have hnsig : (i + 1) ∉ sig := fun hs => hnm (List.mem_cons_of_mem cid hs)
        exact (congrArg (fun c => c.isSubsumed) (origFlag_modify t cid _ i hne)).trans
          ((h.oflag i hi).2 hnsig)
    · intro j hj
      have hjt : j < t.learned.length := by omega
      have hid := (core_pointwise h.learnedCore j hjt).1
      constructor
      · intro hmem
        rcases List.mem_cons.mp hmem with hic | hic
        · have hgt : s.origClauses.length < cid := by
            rw [← hic]
            exact hwf.2.2.2.2.2.2.1 _ (getD_mem_of_lt s.learned junkClause j hj)
          have hgtt : ¬ cid ≤ t.origClauses.length := by omega
          have hcid0 : ¬ cid = 0 := by omega
          have hfind := find?_id_unique t.learned cid j hjt (by rw [hid]; exact hic)
            (by rw [ids_of_core h.learnedCore]; exact hwf.2.2.2.2.2.1)
          have hgc : t.getClause cid = t.learned.getD j junkClause := by
            unfold SatState.getClause
            rw [if_neg hcid0, if_neg hgtt, hfind]
            rfl
          have htf : (t.learned.getD j junkClause).isSubsumed = false := by
            rw [← hgc]
            exact bool_eq_false hflag
          by_cases hsig : (s.learned.getD j junkClause).id ∈ sig
          · exact (h.lflag j hj).1 hsig
          · rw [← (h.lflag j hj).2 hsig]
            exact htf
        · exact (h.lflag j hj).1 hic
      · intro hnm
        have hne : (s.learned.getD j junkClause).id ≠ cid :=
          fun heq => hnm (heq ▸ List.mem_cons_self cid sig)
        have hnsig : (s.learned.getD j junkClause).id ∉ sig :=
          fun hs => hnm (List.mem_cons_of_mem cid hs)
        exact (congrArg (fun c => c.isSubsumed)
          (learned_modify_ne t cid _ j hjt (by rw [hid]; exact hne))).trans
          ((h.lflag j hj).2 hnsig)


theorem decInv_assign {s : SatState} {l : Int} {dta : List Int} {sig : List Nat}
    {t : SatState} (h : DecInv s l dta sig true t)
    (x : Int) (d : Decision)
    (hb : litVar x = 0 ∨ litVar x - 1 < t.vars.length)
    (hsz : (s.getDecision (litVar x)).level = 0)
    (hnin : litVar x ∉ dta.map litVar)
    (hdl : d.level = s.level + 1)
    (hdi : d.impliedBy ≠ none)
    (live2 : Bool)
    (hz : live2 = true → litVar x ≠ 0) :
    DecInv s l (dta ++ [x]) sig live2
      { t.setDecision (litVar x) d with
        trail := (t.setDecision (litVar x) d).trail ++ [x] } := by
  have hlmem : litVar l ∈ dta.map litVar := by
    rcases hdta : dta with _ | ⟨a, dl⟩
    · rw [hdta] at h
      cases h.dhead
    · have hha := h.dhead
      rw [hdta] at hha
      have : a = l := by
        simpa using hha
      subst this
      exact List.mem_map_of_mem litVar (List.mem_cons_self a dl)
  have hxl : litVar x ≠ litVar l := fun heq => hnin (heq ▸ hlmem)
  have ghd : ∀ v, v ≠ litVar x →
      (t.setDecision (litVar x) d).getDecision v = t.getDecision v :=
    fun v hv => SatState.getDecision_setDecision_ne t (litVar x) v d hv
  have gself : (t.setDecision (litVar x) d).getDecision (litVar x) = d :=
    SatState.getDecision_setDecision_self t (litVar x) d hb
  refine ⟨(SatState.level_setDecision t _ d).trans h.level,
    (SatState.vars_length_setDecision t _ d).trans h.varsLen,
    (SatState.falseClause_setDecision t _ d).trans h.falseClause,
    (congrArg (List.map Clause.core) (SatState.origClauses_setDecision t _ d)).trans h.origCore,
    (congrArg (List.map Clause.core) (SatState.learned_setDecision t _ d)).trans h.learnedCore,
    ?_, (SatState.subsumedLog_setDecision t _ d).trans h.log, ?_, ?_, ?_, ?_, ?_, ?_, ?_, ?_,
    ?_, ?_, ?_, ?_, ?_⟩
  · show (t.setDecision (litVar x) d).trail ++ [x] = s.trail ++ (dta ++ [x])
    rw [SatState.trail_setDecision, h.trail, List.append_assoc]
  · intro v hv
    rw [List.map_append] at hv
    have hv1 : v ∉ dta.map litVar := fun hm => hv (List.mem_append.mpr (Or.inl hm))
    have hv2 : v ≠ litVar x := fun heq => hv (List.mem_append.mpr (Or.inr (by simp [heq])))
    exact (ghd v hv2).trans (h.untouched v hv1)
  · intro y hy
    rcases List.mem_append.mp hy with hy | hy
    · have hne : litVar y ≠ litVar x := fun heq =>
        hnin (heq ▸ List.mem_map_of_mem litVar hy)
      exact (congrArg Decision.level (ghd _ hne)).trans (h.dlevel y hy)
    · rw [List.mem_singleton] at hy
      subst hy
      exact (congrArg Decision.level gself).trans hdl
  · intro y hy
    rcases List.mem_append.mp hy with hy | hy
    · exact h.dfresh y hy
    · rw [List.mem_singleton] at hy
      subst hy
      exact hsz
  · intro y hy
    rcases List.mem_append.mp hy with hy | hy
    · exact h.dbound y hy
    · rw [List.mem_singleton] at hy
      subst hy
      rcases hb with hb | hb
      · exact Or.inl hb
      · exact Or.inr (h.varsLen ▸ hb)
  · rw [List.map_append]
    refine List.Nodup.append h.dnodup (by simp) ?_
    intro a ha hb2
    simp at hb2
    subst hb2
    exact hnin ha
  · rcases hdta : dta with _ | ⟨a, dl⟩
    · rw [hdta] at h
      cases h.dhead
    · have hha := h.dhead
      rw [hdta] at hha
      simpa using hha
  · exact (congrArg Decision.impliedBy (ghd _ (fun heq => hxl heq.symm))).trans h.dimpl
  · intro y hy hyl
    rcases List.mem_append.mp hy with hy | hy
    · have hne : litVar y ≠ litVar x := fun heq =>
        hnin (heq ▸ List.mem_map_of_mem litVar hy)
      intro hcon
      exact h.dimpr y hy hyl ((congrArg Decision.impliedBy (ghd _ hne)).symm.trans hcon)
    · rw [List.mem_singleton] at hy
      subst hy
      intro hcon
      exact hdi ((congrArg Decision.impliedBy gself).symm.trans hcon)
  · intro i hi
    refine ⟨(h.oflag i hi).1, fun hnm => ?_⟩
    exact (congrArg (fun L => (L.getD i junkClause).isSubsumed)
      (SatState.origClauses_setDecision t _ d)).trans ((h.oflag i hi).2 hnm)
  · intro j hj
    refine ⟨(h.lflag j hj).1, fun hnm => ?_⟩
    exact (congrArg (fun L => (L.getD j junkClause).isSubsumed)
      (SatState.learned_setDecision t _ d)).trans ((h.lflag j hj).2 hnm)
  · intro c hc
    rw [SatState.origClauses_setDecision] at hc
    exact h.watchesO c hc
  · intro c hc
    rw [SatState.learned_setDecision] at hc
    exact h.watchesL c hc
  · intro hlive hcon
    have h0 := hz hlive
    exact h.zero rfl ((congrArg Decision.level (ghd 0 (fun he => h0 he.symm))).symm.trans hcon)

theorem decInv_contradiction {s : SatState} {l : Int} {dta : List Int} {sig : List Nat}
    {t : SatState} (hwf : DecideWF s) (h : DecInv s l dta sig true t)
    (imp : Option Nat) (himp : imp ≠ none) :
    DecInv s l (dta ++ [0]) sig false (sat_contradiction imp t).2 := by
  unfold sat_contradiction set_Var_Decision
  dsimp only
  have hz0 : (t.getDecision 0).level ≠ s.level + 1 := h.zero rfl
  have hnin : litVar (0 : Int) ∉ dta.map litVar := by
    intro hm
    obtain ⟨y, hy, hvy⟩ := List.mem_map.mp hm
    have := h.dlevel y hy
    rw [hvy] at this
    exact hz0 this
  have hres := decInv_assign h 0
    { t.getDecision (litVar (0 : Int)) with level := t.level, value := true, impliedBy := imp }
    (Or.inl rfl) (by simpa [litVar] using hwf.2.1) hnin (by simpa using h.level)
    (by simpa using himp) false (by simp)
  simpa [litVar] using hres

theorem decInv_subsume_foldl {s : SatState} {l : Int} {dta : List Int} {sig : List Nat}
    {live : Bool} {t : SatState} (hwf : DecideWF s) (h : DecInv s l dta sig live t)
    (cids : List Nat) :
    ∃ sig2 : List Nat,
      DecInv s l dta sig2 live (cids.foldl (fun st cid => sat_subsume_clause cid st) t) := by
  induction cids generalizing sig t with
  | nil => exact ⟨sig, h⟩
  | cons c cs ih =>
    obtain ⟨sig1, h1⟩ := decInv_subsume hwf h c
    exact ih h1


theorem decInv_setLit {s : SatState} {l : Int} {dta : List Int} {sig : List Nat}
    {t : SatState} (hwf : DecideWF s) (h : DecInv s l dta sig true t)
    (o : Int) (cid : Nat) (ho : LitOK s o) :
    ∃ dta2 sig2, DecInv s l dta2 sig2 (set_Lit_Decision o (some cid) t).1
      (set_Lit_Decision o (some cid) t).2 := by
  by_cases hinst : sat_instantiated_var t (litVar o) = true
  · by_cases himp : sat_implied_literal t o = true
    · have he : set_Lit_Decision o (some cid) t = (true, sat_subsume_clause cid t) := by
        unfold set_Lit_Decision
        rw [if_neg (by simpa using hinst), if_neg (by simpa using himp)]
      rw [he]
      obtain ⟨sig2, h2⟩ := decInv_subsume hwf h cid
      exact ⟨dta, sig2, h2⟩
    · have he : set_Lit_Decision o (some cid) t = sat_contradiction (some cid) t := by
        unfold set_Lit_Decision
        rw [if_neg (by simpa using hinst), if_pos (by simpa using himp)]
      rw [he]
      exact ⟨dta ++ [0], sig, decInv_contradiction hwf h (some cid) (by simp)⟩
  · have he : set_Lit_Decision o (some cid) t =
        (true, { set_Var_Decision t (litVar o) t.level (decide (0 < o)) (some cid) with
                 trail := (set_Var_Decision t (litVar o) t.level (decide (0 < o))
                   (some cid)).trail ++ [o] }) := by
      unfold set_Lit_Decision
      rw [if_pos (by simpa using hinst)]
    rw [he]
    have htl : (t.getDecision (litVar o)).level = 0 := by
      unfold sat_instantiated_var at hinst
      simp at hinst
      omega
    have hnin : litVar o ∉ dta.map litVar := by
      intro hm
      obtain ⟨y, hy, hvy⟩ := List.mem_map.mp hm
      have hld := h.dlevel y hy
      rw [hvy, htl] at hld
      omega
    have hsz : (s.getDecision (litVar o)).level = 0 := by
      rw [← h.untouched (litVar o) hnin]
      exact htl
    have hres := decInv_assign h o
      { t.getDecision (litVar o) with
          level := t.level, value := decide (0 < o), impliedBy := some cid }
      (Or.inr (by rw [h.varsLen]; exact ho.2)) hsz hnin h.level (by simp) true
      (fun _ => ho.1)
    exact ⟨dta ++ [o], sig, hres⟩


theorem decInv_modifyLitData {s : SatState} {l : Int} {dta : List Int} {sig : List Nat}
    {live : Bool} {t : SatState} (h : DecInv s l dta sig live t)
    (p : Int) (f : LitData → LitData) :
    DecInv s l dta sig live (t.modifyLitData p f) := by
  have ghd : ∀ v, (t.modifyLitData p f).getDecision v = t.getDecision v :=
    fun v => SatState.getDecision_modifyLitData t p f v
  refine ⟨(SatState.level_modifyLitData t p f).trans h.level,
    (SatState.vars_length_modifyLitData t p f).trans h.varsLen,
    (SatState.falseClause_modifyLitData t p f).trans h.falseClause,
    (congrArg (List.map Clause.core) (SatState.origClauses_modifyLitData t p f)).trans h.origCore,
    (congrArg (List.map Clause.core) (SatState.learned_modifyLitData t p f)).trans h.learnedCore,
    (SatState.trail_modifyLitData t p f).trans h.trail,
    (SatState.subsumedLog_modifyLitData t p f).trans h.log,
    fun v hv => (ghd v).trans (h.untouched v hv),
    fun x hx => (congrArg Decision.level (ghd (litVar x))).trans (h.dlevel x hx),
    h.dfresh, h.dbound, h.dnodup, h.dhead,
    (congrArg Decision.impliedBy (ghd (litVar l))).trans h.dimpl,
    fun x hx hne hcon => h.dimpr x hx hne
      ((congrArg Decision.impliedBy (ghd (litVar x))).symm.trans hcon),
    ?_, ?_, ?_, ?_,
    fun hlive hcon => h.zero hlive
      ((congrArg Decision.level (ghd 0)).symm.trans hcon)⟩
  · intro i hi
    refine ⟨(h.oflag i hi).1, fun hnm => ?_⟩
    exact (congrArg (fun L => (L.getD i junkClause).isSubsumed)
      (SatState.origClauses_modifyLitData t p f)).trans ((h.oflag i hi).2 hnm)
  · intro j hj
    refine ⟨(h.lflag j hj).1, fun hnm => ?_⟩
    exact (congrArg (fun L => (L.getD j junkClause).isSubsumed)
      (SatState.learned_modifyLitData t p f)).trans ((h.lflag j hj).2 hnm)
  · intro c hc
    rw [SatState.origClauses_modifyLitData] at hc
    exact h.watchesO c hc
  · intro c hc
    rw [SatState.learned_modifyLitData] at hc
    exact h.watchesL c hc

theorem decInv_setWatchList {s : SatState} {l : Int} {dta : List Int} {sig : List Nat}
    {live : Bool} {t : SatState} (h : DecInv s l dta sig live t)
    (p : Int) (wl : List Nat) :
    DecInv s l dta sig live (t.setWatchList p wl) :=
  decInv_modifyLitData h p _


theorem decInv_modifyKeepFlag {s : SatState} {l : Int} {dta : List Int} {sig : List Nat}
    {live : Bool} {t : SatState} (hwf : DecideWF s) (h : DecInv s l dta sig live t)
    (cid : Nat) (f : Clause → Clause) (m : Int)
    (hcore : ∀ c, Clause.core (f c) = Clause.core c)
    (hflag : ∀ c, (f c).isSubsumed = c.isSubsumed)
    (hwA : ∀ c, (f c).watchA = c.watchA ∨ (f c).watchA = some m)
    (hwB : ∀ c, (f c).watchB = c.watchB ∨ (f c).watchB = some m)
    (hm : m ∈ (t.getClause cid).lits) :
    DecInv s l dta sig live (t.modifyClause cid f) := by
  have hlits : ∀ c, (f c).lits = c.lits := fun c => congrArg (fun p => p.2.2) (hcore c)
  have hsf := stepFrame_modifyClause t cid f hcore
  have ghd : ∀ v, (t.modifyClause cid f).getDecision v = t.getDecision v :=
    fun v => SatState.getDecision_modifyClause t cid f v
  have hwatch : ∀ c₀, ((∀ w, c₀.watchA = some w → w ∈ c₀.lits) ∧
      (∀ w, c₀.watchB = some w → w ∈ c₀.lits)) → m ∈ c₀.lits →
      (∀ w, (f c₀).watchA = some w → w ∈ (f c₀).lits) ∧
      (∀ w, (f c₀).watchB = some w → w ∈ (f c₀).lits) := by
    intro c₀ hold hmc
    refine ⟨?_, ?_⟩ <;> intro w hw <;> rw [hlits]
    · rcases hwA c₀ with ha | ha
      · exact hold.1 w (ha ▸ hw)
      · rw [ha] at hw
        have : m = w := by simpa using hw
        exact this ▸ hmc
    · rcases hwB c₀ with ha | ha
      · exact hold.2 w (ha ▸ hw)
      · rw [ha] at hw
        have : m = w := by simpa using hw
        exact this ▸ hmc
  refine ⟨hsf.level.trans h.level, hsf.varsLen.trans h.varsLen,
    hsf.falseClause.trans h.falseClause, hsf.origCore.trans h.origCore,
    hsf.learnedCore.trans h.learnedCore,
    (SatState.trail_modifyClause t cid f).trans h.trail,
    (SatState.subsumedLog_modifyClause t cid f).trans h.log,
    fun v hv => (ghd v).trans (h.untouched v hv),
    fun x hx => (congrArg Decision.level (ghd (litVar x))).trans (h.dlevel x hx),
    h.dfresh, h.dbound, h.dnodup, h.dhead,
    (congrArg Decision.impliedBy (ghd (litVar l))).trans h.dimpl,
    fun x hx hne hcon => h.dimpr x hx hne
      ((congrArg Decision.impliedBy (ghd (litVar x))).symm.trans hcon),
    ?_, ?_, ?_, ?_,
    fun hlive hcon => h.zero hlive
      ((congrArg Decision.level (ghd 0)).symm.trans hcon)⟩
  · intro i hi
    refine ⟨(h.oflag i hi).1, fun hnm => ?_⟩
    by_cases hic : i + 1 = cid
    · have hcid0 : ¬ cid = 0 := by omega
      have hle : cid ≤ t.origClauses.length := by
        have := core_len h.origCore
        omega
      have hself : (t.modifyClause cid f).origClauses.getD i junkClause =
          f (t.origClauses.getD i junkClause) := by
        unfold SatState.modifyClause
        rw [if_neg hcid0, if_pos hle]
        dsimp only
        have hci : cid - 1 = i := by omega
        rw [hci]
        exact getD_set_self t.origClauses i (f (t.origClauses.getD i junkClause))
          junkClause (by rw [core_len h.origCore]; exact hi)
      rw [hself, hflag]
      exact (h.oflag i hi).2 hnm
    · exact (congrArg (fun c => c.isSubsumed) (origFlag_modify t cid f i hic)).trans
        ((h.oflag i hi).2 hnm)
  · intro j hj
    have hjt : j < t.learned.length := by
      have := core_len h.learnedCore
      omega
    have hid := (core_pointwise h.learnedCore j hjt).1
    refine ⟨(h.lflag j hj).1, fun hnm => ?_⟩
    by_cases hic : (t.learned.getD j junkClause).id = cid
    · have hgt : ¬ cid ≤ t.origClauses.length := by
        have hlo := core_len h.origCore
        have hids := hwf.2.2.2.2.2.2.1 _ (getD_mem_of_lt s.learned junkClause j hj)
        rw [hid] at hic
        omega
      have hcid0 : ¬ cid = 0 := by
        have hids := hwf.2.2.2.2.2.2.1 _ (getD_mem_of_lt s.learned junkClause j hj)
        rw [hid] at hic
        omega
      have hself : (t.modifyClause cid f).learned.getD j junkClause =
          f (t.learned.getD j junkClause) := by
        unfold SatState.modifyClause
        rw [if_neg hcid0, if_neg hgt]
        rw [getD_map_pos _ _ j _ hjt]
        rw [if_pos hic]
      rw [hself, hflag]
      exact (h.lflag j hj).2 hnm
    · exact (congrArg (fun c => c.isSubsumed) (learned_modify_ne t cid f j hjt hic)).trans
        ((h.lflag j hj).2 hnm)
  · -- watchesO
    unfold SatState.modifyClause
    by_cases hcid0 : cid = 0
    · rw [if_pos hcid0]
      exact h.watchesO
    · rw [if_neg hcid0]
      by_cases hle : cid ≤ t.origClauses.length
      · rw [if_pos hle]
        intro c hc
        rcases List.mem_or_eq_of_mem_set hc with hc | hc
        · exact h.watchesO c hc
        · subst hc
          have hb : cid - 1 < t.origClauses.length := by omega
          have hgc : t.getClause cid = t.origClauses.getD (cid - 1) junkClause := by
            unfold SatState.getClause
            rw [if_neg hcid0, if_pos hle]
          rw [hgc] at hm
          exact hwatch _ (h.watchesO _ (getD_mem_of_lt t.origClauses junkClause _ hb)) hm
      · rw [if_neg hle]
        exact h.watchesO
  · -- watchesL
    unfold SatState.modifyClause
    by_cases hcid0 : cid = 0
    · rw [if_pos hcid0]
      exact h.watchesL
    · rw [if_neg hcid0]
      by_cases hle : cid ≤ t.origClauses.length
      · rw [if_pos hle]
        exact h.watchesL
      · rw [if_neg hle]
        intro c hc
        obtain ⟨c₀, hc₀, hcc⟩ := List.mem_map.mp hc
        by_cases hidc : c₀.id = cid
        · rw [if_pos hidc] at hcc
          subst hcc
          obtain ⟨j, hj, hget⟩ := List.mem_iff_getElem.mp hc₀
          have hjD : t.learned.getD j junkClause = c₀ := by
            rw [List.getD_eq_getElem t.learned _ hj, hget]
          have hfind := find?_id_unique t.learned cid j hj (by rw [hjD]; exact hidc)
            (by rw [ids_of_core h.learnedCore]; exact hwf.2.2.2.2.2.1)
          have hgc : t.getClause cid = c₀ := by
            unfold SatState.getClause
            rw [if_neg hcid0, if_neg hle, hfind]
            exact hjD
          rw [hgc] at hm
          exact hwatch c₀ (h.watchesL c₀ hc₀) hm
        · rw [if_neg hidc] at hcc
          subst hcc
          exact h.watchesL c₀ hc₀


theorem decInv_unwatched {s : SatState} {l : Int} {dta : List Int} {sig : List Nat}
    {live : Bool} {t : SatState} (hwf : DecideWF s) (h : DecInv s l dta sig live t)
    (cid : Nat) :
    ∃ sig2, DecInv s l dta sig2 live (sat_unwatched_literal cid t).2 := by
  unfold sat_unwatched_literal
  dsimp only
  split
  · exact ⟨sig, h⟩
  · exact decInv_subsume hwf h cid
  · exact ⟨sig, h⟩

def WStep.ok : WStep → Bool
  | .stop _ => false
  | _ => true

theorem decInv_watch_step {s : SatState} {l : Int} {dta : List Int} {sig : List Nat}
    {t : SatState} (hwf : DecideWF s) (h : DecInv s l dta sig true t)
    (clit : Int) (cid : Nat) :
    ∃ dta2 sig2, DecInv s l dta2 sig2 (watch_clause_step clit cid t).ok
      (watch_clause_step clit cid t).state := by
  unfold watch_clause_step
  dsimp only
  split
  · exact ⟨dta, sig, h⟩
  · obtain ⟨sig1, h1⟩ := decInv_unwatched hwf h cid
    split
    · exact ⟨dta, sig1, h1⟩
    · split
      · rename_i m hm
        obtain ⟨hst, hmem, hnw⟩ := sat_unwatched_some cid t m hm
        split
        · exact ⟨dta, sig1, decInv_modifyKeepFlag hwf h1 cid _ m (fun c => rfl)
            (fun c => rfl) (fun c => Or.inr rfl) (fun c => Or.inl rfl)
            (by rw [hst]; exact hmem)⟩
        · exact ⟨dta, sig1, decInv_modifyKeepFlag hwf h1 cid _ m (fun c => rfl)
            (fun c => rfl) (fun c => Or.inl rfl) (fun c => Or.inr rfl)
            (by rw [hst]; exact hmem)⟩
      · rename_i hnone
        split
        · exact ⟨dta ++ [0], sig1, decInv_contradiction hwf h1 (some cid) (by simp)⟩
        · rename_i o hother
          have hoOK : LitOK s o := by
            have hcc := DecInv.clauseOK h1 hwf cid
            split at hother
            · exact hcc.1 o (hcc.2.2 o hother)
            · exact hcc.1 o (hcc.2.1 o hother)
          split
          · split
            · obtain ⟨sig2, h2⟩ := decInv_subsume hwf h1 cid
              exact ⟨dta, sig2, h2⟩
            · exact ⟨dta ++ [0], sig1, decInv_contradiction hwf h1 (some cid) (by simp)⟩
          · obtain ⟨dta2, sig2, h2⟩ := decInv_setLit hwf h1 o cid hoOK
            split
            · rename_i hr1
              refine ⟨dta2, sig2, ?_⟩
              rw [hr1] at h2
              exact h2.queueSet _
            · rename_i hr1
              refine ⟨dta2, sig2, ?_⟩
              rw [bool_eq_false hr1] at h2
              exact h2


theorem decInv_processWL {s : SatState} {l : Int} (hwf : DecideWF s) (clit : Int) :
    ∀ (wl kept : List Nat) (t : SatState) (dta : List Int) (sig : List Nat),
      DecInv s l dta sig true t →
      ∃ dta2 sig2, DecInv s l dta2 sig2 (processWL clit wl kept t).1
        (processWL clit wl kept t).2 := by
  intro wl
  induction wl with
  | nil =>
    intro kept t dta sig h
    exact ⟨dta, sig, decInv_setWatchList h clit kept.reverse⟩
  | cons cid rest ih =>
    intro kept t dta sig h
    have hws := decInv_watch_step hwf h clit cid
    rcases hw : watch_clause_step clit cid t with s2 | ⟨m, s2⟩ | s2 <;> rw [hw] at hws <;>
      simp only [processWL, hw] <;> dsimp only [WStep.ok, WStep.state] at hws
    · obtain ⟨dta2, sig2, h2⟩ := hws
      exact ih _ _ _ _ h2
    · obtain ⟨dta2, sig2, h2⟩ := hws
      exact ih _ _ _ _ (decInv_modifyLitData h2 m _)
    · obtain ⟨dta2, sig2, h2⟩ := hws
      exact ⟨dta2, sig2, decInv_setWatchList h2 clit _⟩

theorem decInv_propagate {s : SatState} {l : Int} {dta : List Int} {sig : List Nat}
    {t : SatState} (hwf : DecideWF s) (h : DecInv s l dta sig true t) (p : Int) :
    ∃ dta2 sig2, DecInv s l dta2 sig2 (propagate_lit_decision p t).1
      (propagate_lit_decision p t).2 := by
  unfold propagate_lit_decision
  dsimp only
  obtain ⟨sig1, h1⟩ := decInv_subsume_foldl hwf h (t.getLitData p).appearsIn
  obtain ⟨sig2, h2⟩ := decInv_subsume_foldl hwf h1 (t.getLitData p).learnedList
  exact decInv_processWL hwf (-p) _ [] _ _ _ h2

theorem decInv_urGo {s : SatState} {l : Int} (hwf : DecideWF s) :
    ∀ (fuel i : Nat) (t : SatState) (dta : List Int) (sig : List Nat),
      DecInv s l dta sig true t →
      ∃ dta2 sig2, DecInv s l dta2 sig2 (urGo fuel i t).1 (urGo fuel i t).2 := by
  intro fuel
  induction fuel with
  | zero =>
    intro i t dta sig h
    exact ⟨dta, sig, h.weaken⟩
  | succ f ih =>
    intro i t dta sig h
    unfold urGo
    dsimp only
    split
    · obtain ⟨dta1, sig1, h1⟩ := decInv_propagate hwf h (t.queue.getD i 0)
      split
      · rename_i hr1
        rw [hr1] at h1
        exact ih _ _ _ _ h1
      · rename_i hr1
        rw [bool_eq_false hr1] at h1
        exact ⟨dta1, sig1, h1⟩
    · exact ⟨dta, sig, h.queueSet []⟩

theorem decInv_unit_resolution {s : SatState} {l : Int} {dta : List Int} {sig : List Nat}
    {t : SatState} (hwf : DecideWF s) (h : DecInv s l dta sig true t) :
    ∃ dta2 sig2, DecInv s l dta2 sig2 (sat_unit_resolution t).1 (sat_unit_resolution t).2 :=
  decInv_urGo hwf _ 0 t dta sig h


theorem dec_bacMarkPreds (lvl : Nat) (ps : List Int) (u : SatState) (k : Nat) (v : Nat) :
    (bacMarkPreds lvl ps u k).1.getDecision v = u.getDecision v := by
  induction ps generalizing u k with
  | nil => rfl
  | cons p ps ih =>
    unfold bacMarkPreds
    dsimp only
    split
    · exact ih _ _
    · exact ih u k

theorem dec_bacBackGo (uip lvl : Nat) (tr : List Int) (u : SatState) (k : Nat) (v : Nat) :
    (bacBackGo uip lvl tr u k).1.getDecision v = u.getDecision v := by
  induction tr generalizing u k with
  | nil => rfl
  | cons dl rest ih =>
    unfold bacBackGo
    dsimp only
    split
    · rfl
    · split
      · split
        · exact (ih _ _).trans (dec_bacMarkPreds _ _ _ _ v)
        · exact ih u k
      · exact ih u k

theorem dec_bacForwardGo (lvl : Nat) (tr : List Int) (u : SatState) (acc : List Int)
    (al : Nat) (v : Nat) :
    (bacForwardGo lvl tr u acc al).1.getDecision v = u.getDecision v := by
  induction tr generalizing u acc al with
  | nil => rfl
  | cons x rest ih =>
    unfold bacForwardGo
    dsimp only
    split
    · split
      · exact ih _ _ _
      · exact ih u acc al
    · rfl

theorem uipPredFold_untouched (x : Int) (ps : List Int) (v : Nat) (hv : v ≠ litVar x) :
    ∀ u : SatState, (uipPredFold x ps u).getDecision v = u.getDecision v := by
  induction ps with
  | nil => exact fun u => rfl
  | cons p ps ih =>
    intro u
    unfold uipPredFold
    dsimp only
    split
    · exact ih u
    · exact (ih _).trans (SatState.getDecision_setDecision_ne u (litVar x) v _ hv)

theorem uipForwardGo_untouched (xs : List Int) (v : Nat) :
    ∀ u : SatState, v ∉ xs.map litVar →
      (uipForwardGo xs u).getDecision v = u.getDecision v := by
  induction xs with
  | nil => exact fun u _ => rfl
  | cons x rest ih =>
    intro u hv
    have hvx : v ≠ litVar x := fun he => hv (by simp [he])
    have hvr : v ∉ rest.map litVar := fun hm => hv (by simp [hm])
    unfold uipForwardGo
    dsimp only
    refine (ih _ hvr).trans ?_
    split
    · rfl
    · exact uipPredFold_untouched x _ v hvx _

theorem setDecision_impliedBy_ord (u : SatState) (a : Nat) (idx : Nat) (w : Nat) :
    ((u.setDecision a { u.getDecision a with ord := idx, dominator := none }).getDecision
      w).impliedBy = (u.getDecision w).impliedBy := by
  by_cases hw : w = a
  · subst hw
    by_cases hb : w = 0 ∨ w - 1 < u.vars.length
    · rw [SatState.getDecision_setDecision_self u w _ hb]
    · push_neg at hb
      rw [setDecision_oob u w _ hb.1 hb.2]
  · rw [SatState.getDecision_setDecision_ne u _ w _ hw]

theorem uipInitGo_stop (x : Int) (B : List Int) (v : Nat) :
    ∀ (A : List Int) (idx : Nat) (u : SatState) (acc : List Int),
      (∀ y ∈ A, (u.getDecision (litVar y)).impliedBy ≠ none) →
      (u.getDecision (litVar x)).impliedBy = none →
      v ∉ A.map litVar → v ≠ litVar x →
      (uipInitGo (A ++ x :: B) idx u acc).1.getDecision v = u.getDecision v ∧
      (uipInitGo (A ++ x :: B) idx u acc).2 = A.reverse ++ acc := by
  intro A
  induction A with
  | nil =>
    intro idx u acc hA hx hv hvx
    rw [List.nil_append]
    unfold uipInitGo
    dsimp only
    rw [if_neg (by simp [hx])]
    exact ⟨SatState.getDecision_setDecision_ne u (litVar x) v _ hvx, by simp⟩
  | cons a A ih =>
    intro idx u acc hA hx hv hvx
    have hva : v ≠ litVar a := fun he => hv (by simp [he])
    have hvA : v ∉ A.map litVar := fun hm => hv (by simp [hm])
    rw [List.cons_append]
    unfold uipInitGo
    dsimp only
    rw [if_pos (by simpa using hA a (List.mem_cons_self a A))]
    obtain ⟨h1, h2⟩ := ih (idx - 1)
      (u.setDecision (litVar a) { u.getDecision (litVar a) with ord := idx, dominator := none })
      (a :: acc)
      (fun y hy => by
        rw [setDecision_impliedBy_ord]
        exact hA y (List.mem_cons_of_mem a hy))
      (by rw [setDecision_impliedBy_ord]; exact hx)
      hvA hvx
    refine ⟨h1.trans (SatState.getDecision_setDecision_ne u (litVar a) v _ hva), ?_⟩
    rw [h2]
    simp


theorem decInv_dtaCons {s : SatState} {l : Int} {dta : List Int} {sig : List Nat}
    {live : Bool} {t : SatState} (h : DecInv s l dta sig live t) :
    ∃ dr, dta = l :: dr := by
  rcases hd : dta with _ | ⟨a, dr⟩
  · rw [hd] at h
    cases h.dhead
  · have hh := h.dhead
    rw [hd] at hh
    have ha : a = l := by simpa using hh
    exact ⟨dr, by rw [ha]⟩

theorem computeUIP_untouched {s : SatState} {l : Int} {dta : List Int} {sig : List Nat}
    {live : Bool} {t : SatState} (h : DecInv s l dta sig live t) (v : Nat)
    (hv : v ∉ dta.map litVar) :
    (sat_compute_UIP t).1.getDecision v = t.getDecision v := by
  obtain ⟨dr, hdr⟩ := decInv_dtaCons h
  subst hdr
  have hrev : t.trail.reverse = dr.reverse ++ l :: s.trail.reverse := by
    rw [h.trail, List.reverse_append, List.reverse_cons, List.append_assoc]
    rfl
  have hlnin : litVar l ∉ dr.map litVar := by
    have hnd := h.dnodup
    rw [show (l :: dr).map litVar = litVar l :: dr.map litVar from rfl] at hnd
    exact (List.nodup_cons.mp hnd).1
  have himpA : ∀ y ∈ dr.reverse, (t.getDecision (litVar y)).impliedBy ≠ none := by
    intro y hy
    rw [List.mem_reverse] at hy
    refine h.dimpr y (List.mem_cons_of_mem l hy) ?_
    intro he
    exact hlnin (he ▸ List.mem_map_of_mem litVar hy)
  have hvl : v ≠ litVar l := fun he => hv (by simp [he])
  have hvdr : v ∉ dr.reverse.map litVar := by
    intro hm
    rw [List.map_reverse, List.mem_reverse] at hm
    exact hv (by simp [List.mem_map] at hm ⊢; exact Or.inr hm)
  obtain ⟨h1, h2⟩ := uipInitGo_stop l s.trail.reverse v dr.reverse (t.trail.length - 1) t []
    himpA h.dimpl hvdr hvl
  unfold sat_compute_UIP
  dsimp only
  rw [hrev]
  refine (uipForwardGo_untouched _ v _ ?_).trans h1
  rw [h2]
  simp only [List.reverse_reverse, List.append_nil]
  intro hm
  exact hv (by simp [List.mem_map] at hm ⊢; exact Or.inr hm)

theorem build_untouched {s : SatState} {l : Int} {dta : List Int} {sig : List Nat}
    {live : Bool} {t : SatState} (h : DecInv s l dta sig live t) (v : Nat)
    (hv : v ∉ dta.map litVar) :
    (sat_build_asserting_clause t).2.getDecision v = t.getDecision v := by
  have hc := computeUIP_untouched h v hv
  unfold sat_build_asserting_clause
  dsimp only
  split
  · exact hc
  · split
    · exact (dec_bacForwardGo _ _ _ _ _ v).trans ((dec_bacBackGo _ _ _ _ _ v).trans hc)
    · exact (dec_bacBackGo _ _ _ _ _ v).trans hc

theorem decInv_build {s : SatState} {l : Int} {dta : List Int} {sig : List Nat}
    {t : SatState} (h : DecInv s l dta sig false t) :
    DecInv s l dta sig false (sat_build_asserting_clause t).2 := by
  have hA := anaFrame_build t
  refine ⟨hA.level.trans h.level, hA.varsLen.trans h.varsLen,
    hA.falseClause.trans h.falseClause,
    (congrArg (List.map Clause.core) hA.origClauses).trans h.origCore,
    (congrArg (List.map Clause.core) hA.learned).trans h.learnedCore,
    hA.trail.trans h.trail, hA.subsumedLog.trans h.log,
    fun v hv => (build_untouched h v hv).trans (h.untouched v hv),
    fun x hx => ((hA.decision (litVar x)).1).trans (h.dlevel x hx),
    h.dfresh, h.dbound, h.dnodup, h.dhead,
    ((hA.decision (litVar l)).2.2).trans h.dimpl,
    fun x hx hne hcon => h.dimpr x hx hne (((hA.decision (litVar x)).2.2).symm.trans hcon),
    ?_, ?_, ?_, ?_, fun hlive => absurd hlive (by simp)⟩
  · intro i hi
    refine ⟨(h.oflag i hi).1, fun hnm => ?_⟩
    exact (congrArg (fun L => (L.getD i junkClause).isSubsumed) hA.origClauses).trans
      ((h.oflag i hi).2 hnm)
  · intro j hj
    refine ⟨(h.lflag j hj).1, fun hnm => ?_⟩
    exact (congrArg (fun L => (L.getD j junkClause).isSubsumed) hA.learned).trans
      ((h.lflag j hj).2 hnm)
  · intro c hc
    rw [hA.origClauses] at hc
    exact h.watchesO c hc
  · intro c hc
    rw [hA.learned] at hc
    exact h.watchesL c hc


theorem decInv_init (s : SatState) (l : Int) (hwf : DecideWF s) (hl : LitOK s l)
    (hfresh : sat_instantiated_var s (litVar l) = false) :
    (set_Lit_Decision l none { s with
      level := s.level + 1, subsumedLog := none :: s.subsumedLog }).1 = true ∧
    DecInv s l [l] [] true
      (set_Lit_Decision l none { s with
      level := s.level + 1, subsumedLog := none :: s.subsumedLog }).2 := by
  have hlvl0 : (s.getDecision (litVar l)).level = 0 := by
    unfold sat_instantiated_var at hfresh
    simp at hfresh
    omega
  rw [set_Lit_Decision_fresh l none { s with
    level := s.level + 1, subsumedLog := none :: s.subsumedLog } hfresh]
  refine ⟨rfl, ?_⟩
  unfold set_Var_Decision
  have hb : litVar l = 0 ∨ litVar l - 1 <
      ({ s with level := s.level + 1, subsumedLog := none :: s.subsumedLog }
        : SatState).vars.length :=
    Or.inr hl.2
  refine ⟨SatState.level_setDecision _ _ _, SatState.vars_length_setDecision _ _ _,
    SatState.falseClause_setDecision _ _ _,
    congrArg (List.map Clause.core) (SatState.origClauses_setDecision _ _ _),
    congrArg (List.map Clause.core) (SatState.learned_setDecision _ _ _),
    congrArg (· ++ [l]) (SatState.trail_setDecision _ _ _),
    SatState.subsumedLog_setDecision _ _ _,
    ?_, ?_, ?_, ?_, by simp, rfl, ?_, ?_, ?_, ?_, ?_, ?_, ?_⟩
  · intro v hv
    have hvl : v ≠ litVar l := by
      intro he
      exact hv (by simp [he])
    exact SatState.getDecision_setDecision_ne _ (litVar l) v _ hvl
  · intro x hx
    rw [List.mem_singleton] at hx
    subst hx
    exact congrArg Decision.level (SatState.getDecision_setDecision_self _ (litVar x) _ hb)
  · intro x hx
    rw [List.mem_singleton] at hx
    subst hx
    exact hlvl0
  · intro x hx
    rw [List.mem_singleton] at hx
    subst hx
    exact Or.inr hl.2
  · exact congrArg Decision.impliedBy
      (SatState.getDecision_setDecision_self _ (litVar l) _ hb)
  · intro x hx hne
    rw [List.mem_singleton] at hx
    subst hx
    exact absurd rfl hne
  · intro i hi
    refine ⟨fun hmem => absurd hmem (List.not_mem_nil _), fun _ => ?_⟩
    exact congrArg (fun L => (L.getD i junkClause).isSubsumed)
      (SatState.origClauses_setDecision _ _ _)
  · intro j hj
    refine ⟨fun hmem => absurd hmem (List.not_mem_nil _), fun _ => ?_⟩
    exact congrArg (fun L => (L.getD j junkClause).isSubsumed)
      (SatState.learned_setDecision _ _ _)
  · intro c hc
    rw [SatState.origClauses_setDecision] at hc
    exact ⟨(hwf.2.2.2.1 c hc).2.1, (hwf.2.2.2.1 c hc).2.2⟩
  · intro c hc
    rw [SatState.learned_setDecision] at hc
    exact ⟨(hwf.2.2.2.2.1 c hc).2.1, (hwf.2.2.2.2.1 c hc).2.2⟩
  · intro _ hcon
    have h0l : (0 : Nat) ≠ litVar l := fun he => hl.1 he.symm
    have hz : (s.getDecision 0).level = s.level + 1 :=
      (congrArg Decision.level (SatState.getDecision_setDecision_ne
        { s with
          level := s.level + 1, subsumedLog := none :: s.subsumedLog } (litVar l) 0
        { ({ s with
            level := s.level + 1, subsumedLog := none :: s.subsumedLog }
            : SatState).getDecision (litVar l) with
          level := s.level + 1, value := decide (0 < l), impliedBy := none }
        h0l)).symm.trans hcon
    have hz0 := hwf.2.1
    omega

theorem decide_post (s : SatState) (l : Int) (hwf : DecideWF s) (hl : LitOK s l)
    (hfresh : sat_instantiated_var s (litVar l) = false) :
    ∃ dta sig live, DecInv s l dta sig live (sat_decide_literal l s).2 := by
  unfold sat_decide_literal
  dsimp only
  obtain ⟨hr1, hinv⟩ := decInv_init s l hwf hl hfresh
  rw [hr1, if_pos rfl]
  have hq := hinv.queueSet ((set_Lit_Decision l none { s with
      level := s.level + 1, subsumedLog := none :: s.subsumedLog }).2.queue ++ [l])
  obtain ⟨dta2, sig2, h2⟩ := decInv_unit_resolution hwf hq
  split
  · exact ⟨dta2, sig2, _, h2⟩
  · rename_i hur
    rw [bool_eq_false hur] at h2
    exact ⟨dta2, sig2, false, decInv_build h2⟩


theorem popTrailGo_append (lvl : Nat) (B : List Int) :
    ∀ (A : List Int) (u : SatState),
      (∀ x ∈ A, (u.getDecision (litVar x)).level = lvl) →
      (A.map litVar).Nodup →
      (∀ x ∈ A, litVar x = 0 ∨ litVar x - 1 < u.vars.length) →
      (∀ b, B.head? = some b → (u.getDecision (litVar b)).level ≠ lvl ∧
        litVar b ∉ A.map litVar) →
      (popTrailGo lvl (A ++ B) u).1 = B ∧
      (∀ v, v ∉ A.map litVar →
        (popTrailGo lvl (A ++ B) u).2.getDecision v = u.getDecision v) ∧
      (∀ v, v ∈ A.map litVar → (popTrailGo lvl (A ++ B) u).2.getDecision v =
        { u.getDecision v with level := 0 }) ∧
      (popTrailGo lvl (A ++ B) u).2.origClauses = u.origClauses ∧
      (popTrailGo lvl (A ++ B) u).2.learned = u.learned ∧
      (popTrailGo lvl (A ++ B) u).2.subsumedLog = u.subsumedLog ∧
      (popTrailGo lvl (A ++ B) u).2.vars.length = u.vars.length ∧
      (popTrailGo lvl (A ++ B) u).2.level = u.level ∧
      (popTrailGo lvl (A ++ B) u).2.queue = u.queue ∧
      (popTrailGo lvl (A ++ B) u).2.falseClause = u.falseClause := by
  intro A
  induction A with
  | nil =>
    intro u hA hnd hbd hB
    rw [List.nil_append]
    rcases hBc : B with _ | ⟨b, B2⟩
    · exact ⟨rfl, fun v _ => rfl, fun v hv => absurd hv (List.not_mem_nil v),
        rfl, rfl, rfl, rfl, rfl, rfl, rfl⟩
    · unfold popTrailGo
      rw [if_neg (hB b (by rw [hBc]; rfl)).1]
      exact ⟨rfl, fun v _ => rfl, fun v hv => absurd hv (List.not_mem_nil v),
        rfl, rfl, rfl, rfl, rfl, rfl, rfl⟩
  | cons a A ih =>
    intro u hA hnd hbd hB
    have hva : litVar a ∉ A.map litVar := by
      have h2 := hnd
      rw [show (a :: A).map litVar = litVar a :: A.map litVar from rfl] at h2
      exact (List.nodup_cons.mp h2).1
    have hbnd := hbd a (List.mem_cons_self a A)
    have hbA : litVar a = 0 ∨ litVar a - 1 < u.vars.length := hbnd
    rw [List.cons_append]
    unfold popTrailGo
    rw [if_pos (hA a (List.mem_cons_self a A))]
    have hgne : ∀ w, w ≠ litVar a →
        ((unset_Var_Decision u (litVar a)).getDecision w) = u.getDecision w := by
      intro w hw
      unfold unset_Var_Decision
      exact SatState.getDecision_setDecision_ne u (litVar a) w _ hw
    have hgself : (unset_Var_Decision u (litVar a)).getDecision (litVar a) =
        { u.getDecision (litVar a) with level := 0 } := by
      unfold unset_Var_Decision
      exact SatState.getDecision_setDecision_self u (litVar a) _ hbA
    obtain ⟨p1, p2, p3, p4, p5, p6, p7, p8, p9, p10⟩ := ih (unset_Var_Decision u (litVar a))
      (fun y hy => by
        rw [hgne (litVar y) (fun he => hva (he ▸ List.mem_map_of_mem litVar hy))]
        exact hA y (List.mem_cons_of_mem a hy))
      ((List.nodup_cons.mp (by
        rw [show (a :: A).map litVar = litVar a :: A.map litVar from rfl] at hnd
        exact hnd)).2)
      (fun y hy => by
        have hb2 := hbd y (List.mem_cons_of_mem a hy)
        rcases hb2 with hb2 | hb2
        · exact Or.inl hb2
        · refine Or.inr ?_
          unfold unset_Var_Decision
          rw [SatState.vars_length_setDecision]
          exact hb2)
      (fun b hbh => by
        obtain ⟨hb1, hb2⟩ := hB b hbh
        have hbne : litVar b ≠ litVar a := fun he =>
          hb2 (he ▸ List.mem_map_of_mem litVar (List.mem_cons_self a A))
        refine ⟨by rw [hgne (litVar b) hbne]; exact hb1, ?_⟩
        intro hm
        exact hb2 (by simp [hm]))
    refine ⟨p1, ?_, ?_, ?_, ?_, ?_, ?_, ?_, ?_, ?_⟩
    · intro v hv
      have hv1 : v ≠ litVar a := fun he => hv (by simp [he])
      have hv2 : v ∉ A.map litVar := fun hm => hv (by simp [hm])
      exact (p2 v hv2).trans (hgne v hv1)
    · intro v hv
      rw [show (a :: A).map litVar = litVar a :: A.map litVar from rfl] at hv
      rcases List.mem_cons.mp hv with hv | hv
      · subst hv
        exact (p2 _ hva).trans hgself
      · have hvne : v ≠ litVar a := fun he => hva (he ▸ hv)
        rw [p3 v hv, hgne v hvne]
    · exact p4.trans (by unfold unset_Var_Decision; rw [SatState.origClauses_setDecision])
    · exact p5.trans (by unfold unset_Var_Decision; rw [SatState.learned_setDecision])
    · exact p6.trans (by unfold unset_Var_Decision; rw [SatState.subsumedLog_setDecision])
    · exact p7.trans (by unfold unset_Var_Decision; rw [SatState.vars_length_setDecision])
    · exact p8.trans (by unfold unset_Var_Decision; rw [SatState.level_setDecision])
    · exact p9.trans (by unfold unset_Var_Decision; rw [SatState.queue_setDecision])
    · exact p10.trans (by unfold unset_Var_Decision; rw [SatState.falseClause_setDecision])

theorem popLogGo_append (rest : List (Option Nat)) :
    ∀ (sig : List Nat) (u : SatState),
      popLogGo (sig.map some ++ none :: rest) u =
        (rest, sig.foldl (fun st cid => st.modifyClause cid
          fun c => { c with isSubsumed := false }) u) := by
  intro sig
  induction sig with
  | nil => intro u; rfl
  | cons c cs ih =>
    intro u
    exact ih (u.modifyClause c fun cl => { cl with isSubsumed := false })


theorem origFlag_modify_self (t : SatState) (cid : Nat) (f : Clause → Clause)
    (h1 : 1 ≤ cid) (h2 : cid ≤ t.origClauses.length) :
    (t.modifyClause cid f).origClauses.getD (cid - 1) junkClause =
      f (t.origClauses.getD (cid - 1) junkClause) := by
  unfold SatState.modifyClause
  rw [if_neg (by omega), if_pos h2]
  dsimp only
  exact getD_set_self t.origClauses (cid - 1) _ junkClause (by omega)

theorem revive_fold_orig (sig : List Nat) :
    ∀ (u : SatState) (i : Nat), i < u.origClauses.length →
      ((sig.foldl (fun st cid => st.modifyClause cid fun c =>
        { c with isSubsumed := false }) u).origClauses.getD i junkClause).isSubsumed =
      (if (i + 1) ∈ sig then false else (u.origClauses.getD i junkClause).isSubsumed) := by
  induction sig with
  | nil =>
    intro u i hi
    simp
  | cons cid cs ih =>
    intro u i hi
    rw [List.foldl_cons]
    have hlen : i < (u.modifyClause cid fun c =>
        { c with isSubsumed := false }).origClauses.length := by
      rw [SatState.origClauses_length_modifyClause]
      exact hi
    rw [ih _ i hlen]
    by_cases he : i + 1 = cid
    · have hflag : ((u.modifyClause cid fun c =>
          { c with isSubsumed := false }).origClauses.getD i junkClause).isSubsumed = false := by
        have hself := origFlag_modify_self u cid
          (fun c => { c with isSubsumed := false }) (by omega) (by omega)
        rw [show cid - 1 = i by omega] at hself
        rw [hself]
      by_cases hc : (i + 1) ∈ cs
      · rw [if_pos hc, if_pos (List.mem_cons.mpr (Or.inl he))]
      · rw [if_neg hc, if_pos (List.mem_cons.mpr (Or.inl he)), hflag]
    · have hflag := congrArg (fun c => c.isSubsumed)
        (origFlag_modify u cid (fun c => { c with isSubsumed := false }) i he)
      by_cases hc : (i + 1) ∈ cs
      · rw [if_pos hc, if_pos (List.mem_cons.mpr (Or.inr hc))]
      · rw [if_neg hc, if_neg (by
          intro hm
          rcases List.mem_cons.mp hm with hm | hm
          · exact he hm
          · exact hc hm)]
        exact hflag

theorem learned_modify_getD_ff (u : SatState) (cid : Nat) (j : Nat)
    (hj : j < u.learned.length) :
    (u.modifyClause cid (fun c => { c with isSubsumed := false })).learned.getD j junkClause =
      (if (u.learned.getD j junkClause).id = cid ∧ u.origClauses.length < cid
       then { u.learned.getD j junkClause with isSubsumed := false }
       else u.learned.getD j junkClause) := by
  by_cases hle : cid ≤ u.origClauses.length
  · rw [learned_modify_le u cid _ hle, if_neg (by omega)]
  · by_cases hid : (u.learned.getD j junkClause).id = cid
    · unfold SatState.modifyClause
      rw [if_neg (by omega), if_neg hle]
      rw [getD_map_pos _ _ j _ hj]
      rw [if_pos hid, if_pos ⟨hid, by omega⟩]
    · rw [learned_modify_ne u cid _ j hj hid, if_neg (fun hand => hid hand.1)]

theorem revive_fold_learned (sig : List Nat) :
    ∀ (u : SatState) (j : Nat), j < u.learned.length →
      ((sig.foldl (fun st cid => st.modifyClause cid fun c =>
        { c with isSubsumed := false }) u).learned.getD j junkClause).isSubsumed =
      (if (u.learned.getD j junkClause).id ∈ sig ∧
          u.origClauses.length < (u.learned.getD j junkClause).id
       then false else (u.learned.getD j junkClause).isSubsumed) := by
  induction sig with
  | nil =>
    intro u j hj
    simp
  | cons cid cs ih =>
    intro u j hj
    rw [List.foldl_cons]
    have hlen : j < (u.modifyClause cid fun c =>
        { c with isSubsumed := false }).learned.length := by
      rw [SatState.learned_length_modifyClause]
      exact hj
    rw [ih _ j hlen]
    have hgd := learned_modify_getD_ff u cid j hj
    have hmlen : (u.modifyClause cid fun c =>
        { c with isSubsumed := false }).origClauses.length = u.origClauses.length :=
      SatState.origClauses_length_modifyClause u cid _
    by_cases hcase : (u.learned.getD j junkClause).id = cid ∧ u.origClauses.length < cid
    · rw [if_pos hcase] at hgd
      rw [hgd]
      dsimp only
      rw [hmlen]
      by_cases hc : (u.learned.getD j junkClause).id ∈ cs
      · rw [if_pos ⟨hc, by omega⟩, if_pos ⟨List.mem_cons.mpr (Or.inl hcase.1), by omega⟩]
      · rw [if_neg (fun hand => hc hand.1),
          if_pos ⟨List.mem_cons.mpr (Or.inl hcase.1), by omega⟩]
    · rw [if_neg hcase] at hgd
      rw [hgd, hmlen]
      by_cases hc : (u.learned.getD j junkClause).id ∈ cs ∧
          u.origClauses.length < (u.learned.getD j junkClause).id
      · rw [if_pos hc, if_pos ⟨List.mem_cons.mpr (Or.inr hc.1), hc.2⟩]
      · rw [if_neg hc, if_neg (by
          intro hand
          rcases List.mem_cons.mp hand.1 with hm | hm
          · exact hcase ⟨hm, by omega⟩
          · exact hc ⟨hm, hand.2⟩)]


theorem sem_map_eq {a b : List Clause} (hcore : a.map Clause.core = b.map Clause.core)
    (hflag : ∀ i < a.length,
      (a.getD i junkClause).isSubsumed = (b.getD i junkClause).isSubsumed) :
    a.map Clause.sem = b.map Clause.sem := by
  have hlen := core_len hcore
  apply List.ext_getElem (by simpa using hlen)
  intro i h1 h2
  rw [List.getElem_map, List.getElem_map]
  have hia : i < a.length := by simpa using h1
  have hib : i < b.length := by simpa using h2
  have hc := core_pointwise hcore i hia
  have hf := hflag i hia
  unfold Clause.sem
  rw [← List.getD_eq_getElem a junkClause hia, ← List.getD_eq_getElem b junkClause hib]
  rw [hc.1, hc.2.1, hc.2.2, hf]

theorem revive_fold_misc (sig : List Nat) :
    ∀ u : SatState,
      (sig.foldl (fun st cid => st.modifyClause cid fun c =>
        { c with isSubsumed := false }) u).level = u.level ∧
      (sig.foldl (fun st cid => st.modifyClause cid fun c =>
        { c with isSubsumed := false }) u).trail = u.trail ∧
      (sig.foldl (fun st cid => st.modifyClause cid fun c =>
        { c with isSubsumed := false }) u).queue = u.queue ∧
      (sig.foldl (fun st cid => st.modifyClause cid fun c =>
        { c with isSubsumed := false }) u).vars.length = u.vars.length ∧
      (∀ v, (sig.foldl (fun st cid => st.modifyClause cid fun c =>
        { c with isSubsumed := false }) u).getDecision v = u.getDecision v) ∧
      (sig.foldl (fun st cid => st.modifyClause cid fun c =>
        { c with isSubsumed := false }) u).origClauses.map Clause.core =
        u.origClauses.map Clause.core ∧
      (sig.foldl (fun st cid => st.modifyClause cid fun c =>
        { c with isSubsumed := false }) u).learned.map Clause.core =
        u.learned.map Clause.core := by
  induction sig with
  | nil => exact fun u => ⟨rfl, rfl, rfl, rfl, fun v => rfl, rfl, rfl⟩
  | cons cid cs ih =>
    intro u
    obtain ⟨q1, q2, q3, q4, q5, q6, q7⟩ :=
      ih (u.modifyClause cid fun c => { c with isSubsumed := false })
    have hsf := stepFrame_modifyClause u cid (fun c => { c with isSubsumed := false })
      (fun c => by rfl)
    exact ⟨q1.trans hsf.level, q2.trans (SatState.trail_modifyClause u cid _),
      q3.trans (SatState.queue_modifyClause u cid _), q4.trans hsf.varsLen,
      fun v => (q5 v).trans (SatState.getDecision_modifyClause u cid _ v),
      q6.trans hsf.origCore, q7.trans hsf.learnedCore⟩

theorem head?_mem {α : Type} {L : List α} {a : α} (h : L.head? = some a) : a ∈ L := by
  rcases L with _ | ⟨x, xs⟩
  · cases h
  · have hx : x = a := by simpa using h
    subst hx
    exact List.mem_cons_self x xs

theorem undo_restores {s : SatState} {l : Int} {dta : List Int} {sig : List Nat}
    {live : Bool} {d : SatState} (hwf : DecideWF s) (h : DecInv s l dta sig live d) :
    SemEq s (sat_undo_decide_literal d) := by
  obtain ⟨hq, hz0, htr, hcO, hcL, hnd, hgtm, hfl, hfa, hfb⟩ := hwf
  have hdis : ∀ v, v ∈ dta.map litVar → (s.getDecision v).level = 0 := by
    intro v hv
    obtain ⟨y, hy, hvy⟩ := List.mem_map.mp hv
    exact hvy ▸ h.dfresh y hy
  have htrail_ne : ∀ b, s.trail.reverse.head? = some b →
      (d.getDecision (litVar b)).level ≠ d.level ∧ litVar b ∉ dta.reverse.map litVar := by
    intro b hb
    have hbmem : b ∈ s.trail := by
      have hmem := head?_mem hb
      rwa [List.mem_reverse] at hmem
    have hbnin : litVar b ∉ dta.map litVar := by
      intro hm
      have hl0 := hdis _ hm
      have := (htr b hbmem).1
      omega
    refine ⟨?_, by
      intro hm
      rw [List.map_reverse, List.mem_reverse] at hm
      exact hbnin hm⟩
    rw [h.untouched (litVar b) hbnin, h.level]
    have := (htr b hbmem).2
    omega
  have hrevtrail : d.trail.reverse = dta.reverse ++ s.trail.reverse := by
    rw [h.trail, List.reverse_append]
  obtain ⟨p1, p2, p3, p4, p5, p6, p7, p8, p9, p10⟩ :=
    popTrailGo_append d.level s.trail.reverse dta.reverse d
      (fun x hx => by
        rw [List.mem_reverse] at hx
        rw [h.dlevel x hx, h.level])
      (by rw [List.map_reverse]; exact List.nodup_reverse.mpr h.dnodup)
      (fun x hx => by
        rw [List.mem_reverse] at hx
        rcases h.dbound x hx with hb | hb
        · exact Or.inl hb
        · exact Or.inr (by rw [h.varsLen]; exact hb))
      htrail_ne
  rw [← hrevtrail] at p1 p2 p3 p4 p5 p6 p7
  obtain ⟨q1, q2, q3, q4, q5, q6, q7⟩ := revive_fold_misc sig
    { (popTrailGo d.level d.trail.reverse d).2 with
        trail := (popTrailGo d.level d.trail.reverse d).1.reverse }
  have hvarsO : ∀ i, i < s.origClauses.length →
      (((sig.foldl (fun (st : SatState) cid => st.modifyClause cid fun c =>
        { c with isSubsumed := false })
      { (popTrailGo d.level d.trail.reverse d).2 with
        trail := (popTrailGo d.level d.trail.reverse d).1.reverse }).origClauses.getD i junkClause)).isSubsumed =
      (s.origClauses.getD i junkClause).isSubsumed := by
    intro i hi
    have hdlen : i < d.origClauses.length := by
      rw [core_len h.origCore]
      exact hi
    have hslen : i < ({ (popTrailGo d.level d.trail.reverse d).2 with
        trail := (popTrailGo d.level d.trail.reverse d).1.reverse } : SatState).origClauses.length := by
      show i < (popTrailGo d.level d.trail.reverse d).2.origClauses.length
      rw [p4]
      exact hdlen
    rw [revive_fold_orig sig _ i hslen]
    have hflip : (({ (popTrailGo d.level d.trail.reverse d).2 with
        trail := (popTrailGo d.level d.trail.reverse d).1.reverse } : SatState).origClauses.getD i junkClause).isSubsumed =
        (d.origClauses.getD i junkClause).isSubsumed := by
      show (((popTrailGo d.level d.trail.reverse d).2.origClauses.getD i junkClause)).isSubsumed = _
      rw [p4]
    by_cases hs : (i + 1) ∈ sig
    · rw [if_pos hs, (h.oflag i hi).1 hs]
    · rw [if_neg hs, hflip]
      exact (h.oflag i hi).2 hs
  have hvarsL : ∀ j, j < s.learned.length →
      (((sig.foldl (fun (st : SatState) cid => st.modifyClause cid fun c =>
        { c with isSubsumed := false })
      { (popTrailGo d.level d.trail.reverse d).2 with
        trail := (popTrailGo d.level d.trail.reverse d).1.reverse }).learned.getD j junkClause)).isSubsumed =
      (s.learned.getD j junkClause).isSubsumed := by
    intro j hj
    have hdlen : j < d.learned.length := by
      rw [core_len h.learnedCore]
      exact hj
    have hslen : j < ({ (popTrailGo d.level d.trail.reverse d).2 with
        trail := (popTrailGo d.level d.trail.reverse d).1.reverse } : SatState).learned.length := by
      show j < (popTrailGo d.level d.trail.reverse d).2.learned.length
      rw [p5]
      exact hdlen
    rw [revive_fold_learned sig _ j hslen]
    have hget : ({ (popTrailGo d.level d.trail.reverse d).2 with
        trail := (popTrailGo d.level d.trail.reverse d).1.reverse } : SatState).learned.getD j junkClause =
        d.learned.getD j junkClause := by
      show (popTrailGo d.level d.trail.reverse d).2.learned.getD j junkClause = _
      rw [p5]
    have holen : ({ (popTrailGo d.level d.trail.reverse d).2 with
        trail := (popTrailGo d.level d.trail.reverse d).1.reverse } : SatState).origClauses.length = s.origClauses.length := by
      show (popTrailGo d.level d.trail.reverse d).2.origClauses.length = _
      rw [p4, core_len h.origCore]
    have hid := (core_pointwise h.learnedCore j hdlen).1
    have hgts := hgtm _ (getD_mem_of_lt s.learned junkClause j hj)
    rw [hget, holen, hid]
    by_cases hs : (s.learned.getD j junkClause).id ∈ sig
    · rw [if_pos ⟨hs, hgts⟩, (h.lflag j hj).1 hs]
    · rw [if_neg (fun hand => hs hand.1)]
      exact (h.lflag j hj).2 hs
  have hpair : popLogGo ({ (popTrailGo d.level d.trail.reverse d).2 with
        trail := (popTrailGo d.level d.trail.reverse d).1.reverse } : SatState).subsumedLog
      { (popTrailGo d.level d.trail.reverse d).2 with
        trail := (popTrailGo d.level d.trail.reverse d).1.reverse } =
      (s.subsumedLog, (sig.foldl (fun (st : SatState) cid => st.modifyClause cid fun c =>
        { c with isSubsumed := false })
      { (popTrailGo d.level d.trail.reverse d).2 with
        trail := (popTrailGo d.level d.trail.reverse d).1.reverse })) := by
    rw [show ({ (popTrailGo d.level d.trail.reverse d).2 with
        trail := (popTrailGo d.level d.trail.reverse d).1.reverse } : SatState).subsumedLog =
      sig.map some ++ none :: s.subsumedLog from p6.trans h.log]
    exact popLogGo_append s.subsumedLog sig _
  have hstep : sat_undo_decide_literal d =
      { (sig.foldl (fun (st : SatState) cid => st.modifyClause cid fun c =>
        { c with isSubsumed := false })
      { (popTrailGo d.level d.trail.reverse d).2 with
        trail := (popTrailGo d.level d.trail.reverse d).1.reverse }) with
        subsumedLog := s.subsumedLog, queue := [], level := d.level - 1 } := by
    calc sat_undo_decide_literal d
        = { (popLogGo ({ (popTrailGo d.level d.trail.reverse d).2 with
        trail := (popTrailGo d.level d.trail.reverse d).1.reverse } : SatState).subsumedLog { (popTrailGo d.level d.trail.reverse d).2 with
        trail := (popTrailGo d.level d.trail.reverse d).1.reverse }).2 with
            subsumedLog := (popLogGo ({ (popTrailGo d.level d.trail.reverse d).2 with
        trail := (popTrailGo d.level d.trail.reverse d).1.reverse } : SatState).subsumedLog { (popTrailGo d.level d.trail.reverse d).2 with
        trail := (popTrailGo d.level d.trail.reverse d).1.reverse }).1,
            queue := [], level := d.level - 1 } := rfl
      _ = { (s.subsumedLog, (sig.foldl (fun (st : SatState) cid => st.modifyClause cid fun c =>
        { c with isSubsumed := false })
      { (popTrailGo d.level d.trail.reverse d).2 with
        trail := (popTrailGo d.level d.trail.reverse d).1.reverse })).2 with
            subsumedLog := (s.subsumedLog, (sig.foldl (fun (st : SatState) cid => st.modifyClause cid fun c =>
        { c with isSubsumed := false })
      { (popTrailGo d.level d.trail.reverse d).2 with
        trail := (popTrailGo d.level d.trail.reverse d).1.reverse })).1,
            queue := [], level := d.level - 1 } := by rw [hpair]
      _ = { (sig.foldl (fun (st : SatState) cid => st.modifyClause cid fun c =>
        { c with isSubsumed := false })
      { (popTrailGo d.level d.trail.reverse d).2 with
        trail := (popTrailGo d.level d.trail.reverse d).1.reverse }) with
            subsumedLog := s.subsumedLog, queue := [], level := d.level - 1 } := rfl
  rw [hstep]
  refine ⟨?_, ?_, rfl, hq.symm, ?_, ?_, ?_, ?_, ?_⟩
  · show d.level - 1 = s.level
    rw [h.level]
    omega
  · exact q2.trans ((congrArg List.reverse p1).trans s.trail.reverse_reverse)
  · exact q4.trans (p7.trans (h.varsLen))
  · intro v
    show sat_instantiated_var (sig.foldl (fun (st : SatState) cid => st.modifyClause cid fun c =>
        { c with isSubsumed := false })
      { (popTrailGo d.level d.trail.reverse d).2 with
        trail := (popTrailGo d.level d.trail.reverse d).1.reverse }) v = sat_instantiated_var s v
    unfold sat_instantiated_var
    rw [q5 v]
    rw [show ({ (popTrailGo d.level d.trail.reverse d).2 with
        trail := (popTrailGo d.level d.trail.reverse d).1.reverse } : SatState).getDecision v =
      (popTrailGo d.level d.trail.reverse d).2.getDecision v from rfl]
    by_cases hv : v ∈ dta.map litVar
    · rw [p3 v (by rw [List.map_reverse, List.mem_reverse]; exact hv), hdis v hv]
    · rw [p2 v (by rw [List.map_reverse, List.mem_reverse]; exact hv),
        h.untouched v hv]
  · intro v hvinst
    have hv : v ∉ dta.map litVar := by
      intro hm
      have hs0 := hdis v hm
      unfold sat_instantiated_var at hvinst
      simp at hvinst
      omega
    exact ((q5 v).trans
      (p2 v (by rw [List.map_reverse, List.mem_reverse]; exact hv))).trans
      (h.untouched v hv)
  · have hcoreO : (sig.foldl (fun (st : SatState) cid => st.modifyClause cid fun c =>
        { c with isSubsumed := false })
      { (popTrailGo d.level d.trail.reverse d).2 with
        trail := (popTrailGo d.level d.trail.reverse d).1.reverse }).origClauses.map Clause.core =
        s.origClauses.map Clause.core := by
      refine q6.trans ?_
      show (popTrailGo d.level d.trail.reverse d).2.origClauses.map Clause.core = _
      rw [p4]
      exact h.origCore
    refine sem_map_eq hcoreO ?_
    intro i hi
    refine hvarsO i ?_
    have hi2 : i < (sig.foldl (fun (st : SatState) cid => st.modifyClause cid fun c =>
        { c with isSubsumed := false })
      { (popTrailGo d.level d.trail.reverse d).2 with
        trail := (popTrailGo d.level d.trail.reverse d).1.reverse }).origClauses.length := hi
    have hlen2 := congrArg List.length hcoreO
    simp only [List.length_map] at hlen2
    exact hlen2 ▸ hi2
  · have hcoreL : (sig.foldl (fun (st : SatState) cid => st.modifyClause cid fun c =>
        { c with isSubsumed := false })
      { (popTrailGo d.level d.trail.reverse d).2 with
        trail := (popTrailGo d.level d.trail.reverse d).1.reverse }).learned.map Clause.core =
        s.learned.map Clause.core := by
      refine q7.trans ?_
      show (popTrailGo d.level d.trail.reverse d).2.learned.map Clause.core = _
      rw [p5]
      exact h.learnedCore
    refine sem_map_eq hcoreL ?_
    intro j hj
    refine hvarsL j ?_
    have hj2 : j < (sig.foldl (fun (st : SatState) cid => st.modifyClause cid fun c =>
        { c with isSubsumed := false })
      { (popTrailGo d.level d.trail.reverse d).2 with
        trail := (popTrailGo d.level d.trail.reverse d).1.reverse }).learned.length := hj
    have hlen2 := congrArg List.length hcoreL
    simp only [List.length_map] at hlen2
    exact hlen2 ▸ hj2


instance (s : SatState) (p : Int) : Decidable (LitOK s p) := by
  unfold LitOK
  infer_instance

instance (s : SatState) (c : Clause) : Decidable (ClauseOK s c) := by
  unfold ClauseOK
  infer_instance

instance (s : SatState) : Decidable (DecideWF s) := by
  unfold DecideWF
  infer_instance

/-- The state on `p cnf 2 1 / 1 0` after the driver has run the first
`sat_unit_resolution`: the root unit has been propagated, the queue is
empty, variable 2 is untouched, and the driver is free to decide. -/
def c4s : SatState := (sat_unit_resolution stateTwoVars).2

/-- C4 counterexample: deciding literal `2` and undoing does not restore
variable 2's decision record.  `unset_Var_Decision` clears only the
`level` field, so the stale `value = true` written by the decide survives
the undo, contradicting the claim that every variable's decision record
is restored to the pre-decide snapshot. -/
theorem C4_counterexample :
    c4s.queue = [] ∧
    sat_instantiated_var c4s 2 = false ∧
    ((sat_undo_decide_literal (sat_decide_literal 2 c4s).2).getDecision 2).value ≠
      (c4s.getDecision 2).value := by decide

/-- C4 amended: on a well-formed state with an empty propagate queue,
`sat_decide_literal l` followed by `sat_undo_decide_literal` restores
every field the rest of the engine can observe: the decision level, the
trail, the subsumption log, the queue, the variable count, the
instantiation status of every variable, the full decision record of every
variable that was instantiated before the decide, and the id, assertion
level, literal list and `is_subsumed` flag of every clause.  The claim's
stronger reading — bit-restoration of every variable's decision record —
fails because `unset_Var_Decision` zeroes only the `level` field and
leaves `value`, `implied_by`, `dominator` and `order` stale on the
variables the decide had touched (see the counterexample). -/
theorem C4_decide_undo_roundtrip (s : SatState) (l : Int)
    (hwf : DecideWF s) (hl : LitOK s l)
    (hfresh : sat_instantiated_var s (litVar l) = false) :
    SemEq s (sat_undo_decide_literal (sat_decide_literal l s).2) := by
  obtain ⟨dta, sig, live, hinv⟩ := decide_post s l hwf hl hfresh
  exact undo_restores hwf hinv

/-- The round trip on the concrete post-propagation state `c4s`, deciding
literal `2`. -/
theorem C4_decide_undo_roundtrip_witness :
    DecideWF c4s ∧ LitOK c4s 2 ∧
    sat_instantiated_var c4s (litVar 2) = false ∧
    SemEq c4s (sat_undo_decide_literal (sat_decide_literal 2 c4s).2) :=
  ⟨by decide, by decide, by decide,
   C4_decide_undo_roundtrip c4s 2 (by decide) (by decide) (by decide)⟩

end SatApi
